import Mathlib

/-!
# ReadGeiger: history-frame decoder and anomaly scanner

A shallow embedding of `ReadGeiger.cpp` / `ReadGeiger.h` and theorems about it.

Conventions of the embedding.

* `uchar`, `ushort`, `ulong` and `DWORD` values are natural numbers; every place where the
  source can wrap is written with an explicit `% 2^w` (`ulong` and `DWORD` are 32 bits wide on
  the Windows targets this program is written for).
* `entireFlashImage` is an array of plain `char`.  Plain `char` is signed here: the source
  casts to `(uchar)` before every `%u`, copies bytes into `uchar` temporaries because the
  direct comparison with `RawDataTerm2` "fails despite the fact that the byte is in fact the
  second terminator byte", and its marker-skipping loop only works when that comparison is
  always unequal.  A stored byte is kept as its bit pattern `0..255`; `charToInt` is the
  integral promotion of the signed `char`.
* An access outside an array, a division by zero and an exhausted loop budget are faults.
-/

namespace ReadGeiger

/-! ## Constants (`ReadGeiger.h`) -/

def MAX_FLASH_MEMORY : Nat := 0xFFFF

def MAX_DATA_READ_BLOCK_SIZE : Nat := 2048

def RawDataHeaderTimestamp : Nat := 0

def RawDataHeaderCPSIsDoubleByte : Nat := 1

def RawDataHeaderCPSLocationData : Nat := 2

def RawDataHeaderTripleByteCPS : Nat := 3

def RawDataHeader4ByteCPS : Nat := 4

def RawDataHeaderWhichTubeIsSelected : Nat := 5

def RawDataHeaderEndOfData : Nat := 0xFF

def RawDataTerm1 : Nat := 0x55

def RawDataTerm2 : Nat := 0xAA

/-! ## Faults and machine values -/

/-- Ways in which the C++ code leaves defined behaviour (or the model its loop budget). -/
inductive Fault where
  | outOfBounds
  | divideByZero
  | floatOutOfRange
  | outOfFuel
  deriving DecidableEq, Repr

deriving instance DecidableEq for Except

/-- The downloaded flash image.  Cell `i` of `entireFlashImage` holds entry `i` of the list
(taken modulo 256); the array has static storage, so cells the list does not cover hold 0,
and entries at positions `MAX_FLASH_MEMORY` and beyond are not part of the array. -/
abbrev Image := List Nat

/-- A full image of `MAX_FLASH_MEMORY` bytes: `data` followed by erased flash cells (`0xFF`). -/
def flashImage (data : List Nat) : Image :=
  data ++ List.replicate (MAX_FLASH_MEMORY - data.length) 0xFF

/-- The bit pattern (0..255) of `entireFlashImage[i]`; an index outside the array is a fault. -/
def flashByte (img : Image) (i : Nat) : Except Fault Nat :=
  if i < MAX_FLASH_MEMORY then .ok (img.getD i 0 % 256) else .error .outOfBounds

/-- Integral promotion of a (signed) `char` with bit pattern `b`. -/
def charToInt (b : Nat) : Int :=
  if b % 256 < 128 then (b % 256 : Nat) else ((b % 256 : Nat) : Int) - 256

/-- Conversion of an `int` to `ushort`. -/
def toUshort (x : Int) : Nat := (x % 65536).toNat

/-- Conversion of an `int` to `ulong` (32 bits). -/
def toUlong (x : Int) : Nat := (x % 4294967296).toNat

/-- The expression
`ushort theDoubleCount = (entireFlashImage[i++] << 8) + entireFlashImage[i++];`
with `first` the byte read by the left operand and `second` the byte read by the right one
(operands taken left to right, as the accompanying comment "the MSB and the LSB" has it).
Both operands are plain `char` promoted to `int`. -/
def theDoubleCount (first second : Nat) : Nat :=
  toUshort (charToInt first * 256 + charToInt second)

/-- The condition `RawDataTerm2 != entireFlashImage[currentImageIndex]`: a `uchar` constant
against a plain `char`, both promoted to `int`. -/
def differsFromTerm2 (b : Nat) : Bool :=
  decide ((RawDataTerm2 : Int) ≠ charToInt b)

/-! ## `ExtractClicksPerMinuteFromRawData` -/

/-- Variables of `ExtractClicksPerMinuteFromRawData`: its locals, its two reference
parameters and the global `listCPMData`. -/
structure ExtractState where
  currentImageIndex : Nat
  endOfValidData : Bool
  listCPMData : List Nat
  ru16_Lowest : Nat
  ru16_Highest : Nat
  deriving DecidableEq, Repr

/-- The statements shared by the double-byte case and the bare-run loop:
`listCPMData.push_back(c)` followed by the two lowest/highest updates. -/
def ExtractState.record (s : ExtractState) (c : Nat) : ExtractState :=
  { s with
    listCPMData := s.listCPMData ++ [c]
    ru16_Lowest := if c < s.ru16_Lowest then c else s.ru16_Lowest
    ru16_Highest := if c > s.ru16_Highest then c else s.ru16_Highest }

/-- The `default:` loop of `ExtractClicksPerMinuteFromRawData`
(`while (false == endOfCPMData && currentImageIndex < (MAX_FLASH_MEMORY - 1))`).
`endOfCPMData` is never true at the loop test, both terminator branches leave by `break`. -/
def extractBareRun (img : Image) : Nat → ExtractState → Except Fault ExtractState
  | 0, _ => .error .outOfFuel
  | fuel + 1, s =>
    if s.currentImageIndex < MAX_FLASH_MEMORY - 1 then
      match flashByte img s.currentImageIndex, flashByte img (s.currentImageIndex + 1) with
      | .ok testbyte1, .ok testbyte2 =>
        if testbyte1 = RawDataTerm1 ∧ testbyte2 = RawDataTerm2 then
          .ok { s with currentImageIndex := s.currentImageIndex + 2 }
        else if testbyte1 = RawDataHeaderEndOfData ∧ testbyte2 = RawDataHeaderEndOfData then
          .ok { s with currentImageIndex := s.currentImageIndex + 2 }
        else
          -- `ushort theCount = static_cast<ushort>(entireFlashImage[currentImageIndex++]);`
          extractBareRun img fuel
            ({ s with currentImageIndex := s.currentImageIndex + 1 }.record
              (toUshort (charToInt testbyte1)))
      | .error e, _ => .error e
      | _, .error e => .error e
    else .ok s

/-- The `switch (headerRecord)` of `ExtractClicksPerMinuteFromRawData`; `s.currentImageIndex`
already points past the header byte. -/
def extractDispatch (img : Image) (headerRecord : Nat) (s : ExtractState) :
    Except Fault ExtractState :=
  if headerRecord = RawDataHeaderTimestamp then
    .ok { s with currentImageIndex := s.currentImageIndex + 9 }
  else if headerRecord = RawDataHeaderCPSIsDoubleByte then
    match flashByte img s.currentImageIndex, flashByte img (s.currentImageIndex + 1) with
    | .ok b0, .ok b1 =>
      .ok ({ s with currentImageIndex := s.currentImageIndex + 2 }.record (theDoubleCount b0 b1))
    | .error e, _ => .error e
    | _, .error e => .error e
  else if headerRecord = RawDataHeaderCPSLocationData then
    match flashByte img s.currentImageIndex with
    | .ok stringLength =>
      .ok { s with currentImageIndex := s.currentImageIndex + 1 + stringLength }
    | .error e => .error e
  else if headerRecord = RawDataTerm1 then
    -- `while (RawDataTerm2 != image[i] && i < MAX_FLASH_MEMORY - 1) { i++; break; }`
    match flashByte img s.currentImageIndex with
    | .ok b =>
      if differsFromTerm2 b ∧ s.currentImageIndex < MAX_FLASH_MEMORY - 1 then
        .ok { s with currentImageIndex := s.currentImageIndex + 1 }
      else .ok s
    | .error e => .error e
  else if headerRecord = RawDataHeaderEndOfData then
    .ok { s with endOfValidData := true }
  else
    extractBareRun img MAX_FLASH_MEMORY s

/-- The outer loop of `ExtractClicksPerMinuteFromRawData`
(`while (currentImageIndex < (MAX_FLASH_MEMORY - 1) && FALSE == endOfValidData)`). -/
def extractLoop (img : Image) : Nat → ExtractState → Except Fault ExtractState
  | 0, _ => .error .outOfFuel
  | fuel + 1, s =>
    if s.currentImageIndex < MAX_FLASH_MEMORY - 1 ∧ s.endOfValidData = false then
      match flashByte img s.currentImageIndex with
      | .ok headerRecord =>
        match extractDispatch img headerRecord
            { s with currentImageIndex := s.currentImageIndex + 1 } with
        | .ok s' => extractLoop img fuel s'
        | .error e => .error e
      | .error e => .error e
    else .ok s

/-- The call `ExtractClicksPerMinuteFromRawData(ru16_Lowest, ru16_Highest)` on image `img` while
the global `listCPMData` holds `listCPMData`.  The state returned holds the list and the two
outputs; `hasClicksPerMinute = true` is set by the caller model. -/
def ExtractClicksPerMinuteFromRawData (img : Image) (listCPMData : List Nat) :
    Except Fault ExtractState :=
  extractLoop img MAX_FLASH_MEMORY
    { currentImageIndex := 0 + 2
      endOfValidData := false
      listCPMData := listCPMData
      ru16_Lowest := 0xFFFF
      ru16_Highest := 0x0000 }

/-! ## `ExportCSVFile` -/

/-- The table `theMonths`. -/
def theMonths : List String :=
  ["Jan", "Feb", "Mar", "Apr", "May", "Jun", "Jul", "Aug", "Sep", "Oct", "Nov", "Dec"]

/-- The conversion `%02u`: decimal, padded with a zero to two digits. -/
def fmt02u (n : Nat) : String :=
  if n < 10 then "0" ++ toString n else toString n

/-- The call `sprintf_s(currentTimestamp, "%02u/%s/%02u %02u:%02u:%02u", theDay,
theMonths[theMonth], theYear, theHour, theMinute, theSecond)`.  The table is indexed with
`theMonth` itself; an index of 12 or more reads past the table. -/
def formatTimestamp (theDay theMonth theYear theHour theMinute theSecond : Nat) :
    Except Fault String :=
  match theMonths[theMonth]? with
  | some name =>
    .ok (fmt02u theDay ++ "/" ++ name ++ "/" ++ fmt02u theYear ++ " " ++
      fmt02u theHour ++ ":" ++ fmt02u theMinute ++ ":" ++ fmt02u theSecond)
  | none => .error .outOfBounds

/-- A content of `outputRecord`: the arguments of `sprintf_s(outputRecord, "%s,%u\n", ...)`. -/
structure OutputRecord where
  timestamp : String
  count : Nat
  deriving DecidableEq, Repr

/-- The text `sprintf_s(outputRecord, "%s,%u\n", ...)` produces. -/
def OutputRecord.text (r : OutputRecord) : String :=
  r.timestamp ++ "," ++ toString r.count ++ "\n"

/-- Variables of `ExportCSVFile`.  `labelStores` is the global `labelString`, kept as the
sequence of stores `(index, value)` made into it, oldest first; a cell never stored to holds 0
(static storage).  The index of every store is kept as the code computes it, whether or not
it lies inside the 255 cells of the array.  `formatted` lists every content `outputRecord` is
given by `sprintf_s`, `written` the ones handed to `WriteFile`. -/
structure ExportState where
  currentImageIndex : Nat
  endOfValidData : Bool
  foundLocationString : Bool
  theYear : Nat
  theMonth : Nat
  theDay : Nat
  theHour : Nat
  theMinute : Nat
  theSecond : Nat
  theRecordRate : Nat
  currentTimestamp : String
  labelStores : List (Nat × Nat)
  formatted : List OutputRecord
  written : List OutputRecord
  deriving DecidableEq, Repr

/-- Number of cells of `labelString`. -/
def labelStringSize : Nat := 255

/-- The value of cell `k` of `labelString` after the stores `stores`: the stores replayed in
order on a cell that starts at 0. -/
def labelCell (stores : List (Nat × Nat)) (k : Nat) : Nat :=
  stores.foldl (fun v w => if w.1 = k then w.2 else v) 0

/-- The assignment `labelString[k] = v`.  The store is logged with the index the code
computes; an index of `labelStringSize` or more is a store outside the array, which the code
makes for a length byte of 255 (the terminator goes to index 255). -/
def ExportState.storeLabel (s : ExportState) (k v : Nat) : ExportState :=
  { s with labelStores := s.labelStores ++ [(k, v)] }

/-- The `for (uchar thisOctet = 0; thisOctet < stringLength; thisOctet++)` loop of the
location case; the first argument is `stringLength - thisOctet`, the iterations left. -/
def exportLabelLoop (img : Image) : Nat → Nat → ExportState → Except Fault ExportState
  | 0, _, s => .ok s
  | n + 1, thisOctet, s =>
    match flashByte img s.currentImageIndex with
    | .ok b =>
      let s1 := { s with currentImageIndex := s.currentImageIndex + 1 }.storeLabel thisOctet b
      let s2 := if labelCell s1.labelStores thisOctet = 44 then s1.storeLabel thisOctet 32 else s1
      exportLabelLoop img n (thisOctet + 1) s2
    | .error e => .error e

/-- The clock update of the bare-run loop:
`if (++theMinute >= 60) { theMinute = 0; if (++theHour >= 60) { theHour = 0; ++theDay; } }`
on `uchar` variables. -/
def ExportState.tick (s : ExportState) : ExportState :=
  let minute := (s.theMinute + 1) % 256
  if minute ≥ 60 then
    let hour := (s.theHour + 1) % 256
    if hour ≥ 60 then
      { s with theMinute := 0, theHour := 0, theDay := (s.theDay + 1) % 256 }
    else
      { s with theMinute := 0, theHour := hour }
  else
    { s with theMinute := minute }

/-- The `default:` loop of `ExportCSVFile`
(`while (false == endOfCPMData && currentImageIndex < (MAX_FLASH_MEMORY - 1))`); both
branches that set `endOfCPMData` leave by `break`. -/
def exportBareRun (img : Image) : Nat → ExportState → Except Fault ExportState
  | 0, _ => .error .outOfFuel
  | fuel + 1, s =>
    if s.currentImageIndex < MAX_FLASH_MEMORY - 1 then
      match flashByte img s.currentImageIndex, flashByte img (s.currentImageIndex + 1) with
      | .ok testbyte1, .ok testbyte2 =>
        if testbyte1 = RawDataTerm1 ∧ testbyte2 = RawDataTerm2 then
          .ok { s with currentImageIndex := s.currentImageIndex + 2 }
        else if testbyte1 = RawDataHeaderEndOfData ∧ testbyte2 = RawDataHeaderEndOfData then
          .ok { s with currentImageIndex := s.currentImageIndex + 2 }
        else
          -- `(uchar)entireFlashImage[currentImageIndex]` is the bit pattern itself
          let r : OutputRecord := { timestamp := s.currentTimestamp, count := testbyte1 }
          let s1 := { s with
            formatted := s.formatted ++ [r]
            written := if testbyte1 > 0 then s.written ++ [r] else s.written }
          let s2 := s1.tick
          match formatTimestamp s2.theDay s2.theMonth s2.theYear s2.theHour s2.theMinute
              s2.theSecond with
          | .ok t =>
            exportBareRun img fuel
              { s2 with currentTimestamp := t, currentImageIndex := s2.currentImageIndex + 1 }
          | .error e => .error e
      | .error e, _ => .error e
      | _, .error e => .error e
    else .ok s

/-- The `switch (headerRecord)` of `ExportCSVFile`; `s.currentImageIndex` already points past
the header byte. -/
def exportDispatch (img : Image) (headerRecord : Nat) (s : ExportState) :
    Except Fault ExportState :=
  let i := s.currentImageIndex
  if headerRecord = RawDataTerm1 then
    -- `while (RawDataTerm2 != image[i] && i < MAX_FLASH_MEMORY - 1) { i++; break; }`
    match flashByte img i with
    | .ok b =>
      if differsFromTerm2 b ∧ i < MAX_FLASH_MEMORY - 1 then
        .ok { s with currentImageIndex := i + 1 }
      else .ok s
    | .error e => .error e
  else if headerRecord = RawDataHeaderTimestamp then
    match flashByte img i, flashByte img (i + 1), flashByte img (i + 2), flashByte img (i + 3),
        flashByte img (i + 4), flashByte img (i + 5), flashByte img (i + 8) with
    | .ok year, .ok month, .ok day, .ok hour, .ok minute, .ok second, .ok rate =>
      match formatTimestamp day month year hour minute second with
      | .ok t =>
        .ok { s with
          currentImageIndex := i + 9
          theYear := year, theMonth := month, theDay := day
          theHour := hour, theMinute := minute, theSecond := second
          theRecordRate := rate
          currentTimestamp := t }
      | .error e => .error e
    | _, _, _, _, _, _, _ => .error .outOfBounds
  else if headerRecord = RawDataHeaderCPSIsDoubleByte then
    match flashByte img i, flashByte img (i + 1) with
    | .ok b0, .ok b1 =>
      let r : OutputRecord := { timestamp := s.currentTimestamp, count := theDoubleCount b0 b1 }
      .ok { s with
        currentImageIndex := i + 2
        formatted := s.formatted ++ [r]
        written := s.written ++ [r] }
    | _, _ => .error .outOfBounds
  else if headerRecord = RawDataHeaderCPSLocationData then
    match flashByte img i with
    | .ok stringLength =>
      match exportLabelLoop img stringLength 0 { s with currentImageIndex := i + 1 } with
      | .ok s1 => .ok { s1.storeLabel stringLength 0 with foundLocationString := true }
      | .error e => .error e
    | .error e => .error e
  else if headerRecord = RawDataHeaderEndOfData then
    .ok { s with endOfValidData := true }
  else
    exportBareRun img MAX_FLASH_MEMORY s

/-- The decode loop of `ExportCSVFile`
(`while (currentImageIndex < (MAX_FLASH_MEMORY - 1) && false == endOfValidData)`). -/
def exportLoop (img : Image) : Nat → ExportState → Except Fault ExportState
  | 0, _ => .error .outOfFuel
  | fuel + 1, s =>
    if s.currentImageIndex < MAX_FLASH_MEMORY - 1 ∧ s.endOfValidData = false then
      match flashByte img s.currentImageIndex with
      | .ok headerRecord =>
        match exportDispatch img headerRecord
            { s with currentImageIndex := s.currentImageIndex + 1 } with
        | .ok s' => exportLoop img fuel s'
        | .error e => .error e
      | .error e => .error e
    else .ok s

/-- The values the locals `theYear` ... `theRecordRate` of `ExportCSVFile` hold before a
timestamp frame assigns them; the source declares them without an initialiser. -/
structure StaleLocals where
  theYear : Nat
  theMonth : Nat
  theDay : Nat
  theHour : Nat
  theMinute : Nat
  theSecond : Nat
  theRecordRate : Nat
  deriving DecidableEq, Repr

/-- The state in which the decode loop of `ExportCSVFile` starts: `currentImageIndex = 0`,
`currentTimestamp` empty, nothing written; `labelStores` is what `labelString` holds from
earlier runs. -/
def exportStart (stale : StaleLocals) (labelStores : List (Nat × Nat)) : ExportState :=
  { currentImageIndex := 0
    endOfValidData := false
    foundLocationString := false
    theYear := stale.theYear % 256
    theMonth := stale.theMonth % 256
    theDay := stale.theDay % 256
    theHour := stale.theHour % 256
    theMinute := stale.theMinute % 256
    theSecond := stale.theSecond % 256
    theRecordRate := stale.theRecordRate % 256
    currentTimestamp := ""
    labelStores := labelStores
    formatted := []
    written := [] }

/-- The decode loop of `ExportCSVFile` run from its start state (the output file is taken
to have been created). -/
def ExportCSVFile (img : Image) (stale : StaleLocals) (labelStores : List (Nat × Nat)) :
    Except Fault ExportState :=
  exportLoop img MAX_FLASH_MEMORY (exportStart stale labelStores)

/-! ## binary32 arithmetic of `ScanRawDataForHighPeriods`

Every `float` that function computes is a non-negative multiple of `2^-25`.  Such a value is
carried as its numerator over `2^25`; operations round to nearest, ties to even, on a 24-bit
significand. -/

/-- Number of low bits to drop from `n` so that at most 24 significant bits remain. -/
def f32Shift : Nat → Nat → Nat
  | 0, _ => 0
  | fuel + 1, n => if n < 2 ^ 24 then 0 else f32Shift fuel (n / 2) + 1

/-- Rounding of `n` to a multiple of `p`: to the nearest one, and of two equally near ones
to the even multiple. -/
def roundHalfEven (p n : Nat) : Nat :=
  let q := n / p
  let r := n % p
  if 2 * r > p ∨ (2 * r = p ∧ q % 2 = 1) then (q + 1) * p else q * p

/-- Rounding of the value `n / 2^25` to binary32 (nearest, ties to even), as a numerator over
`2^25`. -/
def f32Round (n : Nat) : Nat :=
  roundHalfEven (2 ^ f32Shift 128 n) n

/-- The literal `0.30f`: the binary32 nearest to 3/10 is `10066330 / 2^25`. -/
def f32PointThree : Nat := 10066330

/-- The conversion `static_cast<float>(m)` of a `ulong`. -/
def f32OfUlong (m : Nat) : Nat := f32Round (m * 2 ^ 25)

/-- The conversion `static_cast<ulong>(x)` of a `float`: truncation, undefined when the
truncated value does not fit 32 bits. -/
def f32ToUlong (x : Nat) : Except Fault Nat :=
  if x / 2 ^ 25 < 2 ^ 32 then .ok (x / 2 ^ 25) else .error .floatOutOfRange

/-- The two statements
`entireAveragePlus30Percent = 0.30f * static_cast<float>(average);`
`entireAveragePlus30Percent += static_cast<float>(average);`
(the converted average is an integer, so the product is a multiple of `2^-25`). -/
def entireAveragePlus30Percent (average : Nat) : Nat :=
  let asFloat := f32OfUlong average
  let product := f32Round (f32PointThree * (asFloat / 2 ^ 25))
  f32Round (product + asFloat)

/-! ## The anomaly scan -/

/-- The `printf` calls of the scan functions, with their arguments. -/
inductive ConsoleLine where
  | retrievingRawData
  | extractingClicks
  | elementCount (n : Nat)
  | average (m : Nat)
  | lowestHighest (lowest highest : Nat)
  | thresholds (plus30 : Nat) (superHigh : Nat)
  | searching
  | highInterval (index minutes average : Nat)
  | noHighIntervals
  | superHighEvents (n : Nat)
  | noSuperHighEvents
  | blankLines
  deriving DecidableEq, Repr

/-- The summing loop of `ComputeAverageAcrossAllCPMData`: a `ulong` accumulator over the
`ushort` entries. -/
def sumCPMData (listCPMData : List Nat) : Nat :=
  listCPMData.foldl (fun accumulationValue c => (accumulationValue + c % 65536) % 2 ^ 32) 0

/-- The function `ComputeAverageAcrossAllCPMData()` on the global `listCPMData`:
`accumulationValue /= listCPMData.size()`. -/
def ComputeAverageAcrossAllCPMData (listCPMData : List Nat) : Except Fault Nat :=
  if listCPMData.length = 0 then .error .divideByZero
  else .ok (sumCPMData listCPMData / listCPMData.length)

/-- Variables of `ScanTenMinuteIntervalsForExcessHigh`, the console and the global
`listSuperHighEventIndexValues`. -/
structure ScanState where
  thisTenMinuteSegment : Nat
  accumulationValue : Nat
  whichTenMinuteBlock : Nat
  foundAnyHighSections : Bool
  iteratorCount : Nat
  console : List ConsoleLine
  listSuperHighEventIndexValues : List Nat
  deriving DecidableEq, Repr

/-- One iteration of the `for` loop of `ScanTenMinuteIntervalsForExcessHigh` on the list entry
`c`, the increment `iteratorCount++` included. -/
def scanStep (thisUpperValue superHighValue : Nat) (s : ScanState) (c : Nat) : ScanState :=
  let accumulationValue := (s.accumulationValue + c % 65536) % 2 ^ 32
  let thisTenMinuteSegment := (s.thisTenMinuteSegment + 1) % 256
  let s1 : ScanState :=
    if thisTenMinuteSegment = 10 then
      let average := accumulationValue / 10
      let s2 : ScanState :=
        if average ≥ thisUpperValue then
          { s with
            console := s.console ++
              [ConsoleLine.highInterval s.iteratorCount (s.whichTenMinuteBlock * 10) average]
            foundAnyHighSections := true
            listSuperHighEventIndexValues :=
              if average ≥ superHighValue then
                s.listSuperHighEventIndexValues ++ [toUlong (((c % 65536 : Nat) : Int) - 10)]
              else s.listSuperHighEventIndexValues }
        else s
      { s2 with
        thisTenMinuteSegment := 0
        accumulationValue := 0
        whichTenMinuteBlock := (s.whichTenMinuteBlock + 1) % 65536 }
    else
      { s with
        thisTenMinuteSegment := thisTenMinuteSegment
        accumulationValue := accumulationValue }
  { s1 with iteratorCount := (s1.iteratorCount + 1) % 65536 }

/-- The state in which the loop of `ScanTenMinuteIntervalsForExcessHigh` starts. -/
def scanStart (listSuperHighEventIndexValues : List Nat) : ScanState :=
  { thisTenMinuteSegment := 0
    accumulationValue := 0
    whichTenMinuteBlock := 0
    foundAnyHighSections := false
    iteratorCount := 0
    console := []
    listSuperHighEventIndexValues := listSuperHighEventIndexValues }

/-- The loop of `ScanTenMinuteIntervalsForExcessHigh` run over `listCPMData`. -/
def scanTenMinuteIntervals (thisUpperValue superHighValue : Nat) (listCPMData : List Nat)
    (listSuperHighEventIndexValues : List Nat) : ScanState :=
  listCPMData.foldl (scanStep thisUpperValue superHighValue)
    (scanStart listSuperHighEventIndexValues)

/-- The return value of `ScanTenMinuteIntervalsForExcessHigh(thisUpperValue, superHighValue)`
on the global `listCPMData`. -/
def ScanTenMinuteIntervalsForExcessHigh (thisUpperValue superHighValue : Nat)
    (listCPMData : List Nat) (listSuperHighEventIndexValues : List Nat) : Bool :=
  (scanTenMinuteIntervals thisUpperValue superHighValue listCPMData
    listSuperHighEventIndexValues).foundAnyHighSections

/-- The module-level variables the scan uses. -/
structure Globals where
  entireFlashImage : Image
  hasRawData : Bool
  hasClicksPerMinute : Bool
  listCPMData : List Nat
  listSuperHighEventIndexValues : List Nat
  deriving DecidableEq, Repr

/-- The arguments `ScanRawDataForHighPeriods` passes to `ScanTenMinuteIntervalsForExcessHigh`
for the average `average`: `static_cast<ulong>(entireAveragePlus30Percent)` and
`superHighValue = static_cast<ulong>(entireAveragePlus30Percent) * static_cast<ulong>(2)`. -/
def scanThresholds (average : Nat) : Except Fault (Nat × Nat) :=
  match f32ToUlong (entireAveragePlus30Percent average) with
  | .ok upper => .ok (upper, (upper * 2) % 2 ^ 32)
  | .error e => .error e

/-- The block of `ScanRawDataForHighPeriods` guarded by `listCPMData.size() > 0`; `lowest` and
`highest` are the locals `lowestKnownValue` and `highestKnownValue`. -/
def evaluateCPMData (g : Globals) (lowest highest : Nat) (console : List ConsoleLine) :
    Except Fault (Globals × List ConsoleLine) :=
  match ComputeAverageAcrossAllCPMData g.listCPMData with
  | .error e => .error e
  | .ok average =>
    match scanThresholds average with
    | .error e => .error e
    | .ok (upper, superHighValue) =>
      let console1 := console ++
        [ConsoleLine.average average, ConsoleLine.lowestHighest lowest highest,
          ConsoleLine.thresholds (entireAveragePlus30Percent average) superHighValue,
          ConsoleLine.searching]
      let scan := scanTenMinuteIntervals upper superHighValue g.listCPMData
        g.listSuperHighEventIndexValues
      let console2 := console1 ++ scan.console ++
        (if scan.foundAnyHighSections = false then [ConsoleLine.noHighIntervals] else [])
      let console3 := console2 ++
        (if scan.listSuperHighEventIndexValues.length > 0 then
          [ConsoleLine.superHighEvents scan.listSuperHighEventIndexValues.length]
        else [ConsoleLine.noSuperHighEvents])
      .ok ({ g with listSuperHighEventIndexValues := scan.listSuperHighEventIndexValues },
        console3 ++ [ConsoleLine.blankLines])

/-- The statement `if (false == hasClicksPerMinute) ExtractClicksPerMinuteFromRawData(
lowestKnownValue, highestKnownValue);` of `ScanRawDataForHighPeriods`: the globals after it
and the values of the two locals, which are initialised to 0. -/
def extractIfNeeded (g : Globals) : Except Fault (Globals × Nat × Nat) :=
  if g.hasClicksPerMinute = false then
    match ExtractClicksPerMinuteFromRawData g.entireFlashImage g.listCPMData with
    | .ok s =>
      .ok ({ g with listCPMData := s.listCPMData, hasClicksPerMinute := true },
        s.ru16_Lowest, s.ru16_Highest)
    | .error e => .error e
  else .ok (g, 0, 0)

/-- The part of `ScanRawDataForHighPeriods` that follows the acquisition of the raw data
(`if (true == hasRawData) ...`); `console` is what has been printed so far. -/
def scanAcquiredData (g : Globals) (console : List ConsoleLine) :
    Except Fault (Globals × List ConsoleLine) :=
  if g.hasRawData = true then
    match extractIfNeeded g with
    | .error e => .error e
    | .ok (g2, lowest, highest) =>
      let console3 := console ++
        [ConsoleLine.extractingClicks, ConsoleLine.elementCount g2.listCPMData.length]
      if g2.listCPMData.length > 0 then evaluateCPMData g2 lowest highest console3
      else .ok (g2, console3)
  else .ok (g, console)

/-- The function `ScanRawDataForHighPeriods()`; `acquire` stands for `AcquireAndStoreDeviceData()`, the
download over the serial link, in its effect on the module-level variables. -/
def ScanRawDataForHighPeriods (acquire : Globals → Globals) (g : Globals) :
    Except Fault (Globals × List ConsoleLine) :=
  if g.hasRawData = false then
    scanAcquiredData (acquire g) [ConsoleLine.retrievingRawData]
  else scanAcquiredData g []

/-! ## Images made of frames -/

/-- A stretch of the image that the decode loops take in one iteration: the two-byte frame
marker, or a frame (header byte and payload).  A timestamp frame carries six date and time
bytes, the two bytes the decoders skip (the device stores a frame marker there) and the
record-rate byte; a location frame carries its text, the length byte being the length of
the text. -/
inductive Piece where
  | marker
  | timestamp (year month day hour minute second skip1 skip2 rate : Nat)
  | doubleByteCount (msb lsb : Nat)
  | location (text : List Nat)
  deriving DecidableEq, Repr

/-- The bytes of a piece. -/
def Piece.bytes : Piece → List Nat
  | .marker => [RawDataTerm1, RawDataTerm2]
  | .timestamp year month day hour minute second skip1 skip2 rate =>
    [RawDataHeaderTimestamp, year, month, day, hour, minute, second, skip1, skip2, rate]
  | .doubleByteCount msb lsb => [RawDataHeaderCPSIsDoubleByte, msb, lsb]
  | .location text => RawDataHeaderCPSLocationData :: text.length :: text

/-- The bytes of a sequence of pieces. -/
def piecesBytes : List Piece → List Nat
  | [] => []
  | p :: ps => p.bytes ++ piecesBytes ps

/-- A location text fits its one-byte length. -/
def Piece.wellFormed : Piece → Prop
  | .location text => text.length ≤ 255
  | _ => True

/-- The month byte of a timestamp frame is an index into `theMonths`. -/
def Piece.monthInTable : Piece → Prop
  | .timestamp _ month _ _ _ _ _ _ _ => month % 256 < 12
  | _ => True

/-- The image holds the bytes `bytes` from index `i` on. -/
def holdsAt (img : Image) (i : Nat) (bytes : List Nat) : Prop :=
  ∀ j, j < bytes.length → img.getD (i + j) 0 % 256 = bytes.getD j 0 % 256

/-! ## Definitions used in the statements and proofs -/

/-- The same state with `l` put in front of `listCPMData`. -/
def ExtractState.prepend (l : List Nat) (s : ExtractState) : ExtractState :=
  { s with listCPMData := l ++ s.listCPMData }

/-- What every list built by one run of the decoder satisfies: no more entries than bytes
passed, fewer than `MAX_FLASH_MEMORY`, each a 16-bit value. -/
def ExtractState.bounded (s : ExtractState) : Prop :=
  s.listCPMData.length ≤ s.currentImageIndex ∧
  s.listCPMData.length ≤ MAX_FLASH_MEMORY - 1 ∧
  ∀ c ∈ s.listCPMData, c < 65536

/-- The lowest and highest outputs are the least and the greatest entry of a non-empty list,
and their initial values when the list is empty; every entry is a 16-bit value. -/
def ExtractState.extremes (s : ExtractState) : Prop :=
  (s.listCPMData = [] → s.ru16_Lowest = 0xFFFF ∧ s.ru16_Highest = 0) ∧
  (s.listCPMData ≠ [] → s.ru16_Lowest ∈ s.listCPMData ∧ s.ru16_Highest ∈ s.listCPMData) ∧
  ∀ c ∈ s.listCPMData, s.ru16_Lowest ≤ c ∧ c ≤ s.ru16_Highest ∧ c < 65536

/-- The truncated average of block `k` (samples `10 * k` to `10 * k + 9`) of `l`. -/
def blockAverage (l : List Nat) (k : Nat) : Nat :=
  ((l.drop (10 * k)).take 10).sum / 10

/-- The character the location loop leaves in a cell for the image byte `b`. -/
def labelChar (b : Nat) : Nat := if b % 256 = 44 then 32 else b % 256

/-- The stores the location loop makes for the text bytes `text`, the first of them going to
cell `k`. -/
def labelStoresOf (k : Nat) : List Nat → List (Nat × Nat)
  | [] => []
  | b :: bs =>
    (if b % 256 = 44 then [(k, b % 256), (k, 32)] else [(k, b % 256)]) ++ labelStoresOf (k + 1) bs

/-- The pieces `block` repeated `n` times. -/
def repeatPieces (block : List Piece) : Nat → List Piece
  | 0 => []
  | n + 1 => block ++ repeatPieces block n

/-- An image of `MAX_FLASH_MEMORY` bytes: the leading marker, 5461 times a timestamp frame
followed by a marker, and the end-of-data header in the last cell (index 65534). -/
def lastCellImage : Image :=
  [RawDataTerm1, RawDataTerm2] ++
    piecesBytes (repeatPieces [Piece.timestamp 21 3 11 23 30 11 0x55 0xAA 2, Piece.marker] 5461)
    ++ [RawDataHeaderEndOfData]

instance (img : Image) (i : Nat) (bytes : List Nat) : Decidable (holdsAt img i bytes) := by
  unfold holdsAt
  infer_instance

instance (p : Piece) : Decidable p.wellFormed := by
  cases p <;> unfold Piece.wellFormed <;> infer_instance

instance (p : Piece) : Decidable p.monthInTable := by
  cases p <;> unfold Piece.monthInTable <;> infer_instance

/-! ## The header record of the CSV file -/

/-- The characters of `labelString` read as a C string from cell `k` on, as
`outputFile << pch_UsingThisString` reads them: the cells before the first one that holds 0.
The first argument bounds the number of cells read. -/
def labelCString (stores : List (Nat × Nat)) : Nat → Nat → Except Fault (List Nat)
  | 0, _ => .error .outOfFuel
  | fuel + 1, k =>
    if labelCell stores k = 0 then .ok []
    else
      match labelCString stores fuel (k + 1) with
      | .ok chars => .ok (labelCell stores k :: chars)
      | .error e => .error e

/-- The function `WriteCSVHeaderRecord(pch_UsingThisString, pch_ThisCSVFileName)`: the content
of the rebuilt file, which is the string passed, then `",Counts\n"`, then the content
`existing` the file had. -/
def WriteCSVHeaderRecord (pch_UsingThisString : String) (existing : String) : String :=
  pch_UsingThisString ++ ",Counts\n" ++ existing

/-- The end of `ExportCSVFile`, after the decode loop has stopped in state `s`:
`if (foundLocationString == true) WriteCSVHeaderRecord(labelString, outFileName); else
WriteCSVHeaderRecord("Date/Time", outFileName);`.  The result is the content of the CSV file;
before the call the file holds the records written by the loop.  A store log of `n` entries
leaves at most `n` cells different from 0, so `n + 1` cells are enough to reach the
terminator. -/
def exportedCSVFile (s : ExportState) : Except Fault String :=
  let existing := String.join (s.written.map OutputRecord.text)
  if s.foundLocationString = true then
    match labelCString s.labelStores (s.labelStores.length + 1) 0 with
    | .ok chars => .ok (WriteCSVHeaderRecord (String.mk (chars.map Char.ofNat)) existing)
    | .error e => .error e
  else .ok (WriteCSVHeaderRecord "Date/Time" existing)

/-- The image indices at which the decode loop of `ExportCSVFile`, run from `s`, reads a header
byte (`headerRecord = entireFlashImage[currentImageIndex++]`), in the order of the run. -/
def exportHeaderIndices (img : Image) : Nat → ExportState → List Nat
  | 0, _ => []
  | fuel + 1, s =>
    if s.currentImageIndex < MAX_FLASH_MEMORY - 1 ∧ s.endOfValidData = false then
      match flashByte img s.currentImageIndex with
      | .ok headerRecord =>
        match exportDispatch img headerRecord
            { s with currentImageIndex := s.currentImageIndex + 1 } with
        | .ok s' => s.currentImageIndex :: exportHeaderIndices img fuel s'
        | .error _ => [s.currentImageIndex]
      | .error _ => []
    else []

/-- The bytes of `n` cells of the image from index `i` on. -/
def imageBytes (img : Image) : Nat → Nat → List Nat
  | _, 0 => []
  | i, n + 1 => (img.getD i 0 % 256) :: imageBytes img (i + 1) n

/-- The text of the location frame whose header byte is at index `p`: the length byte at
`p + 1` and that many bytes after it. -/
def locationText (img : Image) (p : Nat) : List Nat :=
  imageBytes img (p + 2) (img.getD (p + 1) 0 % 256)

/-- The index of the header byte of the last Location frame the decode loop of `ExportCSVFile`
dispatches when run from `s`, if it dispatches one. -/
def lastLocationFrame (img : Image) (fuel : Nat) (s : ExportState) : Option Nat :=
  ((exportHeaderIndices img fuel s).filter
    (fun p => img.getD p 0 % 256 = RawDataHeaderCPSLocationData)).getLast?

/-! ## Inputs used in the statements -/

/-- A list of 100 counts: all 10, except the block 4 (positions 40 to 49), which holds nine
times 30 and then 35. -/
def superHighSample : List Nat :=
  List.replicate 40 10 ++ [30, 30, 30, 30, 30, 30, 30, 30, 30, 35] ++ List.replicate 50 10

/-- An image of `MAX_FLASH_MEMORY` bytes: the leading marker, 5460 times a timestamp frame
followed by a marker, a location frame with a text of nine characters, and at index 65533 a
DoubleByteCount header followed by the one byte the array has left (index 65534). -/
def truncatedFrameImage : Image :=
  [RawDataTerm1, RawDataTerm2] ++
    piecesBytes (repeatPieces [Piece.timestamp 21 3 11 23 30 11 0x55 0xAA 2, Piece.marker] 5460
      ++ [Piece.location [72, 111, 109, 101, 32, 76, 97, 98, 49]])
    ++ [RawDataHeaderCPSIsDoubleByte, 0x01]

/-! ## `AcquireAndStoreDeviceData` -/

/-- The number of cells of the array `entireFlashImage`
(`static char entireFlashImage[MAX_FLASH_MEMORY]`); its indices are `0` to
`entireFlashImageSize - 1`. -/
def entireFlashImageSize : Nat := MAX_FLASH_MEMORY

/-- The bound of the download loop, `(MAX_FLASH_MEMORY / MAX_DATA_READ_BLOCK_SIZE) + 1`. -/
def downloadBlockCount : Nat := MAX_FLASH_MEMORY / MAX_DATA_READ_BLOCK_SIZE + 1

/-- The call `memcpy_s(&entireFlashImage[blockAddress], MAX_DATA_READ_BLOCK_SIZE, receivedData,
MAX_DATA_READ_BLOCK_SIZE)`: the cells `blockAddress` to
`blockAddress + MAX_DATA_READ_BLOCK_SIZE - 1` receive the first `MAX_DATA_READ_BLOCK_SIZE`
bytes of `receivedData`.  A cell outside the array is a fault. -/
def storeBlock (entireFlashImage : Image) (blockAddress : Nat) (receivedData : List Nat) :
    Except Fault Image :=
  if blockAddress + MAX_DATA_READ_BLOCK_SIZE ≤ entireFlashImageSize then
    let cells := entireFlashImage ++
      List.replicate (entireFlashImageSize - entireFlashImage.length) 0
    let block := (receivedData ++ List.replicate MAX_DATA_READ_BLOCK_SIZE 0).take
      MAX_DATA_READ_BLOCK_SIZE
    .ok (cells.take blockAddress ++ block ++ cells.drop (blockAddress + MAX_DATA_READ_BLOCK_SIZE))
  else .error .outOfBounds

/-- The download loop of `AcquireAndStoreDeviceData`; the first argument is the number of
iterations left, the second the variable `blockAddress`.  The value `device blockAddress` is
the block `RetrySendCommandAndGetResponse` delivers for the command carrying that address
(`none` when it returns false), and `writeFile blockAddress` tells whether `WriteFile`
succeeds for that block.  The result is the image and the variable `wasSuccessful`. -/
def acquireLoop (device : Nat → Option (List Nat)) (writeFile : Nat → Bool) :
    Nat → Nat → Image → Except Fault (Image × Bool)
  | 0, _, entireFlashImage => .ok (entireFlashImage, true)
  | n + 1, blockAddress, entireFlashImage =>
    match device blockAddress with
    | some receivedData =>
      match storeBlock entireFlashImage blockAddress receivedData with
      | .ok stored =>
        if writeFile blockAddress = true then
          acquireLoop device writeFile n (blockAddress + MAX_DATA_READ_BLOCK_SIZE) stored
        else .ok (stored, false)
      | .error e => .error e
    | none => .ok (entireFlashImage, false)

/-- The function `AcquireAndStoreDeviceData()` (the output file is taken to have been created):
the module-level variables after it and its return value `wasSuccessful`. -/
def AcquireAndStoreDeviceData (device : Nat → Option (List Nat)) (writeFile : Nat → Bool)
    (g : Globals) : Except Fault (Globals × Bool) :=
  match acquireLoop device writeFile downloadBlockCount 0 g.entireFlashImage with
  | .ok (stored, wasSuccessful) =>
    .ok ({ g with
      entireFlashImage := stored
      hasRawData := if wasSuccessful = true then true else g.hasRawData }, wasSuccessful)
  | .error e => .error e

/-! ## `stristr` (`Borrowed.cpp`)

A NUL-terminated string is the list of its characters before the terminator, each an
`unsigned char` value from 1 to 255; a pointer into it is an offset, at most the length. -/

/-- The character `*p` of the string `str` at offset `p`: the terminator 0 at offset
`str.length`, and no cell of the string beyond it. -/
def cstrByte (str : List Nat) (p : Nat) : Except Fault Nat :=
  if p < str.length then .ok (str.getD p 0)
  else if p = str.length then .ok 0
  else .error .outOfBounds

/-- The function `tolower` on an `unsigned char` value, in the "C" locale. -/
def tolower (c : Nat) : Nat := if 65 ≤ c ∧ c ≤ 90 then c + 32 else c

/-- The loop `while (*p1 != 0 && *p2 != 0)` of `stristr`; `r` is `none` for the null pointer
and `some q` for the pointer `str1 + q`.  The result is the values of `p2` and `r` when the
loop is left. -/
def stristrLoop (str1 str2 : List Nat) :
    Nat → Nat → Nat → Option Nat → Except Fault (Nat × Option Nat)
  | 0, _, _, _ => .error .outOfFuel
  | fuel + 1, p1, p2, r =>
    match cstrByte str1 p1 with
    | .error e => .error e
    | .ok c1 =>
      if c1 = 0 then .ok (p2, r)
      else
        match cstrByte str2 p2 with
        | .error e => .error e
        | .ok c2 =>
          if c2 = 0 then .ok (p2, r)
          else if tolower c1 = tolower c2 then
            stristrLoop str1 str2 fuel (p1 + 1) (p2 + 1) (if r = none then some p1 else r)
          else
            -- `p2 = str2; if (r != 0) p1 = r + 1;`
            let p1 := match r with
              | some q => q + 1
              | none => p1
            match cstrByte str1 p1, cstrByte str2 0 with
            | .ok d1, .ok d2 =>
              if tolower d1 = tolower d2 then
                stristrLoop str1 str2 fuel (p1 + 1) (0 + 1) (some p1)
              else stristrLoop str1 str2 fuel (p1 + 1) 0 none
            | .error e, _ => .error e
            | _, .error e => .error e

/-- The function `stristr(str1, str2)`: `some k` for the pointer `str1 + k`, `none` for NULL.
The loop budget is `(str1.length + 1) * (str2.length + 1)` iterations. -/
def stristr (str1 str2 : List Nat) : Except Fault (Option Nat) :=
  match cstrByte str2 0 with
  | .error e => .error e
  | .ok c =>
    match stristrLoop str1 str2 ((str1.length + 1) * (str2.length + 1)) 0 0
        (if c = 0 then some 0 else none) with
    | .error e => .error e
    | .ok (p2, r) =>
      match cstrByte str2 p2 with
      | .ok c2 => .ok (if c2 = 0 then r else none)
      | .error e => .error e

/-- The string `str2` occurs in `str1` at offset `k` when ASCII case is ignored: `str1` has
`str2.length` characters from `k` on, and they are those of `str2`, letters taken in lower
case. -/
def occursAt (str1 str2 : List Nat) (k : Nat) : Prop :=
  k + str2.length ≤ str1.length ∧
  ∀ j, j < str2.length → tolower (str1.getD (k + j) 0) = tolower (str2.getD j 0)

/-- What holds of the variables of `stristr` at the loop test: no occurrence starts before
the candidate start (the cell `r` points to, or `p1` when `r` is null), and the `p2` characters
from the candidate start on are the first `p2` characters of `str2`. -/
def stristrInv (str1 str2 : List Nat) (p1 p2 : Nat) (r : Option Nat) : Prop :=
  p1 ≤ str1.length ∧ p2 ≤ str2.length ∧
  (∀ k, k < r.getD p1 → ¬ occursAt str1 str2 k) ∧
  match r with
  | none => p2 = 0
  | some q =>
    q + p2 = p1 ∧ 1 ≤ p2 ∧
    ∀ j, j < p2 → tolower (str1.getD (q + j) 0) = tolower (str2.getD j 0)

/-- What holds of `p2` and `r` when the loop of `stristr` is left: the whole of `str2` has
been matched and `r` points to its leftmost occurrence, or it has not and there is no
occurrence. -/
def stristrPost (str1 str2 : List Nat) (p2 : Nat) (r : Option Nat) : Prop :=
  (p2 = str2.length ∧
    ∃ q, r = some q ∧ occursAt str1 str2 q ∧ ∀ k, k < q → ¬ occursAt str1 str2 k) ∨
  (p2 < str2.length ∧ ∀ k, ¬ occursAt str1 str2 k)

instance (str1 str2 : List Nat) (k : Nat) : Decidable (occursAt str1 str2 k) := by
  unfold occursAt
  infer_instance

/-! ## More definitions used in the statements -/

/-- The image indices at which the loop of `ExtractClicksPerMinuteFromRawData`, run from `s`,
reads a header byte, in the order of the run. -/
def extractHeaderIndices (img : Image) : Nat → ExtractState → List Nat
  | 0, _ => []
  | fuel + 1, s =>
    if s.currentImageIndex < MAX_FLASH_MEMORY - 1 ∧ s.endOfValidData = false then
      match flashByte img s.currentImageIndex with
      | .ok headerRecord =>
        match extractDispatch img headerRecord
            { s with currentImageIndex := s.currentImageIndex + 1 } with
        | .ok s' => s.currentImageIndex :: extractHeaderIndices img fuel s'
        | .error _ => [s.currentImageIndex]
      | .error _ => []
    else []

/-- The super-high entries of the first `n` blocks of `l`: for each block whose truncated
average is at least `U` and at least `S`, in order, the count of the block's last sample minus
10 in 32-bit unsigned arithmetic. -/
def superHighEntries (U S : Nat) (l : List Nat) : Nat → List Nat
  | 0 => []
  | k + 1 =>
    superHighEntries U S l k ++
      (if blockAverage l k ≥ U ∧ blockAverage l k ≥ S then
        [toUlong ((l.getD (10 * k + 9) 0 : Nat) - 10)]
      else [])

/-! ## Bare runs -/

/-- The test of the two bare-run loops on `testbyte1` and `testbyte2`: the two bytes are the
frame marker `55 AA` or two end-of-data bytes `FF FF`, on which the loop is left by `break`. -/
def endsBareRun (testbyte1 testbyte2 : Nat) : Prop :=
  (testbyte1 = RawDataTerm1 ∧ testbyte2 = RawDataTerm2) ∨
  (testbyte1 = RawDataHeaderEndOfData ∧ testbyte2 = RawDataHeaderEndOfData)

instance (testbyte1 testbyte2 : Nat) : Decidable (endsBareRun testbyte1 testbyte2) := by
  unfold endsBareRun
  infer_instance

/-- A bare run of `n` samples at index `i`: the `n` bytes from `i` on lie below the loop bound
`MAX_FLASH_MEMORY - 1` and none of them begins a terminator pair, and at index `i + n` the
loop bound is reached or a terminator pair begins.  A bare-run loop entered at `i` takes
exactly these `n` bytes as samples. -/
def bareRunAt (img : Image) (i n : Nat) : Prop :=
  i + n ≤ MAX_FLASH_MEMORY - 1 ∧
  (∀ j, j < n → ¬ endsBareRun (img.getD (i + j) 0 % 256) (img.getD (i + j + 1) 0 % 256)) ∧
  (i + n < MAX_FLASH_MEMORY - 1 →
    endsBareRun (img.getD (i + n) 0 % 256) (img.getD (i + n + 1) 0 % 256))

instance (img : Image) (i n : Nat) : Decidable (bareRunAt img i n) := by
  unfold bareRunAt
  infer_instance

/-- The cursor a bare-run loop entered at `i` has after a run of `n` samples: past the
terminator pair, or at the loop bound. -/
def bareRunEnd (i n : Nat) : Nat :=
  if i + n < MAX_FLASH_MEMORY - 1 then i + n + 2 else i + n

/-- The timestamp text `sprintf_s` makes of the clock of `s`; the empty text when the month is
no index into `theMonths`. -/
def ExportState.timestampText (s : ExportState) : String :=
  match formatTimestamp s.theDay s.theMonth s.theYear s.theHour s.theMinute s.theSecond with
  | .ok t => t
  | .error _ => ""

/-- Two states hold the same date and time. -/
def ExportState.sameClock (a b : ExportState) : Prop :=
  a.theYear = b.theYear ∧ a.theMonth = b.theMonth ∧ a.theDay = b.theDay ∧
  a.theHour = b.theHour ∧ a.theMinute = b.theMinute ∧ a.theSecond = b.theSecond

/-- The text of a location frame leaves room for its terminator in `labelString`: it has
fewer characters than the array has cells. -/
def Piece.labelFits : Piece → Prop
  | .location text => text.length < labelStringSize
  | _ => True

instance (p : Piece) : Decidable p.labelFits := by
  cases p <;> unfold Piece.labelFits <;> infer_instance

/-- An image of `MAX_FLASH_MEMORY` bytes: the leading marker, 5460 times a timestamp frame
followed by a marker, a location frame with a text of nine characters, and a frame marker
whose two bytes `55 AA` are the last two cells of the array (indices 65533 and 65534). -/
def markerAtEndImage : Image :=
  [RawDataTerm1, RawDataTerm2] ++
    piecesBytes (repeatPieces [Piece.timestamp 21 3 11 23 30 11 0x55 0xAA 2, Piece.marker] 5460
      ++ [Piece.location [72, 111, 109, 101, 32, 76, 97, 98, 49]])
    ++ [RawDataTerm1, RawDataTerm2]

/-! # Lemmas -/

/-! ## Lemmas on `ExtractClicksPerMinuteFromRawData` -/

theorem ExtractState.prepend_record (l : List Nat) (s : ExtractState) (c : Nat) :
    (s.prepend l).record c = (s.record c).prepend l := by
  simp [ExtractState.prepend, ExtractState.record, List.append_assoc]

theorem extractBareRun_prepend (img : Image) (l : List Nat) :
    ∀ (fuel : Nat) (s : ExtractState),
      extractBareRun img fuel (s.prepend l) =
        (extractBareRun img fuel s).map (ExtractState.prepend l) := by
  intro fuel
  induction fuel with
  | zero => intro s; rfl
  | succ n ih =>
    intro s
    have hrec := ih ({ s with currentImageIndex := s.currentImageIndex + 1 }.record
      (toUshort (charToInt (img.getD s.currentImageIndex 0 % 256))))
    simp only [extractBareRun, flashByte]
    by_cases h1 : s.currentImageIndex < MAX_FLASH_MEMORY - 1
    · have h2 : s.currentImageIndex < MAX_FLASH_MEMORY := by
        simp only [MAX_FLASH_MEMORY] at h1 ⊢; omega
      have h3 : s.currentImageIndex + 1 < MAX_FLASH_MEMORY := by
        simp only [MAX_FLASH_MEMORY] at h1 ⊢; omega
      have e1 : (s.prepend l).currentImageIndex = s.currentImageIndex := rfl
      simp only [e1, h1, h2, h3, if_true]
      split
      · rfl
      · split
        · rfl
        · rw [← hrec, ← ExtractState.prepend_record]
          rfl
    · have e1 : (s.prepend l).currentImageIndex = s.currentImageIndex := rfl
      simp only [e1, h1, if_false]
      rfl

theorem extractDispatch_prepend (img : Image) (l : List Nat) (headerRecord : Nat)
    (s : ExtractState) :
    extractDispatch img headerRecord (s.prepend l) =
      (extractDispatch img headerRecord s).map (ExtractState.prepend l) := by
  have e1 : (s.prepend l).currentImageIndex = s.currentImageIndex := rfl
  unfold extractDispatch
  simp only [e1]
  split
  · rfl
  split
  · cases flashByte img s.currentImageIndex <;> cases flashByte img (s.currentImageIndex + 1) <;>
      first | rfl | (simp only [Except.map]; rw [← ExtractState.prepend_record]; rfl)
  split
  · cases flashByte img s.currentImageIndex <;> rfl
  split
  · cases flashByte img s.currentImageIndex
    · rfl
    · simp only []
      split <;> rfl
  split
  · rfl
  · exact extractBareRun_prepend img l _ s

theorem extractLoop_prepend (img : Image) (l : List Nat) :
    ∀ (fuel : Nat) (s : ExtractState),
      extractLoop img fuel (s.prepend l) =
        (extractLoop img fuel s).map (ExtractState.prepend l) := by
  intro fuel
  induction fuel with
  | zero => intro s; rfl
  | succ n ih =>
    intro s
    have e1 : (s.prepend l).currentImageIndex = s.currentImageIndex := rfl
    have e2 : (s.prepend l).endOfValidData = s.endOfValidData := rfl
    simp only [extractLoop, e1, e2]
    split
    · cases flashByte img s.currentImageIndex with
      | error e => rfl
      | ok headerRecord =>
        have hd := extractDispatch_prepend img l headerRecord
          { s with currentImageIndex := s.currentImageIndex + 1 }
        change (match extractDispatch img headerRecord (ExtractState.prepend l
            { s with currentImageIndex := s.currentImageIndex + 1 }) with
          | Except.ok s' => extractLoop img n s'
          | Except.error e => Except.error e) =
          Except.map (ExtractState.prepend l)
            (match extractDispatch img headerRecord
              { s with currentImageIndex := s.currentImageIndex + 1 } with
            | Except.ok s' => extractLoop img n s'
            | Except.error e => Except.error e)
        rw [hd]
        cases extractDispatch img headerRecord
            { s with currentImageIndex := s.currentImageIndex + 1 } with
        | error e => rfl
        | ok s1 => exact ih s1
    · rfl

theorem ExtractClicksPerMinuteFromRawData_prepend (img : Image) (l : List Nat) :
    ExtractClicksPerMinuteFromRawData img l =
      (ExtractClicksPerMinuteFromRawData img []).map (ExtractState.prepend l) := by
  unfold ExtractClicksPerMinuteFromRawData
  rw [← extractLoop_prepend]
  simp [ExtractState.prepend]

theorem toUshort_lt (x : Int) : toUshort x < 65536 := by
  unfold toUshort
  omega

theorem ExtractState.bounded_record (s : ExtractState) (c n : Nat) (hc : c < 65536)
    (h1 : s.listCPMData.length + 1 ≤ s.currentImageIndex + n)
    (h2 : s.listCPMData.length + 1 ≤ MAX_FLASH_MEMORY - 1)
    (h3 : ∀ c ∈ s.listCPMData, c < 65536) :
    ({ s with currentImageIndex := s.currentImageIndex + n }.record c).bounded := by
  refine ⟨?_, ?_, ?_⟩
  · simpa [ExtractState.record] using h1
  · simpa [ExtractState.record] using h2
  · intro d hd
    simp only [ExtractState.record, List.mem_append, List.mem_singleton] at hd
    rcases hd with hd | hd
    · exact h3 d hd
    · exact hd ▸ hc

theorem extractBareRun_bounded (img : Image) :
    ∀ (fuel : Nat) (s t : ExtractState), s.bounded → extractBareRun img fuel s = .ok t →
      t.bounded := by
  intro fuel
  induction fuel with
  | zero => intro s t _ h; simp [extractBareRun] at h
  | succ n ih =>
    intro s t hs h
    simp only [extractBareRun] at h
    split at h
    · rename_i hlt
      split at h
      · split at h
        · injection h with h
          subst h
          exact ⟨Nat.le_trans hs.1 (Nat.le_add_right _ _), hs.2.1, hs.2.2⟩
        · split at h
          · injection h with h
            subst h
            exact ⟨Nat.le_trans hs.1 (Nat.le_add_right _ _), hs.2.1, hs.2.2⟩
          · refine ih _ t ?_ h
            apply ExtractState.bounded_record s _ 1 (toUshort_lt _)
            · have := hs.1; omega
            · have := hs.1; omega
            · exact hs.2.2
      · simp at h
      · simp at h
    · injection h with h
      subst h
      exact hs

theorem extractDispatch_bounded (img : Image) (headerRecord : Nat) (s t : ExtractState)
    (h1 : s.listCPMData.length + 1 ≤ s.currentImageIndex)
    (h2 : s.currentImageIndex ≤ MAX_FLASH_MEMORY - 1)
    (h3 : ∀ c ∈ s.listCPMData, c < 65536)
    (h : extractDispatch img headerRecord s = .ok t) : t.bounded := by
  have hs : s.bounded := ⟨by omega, by omega, h3⟩
  unfold extractDispatch at h
  split at h
  · injection h with h
    subst h
    exact ⟨by simp only []; omega, hs.2.1, h3⟩
  split at h
  · split at h
    · injection h with h
      subst h
      exact ExtractState.bounded_record s _ 2 (toUshort_lt _) (by omega) (by omega) h3
    · simp at h
    · simp at h
  split at h
  · split at h
    · injection h with h
      subst h
      exact ⟨by simp only []; omega, hs.2.1, h3⟩
    · simp at h
  split at h
  · split at h
    · split at h <;> injection h with h <;> subst h
      · exact ⟨by simp only []; omega, hs.2.1, h3⟩
      · exact hs
    · simp at h
  split at h
  · injection h with h
    subst h
    exact hs
  · exact extractBareRun_bounded img _ s t hs h

theorem extractLoop_bounded (img : Image) :
    ∀ (fuel : Nat) (s t : ExtractState), s.bounded → extractLoop img fuel s = .ok t →
      t.bounded := by
  intro fuel
  induction fuel with
  | zero => intro s t _ h; simp [extractLoop] at h
  | succ n ih =>
    intro s t hs h
    simp only [extractLoop] at h
    split at h
    · rename_i hlt
      split at h
      · split at h
        · rename_i s1 hd
          refine ih s1 t ?_ h
          refine extractDispatch_bounded img _
            { s with currentImageIndex := s.currentImageIndex + 1 } s1 ?_ ?_ hs.2.2 hd
          · have := hs.1; simp only []; omega
          · have := hlt.1; simp only []; omega
        · simp at h
      · simp at h
    · injection h with h
      subst h
      exact hs

/-- Every list one run of the decoder builds from the empty list has fewer than
`MAX_FLASH_MEMORY` entries, each a 16-bit value. -/
theorem ExtractClicksPerMinuteFromRawData_bounded (img : Image) (t : ExtractState)
    (h : ExtractClicksPerMinuteFromRawData img [] = .ok t) :
    t.listCPMData.length ≤ MAX_FLASH_MEMORY - 1 ∧ ∀ c ∈ t.listCPMData, c < 65536 := by
  have hb := extractLoop_bounded img _ _ t ?_ h
  · exact hb.2
  · exact ⟨by simp, by simp, by simp⟩

/-! ## Lemmas on the average -/

theorem sumCPMData_foldl (l : List Nat) :
    ∀ acc : Nat, (∀ c ∈ l, c < 65536) → acc + 65535 * l.length < 2 ^ 32 →
      l.foldl (fun accumulationValue c => (accumulationValue + c % 65536) % 2 ^ 32) acc =
        acc + l.sum := by
  induction l with
  | nil => intro acc _ _; simp
  | cons a l ih =>
    intro acc hbits hlen
    have ha : a < 65536 := hbits a (List.mem_cons_self a l)
    simp only [List.length_cons] at hlen
    simp only [List.foldl_cons, List.sum_cons]
    have e1 : (acc + a % 65536) % 2 ^ 32 = acc + a := by
      rw [Nat.mod_eq_of_lt ha, Nat.mod_eq_of_lt (by omega)]
    rw [e1, ih (acc + a) (fun c hc => hbits c (List.mem_cons_of_mem a hc)) (by omega)]
    omega

/-- The accumulator of `ComputeAverageAcrossAllCPMData` does not wrap on a list of at most
65535 16-bit values. -/
theorem sumCPMData_eq_sum (l : List Nat) (hbits : ∀ c ∈ l, c < 65536)
    (hlen : l.length ≤ 65535) : sumCPMData l = l.sum := by
  have h := sumCPMData_foldl l 0 hbits (by omega)
  simpa [sumCPMData] using h

theorem sumCPMData_le (l : List Nat) : sumCPMData l ≤ 65535 * l.length := by
  have key : ∀ (l : List Nat) (acc : Nat),
      l.foldl (fun accumulationValue c => (accumulationValue + c % 65536) % 2 ^ 32) acc ≤
        acc + 65535 * l.length := by
    intro l
    induction l with
    | nil => intro acc; simp
    | cons a l ih =>
      intro acc
      simp only [List.foldl_cons, List.length_cons]
      have h1 := ih ((acc + a % 65536) % 2 ^ 32)
      have h2 : (acc + a % 65536) % 2 ^ 32 ≤ acc + a % 65536 := Nat.mod_le _ _
      have h3 : a % 65536 < 65536 := Nat.mod_lt _ (by decide)
      omega
  simpa [sumCPMData] using key l 0

/-! ## Lemmas on the binary32 arithmetic -/

theorem f32Shift_le : ∀ (fuel j n : Nat), n < 2 ^ (24 + j) → f32Shift fuel n ≤ j := by
  intro fuel
  induction fuel with
  | zero => intro j n _; simp [f32Shift]
  | succ f ih =>
    intro j n h
    simp only [f32Shift]
    split
    · exact Nat.zero_le _
    · rename_i hge
      cases j with
      | zero => exact absurd h hge
      | succ j =>
        have h2 : n / 2 < 2 ^ (24 + j) := by
          have e : 2 ^ (24 + (j + 1)) = 2 * 2 ^ (24 + j) := by
            rw [← Nat.add_assoc, Nat.pow_succ, Nat.mul_comm]
          rw [e] at h
          omega
        have := ih j (n / 2) h2
        omega

theorem roundHalfEven_spec (p n : Nat) :
    n / p * p ≤ roundHalfEven p n ∧ 2 * roundHalfEven p n ≤ 2 * n + p ∧
      (n % p = 0 → roundHalfEven p n = n) := by
  have hdm := Nat.div_add_mod n p
  have hcomm : p * (n / p) = n / p * p := Nat.mul_comm _ _
  have hsucc : (n / p + 1) * p = n / p * p + p := Nat.succ_mul _ _
  unfold roundHalfEven
  simp only []
  split
  · rename_i hc
    refine ⟨by omega, by omega, fun h0 => ?_⟩
    omega
  · rename_i hc
    refine ⟨by omega, by omega, fun h0 => ?_⟩
    omega

/-- The rounding `f32Round n` of a value below `2^(24+j)` moves to a multiple of a power of
two `p` dividing `2^j`: it is not below the multiple of `p` under `n`, not above `n` by more
than `p / 2`, and it is `n` itself when `p` divides `n`. -/
theorem f32Round_spec (n j : Nat) (h : n < 2 ^ (24 + j)) :
    ∃ p, 0 < p ∧ p ∣ 2 ^ j ∧ n / p * p ≤ f32Round n ∧ 2 * f32Round n ≤ 2 * n + p ∧
      (n % p = 0 → f32Round n = n) :=
  ⟨2 ^ f32Shift 128 n, Nat.two_pow_pos _, Nat.pow_dvd_pow 2 (f32Shift_le 128 j n h),
    roundHalfEven_spec _ n⟩

theorem multiple_le_floor (p a n : Nat) (hp : 0 < p) (hd : p ∣ a) (hle : a ≤ n) :
    a ≤ n / p * p := by
  obtain ⟨t, rfl⟩ := hd
  have h1 : t ≤ n / p := (Nat.le_div_iff_mul_le hp).2 (by rw [Nat.mul_comm]; exact hle)
  calc p * t = t * p := Nat.mul_comm _ _
    _ ≤ n / p * p := Nat.mul_le_mul_right p h1

/-- For every average up to 65535, the binary32 computation of "average plus 30 %" truncates
to `average + 3 * average / 10`. -/
theorem entireAveragePlus30Percent_floor (m : Nat) (hm : m ≤ 65535) :
    entireAveragePlus30Percent m / 2 ^ 25 = m + 3 * m / 10 := by
  -- the conversion of the average is exact
  have hconv : f32OfUlong m = m * 2 ^ 25 := by
    obtain ⟨p, hp, hd, _, _, hex⟩ := f32Round_spec (m * 2 ^ 25) 17 (by norm_num; omega)
    apply hex
    have hd2 : p ∣ m * 2 ^ 25 :=
      Dvd.dvd.mul_left (Nat.dvd_trans hd (Nat.pow_dvd_pow 2 (by decide))) m
    exact Nat.mod_eq_zero_of_dvd hd2
  have hint : m * 2 ^ 25 / 2 ^ 25 = m := Nat.mul_div_cancel m (Nat.two_pow_pos 25)
  unfold entireAveragePlus30Percent
  simp only [hconv, hint, f32PointThree]
  obtain ⟨p1, hp1, hd1, hlo1, hhi1, _⟩ := f32Round_spec (10066330 * m) 16 (by norm_num; omega)
  generalize f32Round (10066330 * m) = product at hlo1 hhi1 ⊢
  have hp1le : p1 ≤ 2 ^ 16 := Nat.le_of_dvd (Nat.two_pow_pos 16) hd1
  have hprod : product < 2 ^ 40 + 2 ^ 16 := by norm_num at hp1le ⊢; omega
  obtain ⟨p2, hp2, hd2, hlo2, hhi2, _⟩ :=
    f32Round_spec (product + m * 2 ^ 25) 18 (by norm_num at hprod ⊢; omega)
  generalize f32Round (product + m * 2 ^ 25) = result at hlo2 hhi2 ⊢
  have hp2le : p2 ≤ 2 ^ 18 := Nat.le_of_dvd (Nat.two_pow_pos 18) hd2
  -- lower bound, through multiples of `2^25`
  have hA1 : 3 * m / 10 * 2 ^ 25 ≤ product := by
    refine Nat.le_trans (multiple_le_floor p1 _ (10066330 * m) hp1 ?_ ?_) hlo1
    · exact Dvd.dvd.mul_left (Nat.dvd_trans hd1 (Nat.pow_dvd_pow 2 (by decide))) _
    · norm_num; omega
  have hA2 : (m + 3 * m / 10) * 2 ^ 25 ≤ result := by
    refine Nat.le_trans (multiple_le_floor p2 _ (product + m * 2 ^ 25) hp2 ?_ ?_) hlo2
    · exact Dvd.dvd.mul_left (Nat.dvd_trans hd2 (Nat.pow_dvd_pow 2 (by decide))) _
    · rw [Nat.add_mul]; omega
  -- upper bound, through the rounding errors
  have hupper : result < (m + 3 * m / 10 + 1) * 2 ^ 25 := by
    norm_num at hp1le hp2le hhi1 hhi2 ⊢; omega
  exact Nat.div_eq_of_lt_le hA2 hupper

theorem scanThresholds_eq (m : Nat) (hm : m ≤ 65535) :
    scanThresholds m = .ok (m + 3 * m / 10, 2 * (m + 3 * m / 10)) := by
  have h := entireAveragePlus30Percent_floor m hm
  unfold scanThresholds f32ToUlong
  rw [h]
  have h1 : m + 3 * m / 10 < 2 ^ 32 := by norm_num; omega
  have h2 : (m + 3 * m / 10) * 2 % 2 ^ 32 = 2 * (m + 3 * m / 10) := by
    rw [Nat.mod_eq_of_lt (by norm_num; omega)]; omega
  simp only [h1, if_true, h2]

/-! ## Lemmas on `ScanTenMinuteIntervalsForExcessHigh` -/

/-- Samples that do not complete a block only move the segment counter, the accumulator and
the iterator count. -/
theorem scan_incomplete (U S : Nat) (b : List Nat) :
    ∀ s : ScanState, s.thisTenMinuteSegment + b.length < 10 →
      s.accumulationValue + 65535 * b.length < 2 ^ 32 → (∀ c ∈ b, c < 65536) →
      (b.foldl (scanStep U S) s).thisTenMinuteSegment = s.thisTenMinuteSegment + b.length ∧
      (b.foldl (scanStep U S) s).accumulationValue = s.accumulationValue + b.sum ∧
      (b.foldl (scanStep U S) s).whichTenMinuteBlock = s.whichTenMinuteBlock ∧
      (b.foldl (scanStep U S) s).foundAnyHighSections = s.foundAnyHighSections ∧
      (b.foldl (scanStep U S) s).console = s.console ∧
      (b.foldl (scanStep U S) s).listSuperHighEventIndexValues =
        s.listSuperHighEventIndexValues ∧
      (b.foldl (scanStep U S) s).iteratorCount % 65536 =
        (s.iteratorCount + b.length) % 65536 := by
  induction b with
  | nil => intro s _ _ _; simp
  | cons a b ih =>
    intro s hseg hacc hbits
    have ha : a < 65536 := hbits a (List.mem_cons_self a b)
    simp only [List.length_cons] at hseg hacc
    have e1 : (s.thisTenMinuteSegment + 1) % 256 = s.thisTenMinuteSegment + 1 :=
      Nat.mod_eq_of_lt (by omega)
    have e2 : (s.accumulationValue + a % 65536) % 2 ^ 32 = s.accumulationValue + a := by
      rw [Nat.mod_eq_of_lt ha, Nat.mod_eq_of_lt (by omega)]
    have e3 : ¬ s.thisTenMinuteSegment + 1 = 10 := by omega
    have hstep : scanStep U S s a =
        { s with
          thisTenMinuteSegment := s.thisTenMinuteSegment + 1
          accumulationValue := s.accumulationValue + a
          iteratorCount := (s.iteratorCount + 1) % 65536 } := by
      simp only [scanStep, e1, e2, e3, if_false]
    rw [List.foldl_cons, hstep]
    generalize hs1 : ({ s with
          thisTenMinuteSegment := s.thisTenMinuteSegment + 1
          accumulationValue := s.accumulationValue + a
          iteratorCount := (s.iteratorCount + 1) % 65536 } : ScanState) = s1
    have g1 : s1.thisTenMinuteSegment = s.thisTenMinuteSegment + 1 := by rw [← hs1]
    have g2 : s1.accumulationValue = s.accumulationValue + a := by rw [← hs1]
    have g3 : s1.whichTenMinuteBlock = s.whichTenMinuteBlock := by rw [← hs1]
    have g4 : s1.foundAnyHighSections = s.foundAnyHighSections := by rw [← hs1]
    have g5 : s1.console = s.console := by rw [← hs1]
    have g6 : s1.listSuperHighEventIndexValues = s.listSuperHighEventIndexValues := by
      rw [← hs1]
    have g7 : s1.iteratorCount = (s.iteratorCount + 1) % 65536 := by rw [← hs1]
    obtain ⟨h1, h2, h3, h4, h5, h6, h7⟩ := ih s1 (by omega) (by omega)
      (fun c hc => hbits c (List.mem_cons_of_mem a hc))
    refine ⟨?_, ?_, h3.trans g3, h4.trans g4, h5.trans g5, h6.trans g6, ?_⟩
    · rw [h1, List.length_cons]; omega
    · rw [h2, List.sum_cons]; omega
    · rw [h7, List.length_cons]; omega

theorem scan_block (U S : Nat) (b : List Nat) (s : ScanState) (hlen : b.length = 10)
    (hseg : s.thisTenMinuteSegment = 0) (hacc : s.accumulationValue = 0)
    (hbits : ∀ c ∈ b, c < 65536) :
    (b.foldl (scanStep U S) s).thisTenMinuteSegment = 0 ∧
    (b.foldl (scanStep U S) s).accumulationValue = 0 ∧
    (b.foldl (scanStep U S) s).whichTenMinuteBlock = (s.whichTenMinuteBlock + 1) % 65536 ∧
    ((b.foldl (scanStep U S) s).foundAnyHighSections = true ↔
      (s.foundAnyHighSections = true ∨ b.sum / 10 ≥ U)) ∧
    (b.sum / 10 < U →
      (b.foldl (scanStep U S) s).console = s.console ∧
      (b.foldl (scanStep U S) s).listSuperHighEventIndexValues =
        s.listSuperHighEventIndexValues) := by
  have hsplit : b = b.take 9 ++ b.drop 9 := (List.take_append_drop 9 b).symm
  have hd : (b.drop 9).length = 1 := by rw [List.length_drop, hlen]
  obtain ⟨x, hx⟩ := List.length_eq_one.1 hd
  have htl : (b.take 9).length = 9 := by rw [List.length_take, hlen]; rfl
  have hb9 : ∀ c ∈ b.take 9, c < 65536 := fun c hc => hbits c (List.mem_of_mem_take hc)
  have hxb : x < 65536 := by
    apply hbits
    rw [hsplit, hx]
    simp
  obtain ⟨h1, h2, h3, h4, h5, h6, h7⟩ := scan_incomplete U S (b.take 9) s (by omega) (by omega) hb9
  have hsum : b.sum = (b.take 9).sum + x := by
    conv_lhs => rw [hsplit, hx]
    simp
  have hsum9 : (b.take 9).sum ≤ 65535 * 9 := by
    have := sumCPMData_le (b.take 9)
    rw [sumCPMData_eq_sum _ hb9 (by omega), htl] at this
    exact this
  have hfold : b.foldl (scanStep U S) s =
      scanStep U S ((b.take 9).foldl (scanStep U S) s) x := by
    conv_lhs => rw [hsplit, hx]
    rw [List.foldl_append, List.foldl_cons, List.foldl_nil]
  rw [hfold, hsum]
  generalize (b.take 9).foldl (scanStep U S) s = t at h1 h2 h3 h4 h5 h6 h7
  have e1 : (t.thisTenMinuteSegment + 1) % 256 = 10 := by rw [h1, hseg, htl]
  have e2 : (t.accumulationValue + x % 65536) % 2 ^ 32 = (b.take 9).sum + x := by
    rw [h2, hacc, Nat.mod_eq_of_lt hxb, Nat.mod_eq_of_lt (by omega)]; omega
  simp only [scanStep, e1, e2, if_true]
  refine ⟨trivial, trivial, by rw [h3], ?_, ?_⟩
  · by_cases hU : ((b.take 9).sum + x) / 10 ≥ U
    · simp [hU]
    · simp [hU, h4]
  · intro hlt
    have hU : ¬ ((b.take 9).sum + x) / 10 ≥ U := by omega
    simp [hU, h5, h6]

theorem blockAverage_zero (l : List Nat) : blockAverage l 0 = (l.take 10).sum / 10 := by
  simp [blockAverage]

theorem blockAverage_succ (l : List Nat) (k : Nat) :
    blockAverage l (k + 1) = blockAverage (l.drop 10) k := by
  simp only [blockAverage, List.drop_drop]
  congr 4
  omega

/-- Over a whole list, started at a block boundary: the flag is raised exactly when it was
raised before or some complete block averages at least `U`, and the block counter advances
by the number of complete blocks. -/
theorem scan_blocks (U S : Nat) :
    ∀ (n : Nat) (l : List Nat) (s : ScanState), l.length = n →
      s.thisTenMinuteSegment = 0 → s.accumulationValue = 0 → (∀ c ∈ l, c < 65536) →
      ((l.foldl (scanStep U S) s).foundAnyHighSections = true ↔
        (s.foundAnyHighSections = true ∨ ∃ k, k < n / 10 ∧ blockAverage l k ≥ U)) ∧
      (l.foldl (scanStep U S) s).whichTenMinuteBlock % 65536 =
        (s.whichTenMinuteBlock + n / 10) % 65536 ∧
      ((∀ k, k < n / 10 → blockAverage l k < U) →
        (l.foldl (scanStep U S) s).console = s.console ∧
        (l.foldl (scanStep U S) s).listSuperHighEventIndexValues =
          s.listSuperHighEventIndexValues) := by
  intro n
  induction n using Nat.strong_induction_on with
  | _ n ih =>
    intro l s hlen hseg hacc hbits
    by_cases hn : n < 10
    · obtain ⟨_, _, h3, h4, h5, h6, _⟩ := scan_incomplete U S l s (by omega) (by omega) hbits
      have h0 : n / 10 = 0 := Nat.div_eq_of_lt hn
      rw [h3, h4, h5, h6, h0]
      simp
    · have hsplit : l = l.take 10 ++ l.drop 10 := (List.take_append_drop 10 l).symm
      have htake : (l.take 10).length = 10 := by rw [List.length_take, hlen]; omega
      have hdrop : (l.drop 10).length = n - 10 := by rw [List.length_drop, hlen]
      obtain ⟨b1, b2, b3, b4, b5⟩ := scan_block U S (l.take 10) s htake hseg hacc
        (fun c hc => hbits c (List.mem_of_mem_take hc))
      have hfold : l.foldl (scanStep U S) s =
          (l.drop 10).foldl (scanStep U S) ((l.take 10).foldl (scanStep U S) s) := by
        conv_lhs => rw [hsplit]
        rw [List.foldl_append]
      obtain ⟨c1, c2, c3⟩ := ih (n - 10) (by omega) (l.drop 10) _ hdrop b1 b2
        (fun c hc => hbits c (List.mem_of_mem_drop hc))
      have hdiv : n / 10 = (n - 10) / 10 + 1 := by omega
      rw [hfold]
      refine ⟨?_, ?_, ?_⟩
      rotate_left 2
      · intro hall
        have h0 := hall 0 (by omega)
        rw [blockAverage_zero] at h0
        obtain ⟨d1, d2⟩ := c3 (fun k hk => by
          have := hall (k + 1) (by omega)
          rwa [blockAverage_succ] at this)
        rw [d1, d2]
        exact b5 h0
      · rw [c1, b4, ← blockAverage_zero l]
        constructor
        · rintro ((h | h) | ⟨k, hk, h⟩)
          · exact Or.inl h
          · exact Or.inr ⟨0, by omega, h⟩
          · exact Or.inr ⟨k + 1, by omega, by rw [blockAverage_succ]; exact h⟩
        · rintro (h | ⟨k, hk, h⟩)
          · exact Or.inl (Or.inl h)
          · cases k with
            | zero => exact Or.inl (Or.inr h)
            | succ k =>
              rw [blockAverage_succ] at h
              exact Or.inr ⟨k, by omega, h⟩
      · rw [c2, b3]
        omega

/-- After the complete blocks of a list the scan is at a block boundary. -/
theorem scan_blocks_boundary (U S : Nat) :
    ∀ (m : Nat) (l : List Nat) (s : ScanState), l.length = 10 * m →
      s.thisTenMinuteSegment = 0 → s.accumulationValue = 0 → (∀ c ∈ l, c < 65536) →
      (l.foldl (scanStep U S) s).thisTenMinuteSegment = 0 ∧
      (l.foldl (scanStep U S) s).accumulationValue = 0 := by
  intro m
  induction m with
  | zero =>
    intro l s hlen hseg hacc _
    have : l = [] := List.length_eq_zero.1 (by simpa using hlen)
    subst this
    exact ⟨hseg, hacc⟩
  | succ m ih =>
    intro l s hlen hseg hacc hbits
    have hsplit : l = l.take 10 ++ l.drop 10 := (List.take_append_drop 10 l).symm
    have htake : (l.take 10).length = 10 := by rw [List.length_take, hlen]; omega
    have hdrop : (l.drop 10).length = 10 * m := by rw [List.length_drop, hlen]; omega
    obtain ⟨b1, b2, _, _, _⟩ := scan_block U S (l.take 10) s htake hseg hacc
      (fun c hc => hbits c (List.mem_of_mem_take hc))
    have hfold : l.foldl (scanStep U S) s =
        (l.drop 10).foldl (scanStep U S) ((l.take 10).foldl (scanStep U S) s) := by
      conv_lhs => rw [hsplit]
      rw [List.foldl_append]
    rw [hfold]
    exact ih (l.drop 10) _ hdrop b1 b2 (fun c hc => hbits c (List.mem_of_mem_drop hc))

/-- The samples after the last complete block change neither the flag, nor the console, nor
the list of super-high events, nor the block counter. -/
theorem scan_trailing (U S : Nat) (l : List Nat) (s : ScanState)
    (hseg : s.thisTenMinuteSegment = 0) (hacc : s.accumulationValue = 0)
    (hbits : ∀ c ∈ l, c < 65536) :
    (l.foldl (scanStep U S) s).foundAnyHighSections =
      ((l.take (10 * (l.length / 10))).foldl (scanStep U S) s).foundAnyHighSections ∧
    (l.foldl (scanStep U S) s).console =
      ((l.take (10 * (l.length / 10))).foldl (scanStep U S) s).console ∧
    (l.foldl (scanStep U S) s).listSuperHighEventIndexValues =
      ((l.take (10 * (l.length / 10))).foldl (scanStep U S) s).listSuperHighEventIndexValues ∧
    (l.foldl (scanStep U S) s).whichTenMinuteBlock =
      ((l.take (10 * (l.length / 10))).foldl (scanStep U S) s).whichTenMinuteBlock := by
  have hle : 10 * (l.length / 10) ≤ l.length := Nat.mul_div_le _ _
  have htake : (l.take (10 * (l.length / 10))).length = 10 * (l.length / 10) := by
    rw [List.length_take]; omega
  have hdrop : (l.drop (10 * (l.length / 10))).length < 10 := by
    rw [List.length_drop]; omega
  obtain ⟨b1, b2⟩ := scan_blocks_boundary U S (l.length / 10) _ s htake hseg hacc
    (fun c hc => hbits c (List.mem_of_mem_take hc))
  have hfold : l.foldl (scanStep U S) s =
      (l.drop (10 * (l.length / 10))).foldl (scanStep U S)
        ((l.take (10 * (l.length / 10))).foldl (scanStep U S) s) := by
    conv_lhs => rw [← List.take_append_drop (10 * (l.length / 10)) l]
    rw [List.foldl_append]
  obtain ⟨_, _, h3, h4, h5, h6, _⟩ := scan_incomplete U S (l.drop (10 * (l.length / 10)))
    ((l.take (10 * (l.length / 10))).foldl (scanStep U S) s) (by omega) (by omega)
    (fun c hc => hbits c (List.mem_of_mem_drop hc))
  rw [hfold]
  exact ⟨h4, h5, h6, h3⟩

/-! ## Faults of the decoder -/

theorem flashByte_error (img : Image) (i : Nat) (e : Fault) (h : flashByte img i = .error e) :
    e = .outOfBounds := by
  unfold flashByte at h
  split at h
  · simp at h
  · injection h with h; exact h.symm

theorem extractBareRun_fault (img : Image) :
    ∀ (fuel : Nat) (s : ExtractState) (e : Fault), extractBareRun img fuel s = .error e →
      e ≠ .divideByZero := by
  intro fuel
  induction fuel with
  | zero => intro s e h; simp only [extractBareRun] at h; injection h with h; subst h; decide
  | succ n ih =>
    intro s e h
    simp only [extractBareRun] at h
    split at h
    · split at h
      · split at h
        · simp at h
        · split at h
          · simp at h
          · exact ih _ e h
      · rename_i e1 h1
        injection h with h
        subst h
        rw [flashByte_error _ _ _ h1]; decide
      · rename_i e2 h2 _
        injection h with h
        subst h
        rw [flashByte_error _ _ _ h2]; decide
    · simp at h

theorem extractDispatch_fault (img : Image) (headerRecord : Nat) (s : ExtractState) (e : Fault)
    (h : extractDispatch img headerRecord s = .error e) : e ≠ .divideByZero := by
  unfold extractDispatch at h
  split at h
  · simp at h
  split at h
  · split at h
    · simp at h
    · rename_i e1 h1
      injection h with h
      subst h
      rw [flashByte_error _ _ _ h1]; decide
    · rename_i e2 h2 _
      injection h with h
      subst h
      rw [flashByte_error _ _ _ h2]; decide
  split at h
  · split at h
    · simp at h
    · rename_i e1 h1
      injection h with h
      subst h
      rw [flashByte_error _ _ _ h1]; decide
  split at h
  · split at h
    · split at h <;> simp at h
    · rename_i e1 h1
      injection h with h
      subst h
      rw [flashByte_error _ _ _ h1]; decide
  split at h
  · simp at h
  · exact extractBareRun_fault img _ s e h

theorem extractLoop_fault (img : Image) :
    ∀ (fuel : Nat) (s : ExtractState) (e : Fault), extractLoop img fuel s = .error e →
      e ≠ .divideByZero := by
  intro fuel
  induction fuel with
  | zero => intro s e h; simp only [extractLoop] at h; injection h with h; subst h; decide
  | succ n ih =>
    intro s e h
    simp only [extractLoop] at h
    split at h
    · split at h
      · split at h
        · exact ih _ e h
        · rename_i e1 h1
          injection h with h
          subst h
          exact extractDispatch_fault img _ _ _ h1
      · rename_i e1 h1
        injection h with h
        subst h
        rw [flashByte_error _ _ _ h1]; decide
    · simp at h

/-! ## Lemmas on `ScanRawDataForHighPeriods` -/

theorem ComputeAverageAcrossAllCPMData_le (l : List Nat) (m : Nat)
    (h : ComputeAverageAcrossAllCPMData l = .ok m) : m ≤ 65535 := by
  unfold ComputeAverageAcrossAllCPMData at h
  split at h
  · simp at h
  · injection h with h
    subst h
    exact Nat.div_le_of_le_mul (by rw [Nat.mul_comm]; exact sumCPMData_le l)

theorem evaluateCPMData_fault (g : Globals) (lowest highest : Nat) (console : List ConsoleLine)
    (hlen : g.listCPMData.length > 0) :
    evaluateCPMData g lowest highest console ≠ .error .divideByZero := by
  unfold evaluateCPMData
  have hne : ¬ g.listCPMData.length = 0 := by omega
  have havg : ComputeAverageAcrossAllCPMData g.listCPMData =
      .ok (sumCPMData g.listCPMData / g.listCPMData.length) := by
    simp [ComputeAverageAcrossAllCPMData, hne]
  have hm := ComputeAverageAcrossAllCPMData_le _ _ havg
  rw [havg]
  simp only [scanThresholds_eq _ hm]
  simp

/-- The scan over `10 * m` copies of `c` against a threshold above `c`: nothing is found,
printed or recorded. -/
theorem scan_replicate (U S c m : Nat) (superHigh : List Nat) (hc : c < 65536) (hU : c < U) :
    (scanTenMinuteIntervals U S (List.replicate (10 * m) c) superHigh).foundAnyHighSections =
      false ∧
    (scanTenMinuteIntervals U S (List.replicate (10 * m) c) superHigh).console = [] ∧
    (scanTenMinuteIntervals U S (List.replicate (10 * m) c)
      superHigh).listSuperHighEventIndexValues = superHigh := by
  have hbits : ∀ x ∈ List.replicate (10 * m) c, x < 65536 := by
    intro x hx
    rw [List.eq_of_mem_replicate hx]; exact hc
  have havg : ∀ k, k < 10 * m / 10 → blockAverage (List.replicate (10 * m) c) k < U := by
    intro k hk
    have hk2 : k < m := by omega
    have e : ((List.replicate (10 * m) c).drop (10 * k)).take 10 = List.replicate 10 c := by
      rw [List.drop_replicate, List.take_replicate]
      congr 1
      omega
    unfold blockAverage
    rw [e]
    simp only [List.sum_replicate, smul_eq_mul]
    omega
  obtain ⟨h1, _, h3⟩ := scan_blocks U S (10 * m) (List.replicate (10 * m) c)
    (scanStart superHigh) (by simp) rfl rfl hbits
  obtain ⟨h4, h5⟩ := h3 havg
  refine ⟨?_, h4, h5⟩
  cases hf : (scanTenMinuteIntervals U S (List.replicate (10 * m) c)
      superHigh).foundAnyHighSections with
  | false => rfl
  | true =>
    exfalso
    rcases h1.1 hf with h | ⟨k, hk, h⟩
    · simp [scanStart] at h
    · have := havg k hk
      omega

theorem evaluateCPMData_list (g : Globals) (lowest highest : Nat) (console : List ConsoleLine)
    (out : Globals × List ConsoleLine) (h : evaluateCPMData g lowest highest console = .ok out) :
    out.1.listCPMData = g.listCPMData := by
  unfold evaluateCPMData at h
  split at h
  · simp at h
  · split at h
    · simp at h
    · injection h with h
      subst h
      rfl

theorem extractIfNeeded_fault (g : Globals) (e : Fault) (h : extractIfNeeded g = .error e) :
    e ≠ .divideByZero := by
  unfold extractIfNeeded at h
  split at h
  · split at h
    · simp at h
    · rename_i e1 h1
      injection h with h
      subst h
      exact extractLoop_fault _ _ _ _ h1
  · simp at h

theorem extractIfNeeded_superHigh (g g2 : Globals) (lowest highest : Nat)
    (h : extractIfNeeded g = .ok (g2, lowest, highest)) :
    g2.listSuperHighEventIndexValues = g.listSuperHighEventIndexValues := by
  unfold extractIfNeeded at h
  split at h
  · split at h
    · injection h with h
      injection h with h1 h2
      subst h1
      rfl
    · simp at h
  · injection h with h
    injection h with h1 h2
    subst h1
    rfl

/-- The scan never divides by a list size of 0, and when it returns with an empty list it
has printed at most the extraction line and the element count 0. -/
theorem scanAcquiredData_empty (g : Globals) (console : List ConsoleLine) :
    scanAcquiredData g console ≠ .error .divideByZero ∧
    ∀ out, scanAcquiredData g console = .ok out → out.1.listCPMData = [] →
      (out.2 = console ∨
        out.2 = console ++ [ConsoleLine.extractingClicks, ConsoleLine.elementCount 0]) ∧
      out.1.listSuperHighEventIndexValues = g.listSuperHighEventIndexValues := by
  unfold scanAcquiredData
  split
  · cases hx : extractIfNeeded g with
    | error e =>
      refine ⟨?_, ?_⟩
      · intro h
        injection h with h
        exact extractIfNeeded_fault g e hx h
      · intro out h
        simp at h
    | ok r =>
      obtain ⟨g2, lowest, highest⟩ := r
      simp only []
      split
      · rename_i hpos
        refine ⟨evaluateCPMData_fault g2 lowest highest _ hpos, ?_⟩
        intro out h hempty
        have := evaluateCPMData_list _ _ _ _ _ h
        rw [hempty] at this
        rw [← this] at hpos
        simp at hpos
      · rename_i hpos
        refine ⟨by simp, ?_⟩
        intro out h _
        injection h with h
        subst h
        have h0 : g2.listCPMData.length = 0 := by omega
        refine ⟨Or.inr ?_, extractIfNeeded_superHigh g g2 lowest highest hx⟩
        simp only [h0]
  · refine ⟨by simp, ?_⟩
    intro out h _
    injection h with h
    subst h
    exact ⟨Or.inl rfl, rfl⟩

/-! ## Lemmas on images made of frames -/

theorem holdsAt_append (img : Image) (i : Nat) (a b : List Nat) :
    holdsAt img i (a ++ b) ↔ holdsAt img i a ∧ holdsAt img (i + a.length) b := by
  unfold holdsAt
  constructor
  · intro h
    refine ⟨fun j hj => ?_, fun j hj => ?_⟩
    · have := h j (by rw [List.length_append]; omega)
      rwa [List.getD_append _ _ _ _ hj] at this
    · have := h (a.length + j) (by rw [List.length_append]; omega)
      rw [List.getD_append_right _ _ _ _ (by omega)] at this
      rw [Nat.add_assoc]
      simpa using this
  · rintro ⟨h1, h2⟩ j hj
    by_cases hja : j < a.length
    · rw [List.getD_append _ _ _ _ hja]
      exact h1 j hja
    · rw [List.getD_append_right _ _ _ _ (by omega)]
      have := h2 (j - a.length) (by rw [List.length_append] at hj; omega)
      rw [← this]
      congr 2
      omega

theorem holdsAt_middle (pre mid post : List Nat) :
    holdsAt (pre ++ mid ++ post) pre.length mid := by
  intro j hj
  rw [List.append_assoc, List.getD_append_right _ _ _ _ (by omega)]
  rw [Nat.add_sub_cancel_left, List.getD_append _ _ _ _ hj]

theorem flashByte_of_holdsAt (img : Image) (i j : Nat) (bytes : List Nat)
    (h : holdsAt img i bytes) (hj : j < bytes.length) (hb : i + j < MAX_FLASH_MEMORY) :
    flashByte img (i + j) = .ok (bytes.getD j 0 % 256) := by
  unfold flashByte
  rw [if_pos hb, h j hj]

/-! ## Lemmas on the location case of `ExportCSVFile` -/

theorem labelCell_snoc (stores : List (Nat × Nat)) (k v i : Nat) :
    labelCell (stores ++ [(k, v)]) i = if k = i then v else labelCell stores i := by
  simp [labelCell, List.foldl_append]

theorem labelCell_labelStoresOf (text : List Nat) :
    ∀ (k : Nat) (stores : List (Nat × Nat)) (i : Nat),
      labelCell (stores ++ labelStoresOf k text) i =
        if k ≤ i ∧ i < k + text.length then labelChar (text.getD (i - k) 0)
        else labelCell stores i := by
  induction text with
  | nil =>
    intro k stores i
    have h0 : ¬ (k ≤ i ∧ i < k + ([] : List Nat).length) := by
      simp only [List.length_nil]; omega
    rw [if_neg h0]
    simp [labelStoresOf]
  | cons b bs ih =>
    intro k stores i
    have hhead : ∀ i, labelCell (stores ++
        (if b % 256 = 44 then [(k, b % 256), (k, 32)] else [(k, b % 256)])) i =
        if k = i then labelChar b else labelCell stores i := by
      intro i
      by_cases hb : b % 256 = 44
      · rw [if_pos hb]
        have : stores ++ [(k, b % 256), (k, 32)] = (stores ++ [(k, b % 256)]) ++ [(k, 32)] := by
          simp
        rw [this, labelCell_snoc, labelCell_snoc]
        by_cases hk : k = i <;> simp [hk, labelChar, hb]
      · rw [if_neg hb, labelCell_snoc]
        by_cases hk : k = i <;> simp [hk, labelChar, hb]
    simp only [labelStoresOf]
    rw [← List.append_assoc, ih (k + 1) _ i, hhead i]
    simp only [List.length_cons]
    by_cases h1 : k + 1 ≤ i ∧ i < k + 1 + bs.length
    · rw [if_pos h1, if_pos (by omega)]
      have e : i - k = (i - (k + 1)) + 1 := by omega
      rw [e, List.getD_cons_succ]
    · rw [if_neg h1]
      by_cases hk : k = i
      · subst hk
        rw [if_pos rfl, if_pos (by omega)]
        simp
      · rw [if_neg hk, if_neg (by omega)]

theorem exportLabelLoop_eq (img : Image) (text : List Nat) :
    ∀ (k : Nat) (s : ExportState), holdsAt img s.currentImageIndex text →
      s.currentImageIndex + text.length ≤ MAX_FLASH_MEMORY →
      exportLabelLoop img text.length k s =
        .ok { s with
          currentImageIndex := s.currentImageIndex + text.length
          labelStores := s.labelStores ++ labelStoresOf k text } := by
  induction text with
  | nil =>
    intro k s _ _
    simp [exportLabelLoop, labelStoresOf]
  | cons b bs ih =>
    intro k s hold hfit
    simp only [List.length_cons] at hfit
    have hb := flashByte_of_holdsAt img s.currentImageIndex 0 (b :: bs) hold (by simp)
      (by omega)
    simp only [Nat.add_zero, List.getD_cons_zero] at hb
    have htail : holdsAt img (s.currentImageIndex + 1) bs :=
      ((holdsAt_append img s.currentImageIndex [b] bs).1 hold).2
    simp only [List.length_cons, exportLabelLoop, hb, ExportState.storeLabel, labelCell_snoc,
      if_true]
    by_cases h44 : b % 256 = 44
    · simp only [h44, if_true]
      rw [ih (k + 1) _ htail (by simp only []; omega)]
      simp [labelStoresOf, h44, Nat.add_assoc, Nat.add_comm 1]
    · simp only [h44, if_false]
      rw [ih (k + 1) _ htail (by simp only []; omega)]
      simp [labelStoresOf, h44, Nat.add_assoc, Nat.add_comm 1]

/-! ## One loop iteration per piece -/

theorem differsFromTerm2_always (b : Nat) : differsFromTerm2 b = true := by
  unfold differsFromTerm2 charToInt RawDataTerm2
  have : b % 256 < 256 := Nat.mod_lt _ (by decide)
  split <;> simp <;> omega

theorem extractLoop_piece (p : Piece) (s : ExtractState) (hend : s.endOfValidData = false)
    (hwf : p.wellFormed) :
    ∃ s', s'.currentImageIndex = s.currentImageIndex + p.bytes.length ∧
      s'.endOfValidData = false ∧
      ∀ (img : Image) (fuel : Nat), holdsAt img s.currentImageIndex p.bytes →
        s.currentImageIndex + p.bytes.length ≤ MAX_FLASH_MEMORY - 1 →
        extractLoop img (fuel + 1) s = extractLoop img fuel s' := by
  cases p with
  | marker =>
    refine ⟨{ s with currentImageIndex := s.currentImageIndex + 2 }, rfl, hend, ?_⟩
    intro img fuel hold hfit
    simp only [Piece.bytes, List.length_cons, List.length_nil] at hfit
    have h0 := flashByte_of_holdsAt img s.currentImageIndex 0 _ hold (by simp [Piece.bytes])
      (by omega)
    have h1 := flashByte_of_holdsAt img s.currentImageIndex 1 _ hold (by simp [Piece.bytes])
      (by omega)
    simp only [Piece.bytes, Nat.add_zero, List.getD_cons_zero, List.getD_cons_succ] at h0 h1
    have hlt : s.currentImageIndex < MAX_FLASH_MEMORY - 1 := by omega
    have hlt1 : s.currentImageIndex + 1 < MAX_FLASH_MEMORY - 1 := by omega
    simp [extractLoop, extractDispatch, hlt, hlt1, hend, h0, h1, differsFromTerm2_always,
      RawDataTerm1, RawDataTerm2, RawDataHeaderTimestamp, RawDataHeaderCPSIsDoubleByte,
      RawDataHeaderCPSLocationData]
  | timestamp year month day hour minute second skip1 skip2 rate =>
    refine ⟨{ s with currentImageIndex := s.currentImageIndex + 10 }, rfl, hend, ?_⟩
    intro img fuel hold hfit
    simp only [Piece.bytes, List.length_cons, List.length_nil] at hfit
    have h0 := flashByte_of_holdsAt img s.currentImageIndex 0 _ hold (by simp [Piece.bytes])
      (by omega)
    simp only [Piece.bytes, Nat.add_zero, List.getD_cons_zero] at h0
    have hlt : s.currentImageIndex < MAX_FLASH_MEMORY - 1 := by omega
    simp [extractLoop, extractDispatch, hlt, hend, h0, RawDataHeaderTimestamp, Nat.add_assoc]
  | doubleByteCount msb lsb =>
    refine ⟨{ s with currentImageIndex := s.currentImageIndex + 3 }.record
      (theDoubleCount (msb % 256) (lsb % 256)), rfl, hend, ?_⟩
    intro img fuel hold hfit
    simp only [Piece.bytes, List.length_cons, List.length_nil] at hfit
    have h0 := flashByte_of_holdsAt img s.currentImageIndex 0 _ hold (by simp [Piece.bytes])
      (by omega)
    have h1 := flashByte_of_holdsAt img s.currentImageIndex 1 _ hold (by simp [Piece.bytes])
      (by omega)
    have h2 := flashByte_of_holdsAt img s.currentImageIndex 2 _ hold (by simp [Piece.bytes])
      (by omega)
    simp only [Piece.bytes, Nat.add_zero, List.getD_cons_zero, List.getD_cons_succ] at h0 h1 h2
    have hlt : s.currentImageIndex < MAX_FLASH_MEMORY - 1 := by omega
    simp [extractLoop, extractDispatch, hlt, hend, h0, h1, h2, RawDataHeaderTimestamp,
      RawDataHeaderCPSIsDoubleByte, Nat.add_assoc]
  | location text =>
    refine ⟨{ s with currentImageIndex := s.currentImageIndex + (2 + text.length) },
      by simp [Piece.bytes]; omega, hend, ?_⟩
    intro img fuel hold hfit
    have hL : text.length ≤ 255 := hwf
    simp only [Piece.bytes, List.length_cons] at hfit
    have h0 := flashByte_of_holdsAt img s.currentImageIndex 0 _ hold (by simp [Piece.bytes])
      (by omega)
    have h1 := flashByte_of_holdsAt img s.currentImageIndex 1 _ hold (by simp [Piece.bytes])
      (by omega)
    simp only [Piece.bytes, Nat.add_zero, List.getD_cons_zero, List.getD_cons_succ] at h0 h1
    have hmod : text.length % 256 = text.length := Nat.mod_eq_of_lt (by omega)
    have hlt : s.currentImageIndex < MAX_FLASH_MEMORY - 1 := by omega
    simp [extractLoop, extractDispatch, hlt, hend, h0, h1, hmod, RawDataHeaderTimestamp,
      RawDataHeaderCPSIsDoubleByte, RawDataHeaderCPSLocationData, Nat.add_assoc,
      Nat.add_comm 1]

theorem extractLoop_pieces (ps : List Piece) :
    ∀ (s : ExtractState), s.endOfValidData = false → (∀ p ∈ ps, p.wellFormed) →
      ∃ s', s'.currentImageIndex = s.currentImageIndex + (piecesBytes ps).length ∧
        s'.endOfValidData = false ∧
        ∀ (img : Image) (fuel : Nat), holdsAt img s.currentImageIndex (piecesBytes ps) →
          s.currentImageIndex + (piecesBytes ps).length ≤ MAX_FLASH_MEMORY - 1 →
          extractLoop img (fuel + ps.length) s = extractLoop img fuel s' := by
  induction ps with
  | nil =>
    intro s hend _
    exact ⟨s, rfl, hend, fun img fuel _ _ => rfl⟩
  | cons p ps ih =>
    intro s hend hwf
    obtain ⟨s1, hi1, hend1, hstep1⟩ :=
      extractLoop_piece p s hend (hwf p (List.mem_cons_self p ps))
    obtain ⟨s2, hi2, hend2, hstep2⟩ :=
      ih s1 hend1 (fun q hq => hwf q (List.mem_cons_of_mem p hq))
    refine ⟨s2, ?_, hend2, ?_⟩
    · rw [hi2, hi1]
      simp only [piecesBytes, List.length_append]
      omega
    · intro img fuel hold hfit
      simp only [piecesBytes, List.length_append] at hfit
      obtain ⟨holdp, holdps⟩ := (holdsAt_append img _ _ _).1 hold
      rw [List.length_cons, ← Nat.add_assoc, hstep1 img _ holdp (by omega)]
      exact hstep2 img fuel (by rw [hi1]; exact holdps) (by rw [hi1]; omega)

theorem extractLoop_endOfData (img : Image) (s : ExtractState) (fuel : Nat)
    (hend : s.endOfValidData = false) (hlt : s.currentImageIndex < MAX_FLASH_MEMORY - 1)
    (hold : holdsAt img s.currentImageIndex [RawDataHeaderEndOfData]) :
    extractLoop img (fuel + 2) s =
      .ok { s with currentImageIndex := s.currentImageIndex + 1, endOfValidData := true } := by
  have h0 := flashByte_of_holdsAt img s.currentImageIndex 0 _ hold (by simp) (by omega)
  simp only [Nat.add_zero, List.getD_cons_zero] at h0
  simp [extractLoop, extractDispatch, hlt, hend, h0, RawDataHeaderEndOfData,
    RawDataHeaderTimestamp, RawDataHeaderCPSIsDoubleByte, RawDataHeaderCPSLocationData,
    RawDataTerm1]

theorem piecesBytes_length_ge (ps : List Piece) : 2 * ps.length ≤ (piecesBytes ps).length := by
  induction ps with
  | nil => simp [piecesBytes]
  | cons p ps ih =>
    have hp : 2 ≤ p.bytes.length := by cases p <;> simp [Piece.bytes]
    simp only [piecesBytes, List.length_append, List.length_cons]
    omega

theorem formatTimestamp_ok (theDay theMonth theYear theHour theMinute theSecond : Nat)
    (h : theMonth < 12) :
    ∃ t, formatTimestamp theDay theMonth theYear theHour theMinute theSecond = .ok t := by
  unfold formatTimestamp
  have hlen : theMonth < theMonths.length := by simpa [theMonths] using h
  rw [List.getElem?_eq_getElem hlen]
  exact ⟨_, rfl⟩

theorem labelStoresOf_index (text : List Nat) :
    ∀ (k : Nat), ∀ w ∈ labelStoresOf k text, k ≤ w.1 ∧ w.1 < k + text.length := by
  induction text with
  | nil => intro k w hw; simp [labelStoresOf] at hw
  | cons b bs ih =>
    intro k w hw
    simp only [labelStoresOf, List.mem_append] at hw
    simp only [List.length_cons]
    rcases hw with hw | hw
    · have hk : w.1 = k := by
        split at hw
        · simp only [List.mem_cons, List.mem_singleton, List.not_mem_nil, or_false] at hw
          rcases hw with hw | hw <;> rw [hw]
        · simp only [List.mem_singleton] at hw
          rw [hw]
      omega
    · have := ih (k + 1) w hw
      omega

theorem exportLoop_piece (p : Piece) (s : ExportState) (hend : s.endOfValidData = false)
    (hwf : p.wellFormed) (hmonth : p.monthInTable) :
    ∃ s', s'.currentImageIndex = s.currentImageIndex + p.bytes.length ∧
      s'.endOfValidData = false ∧
      (p.labelFits → ∀ w ∈ s'.labelStores, w ∈ s.labelStores ∨ w.1 < labelStringSize) ∧
      ∀ (img : Image) (fuel : Nat), holdsAt img s.currentImageIndex p.bytes →
        s.currentImageIndex + p.bytes.length ≤ MAX_FLASH_MEMORY - 1 →
        exportLoop img (fuel + 1) s = exportLoop img fuel s' := by
  cases p with
  | marker =>
    refine ⟨{ s with currentImageIndex := s.currentImageIndex + 2 }, rfl, hend,
      fun _ w hw => Or.inl hw, ?_⟩
    intro img fuel hold hfit
    simp only [Piece.bytes, List.length_cons, List.length_nil] at hfit
    have h0 := flashByte_of_holdsAt img s.currentImageIndex 0 _ hold (by simp [Piece.bytes])
      (by omega)
    have h1 := flashByte_of_holdsAt img s.currentImageIndex 1 _ hold (by simp [Piece.bytes])
      (by omega)
    simp only [Piece.bytes, Nat.add_zero, List.getD_cons_zero, List.getD_cons_succ] at h0 h1
    have hlt : s.currentImageIndex < MAX_FLASH_MEMORY - 1 := by omega
    have hlt1 : s.currentImageIndex + 1 < MAX_FLASH_MEMORY - 1 := by omega
    simp [exportLoop, exportDispatch, hlt, hlt1, hend, h0, h1, differsFromTerm2_always,
      RawDataTerm1, RawDataTerm2]
  | timestamp year month day hour minute second skip1 skip2 rate =>
    obtain ⟨t, ht⟩ := formatTimestamp_ok (day % 256) (month % 256) (year % 256) (hour % 256)
      (minute % 256) (second % 256) hmonth
    refine ⟨{ s with
      currentImageIndex := s.currentImageIndex + 10
      theYear := year % 256, theMonth := month % 256, theDay := day % 256
      theHour := hour % 256, theMinute := minute % 256, theSecond := second % 256
      theRecordRate := rate % 256
      currentTimestamp := t }, rfl, hend, fun _ w hw => Or.inl hw, ?_⟩
    intro img fuel hold hfit
    simp only [Piece.bytes, List.length_cons, List.length_nil] at hfit
    have h0 := flashByte_of_holdsAt img s.currentImageIndex 0 _ hold (by simp [Piece.bytes])
      (by omega)
    have h1 := flashByte_of_holdsAt img s.currentImageIndex 1 _ hold (by simp [Piece.bytes])
      (by omega)
    have h2 := flashByte_of_holdsAt img s.currentImageIndex 2 _ hold (by simp [Piece.bytes])
      (by omega)
    have h3 := flashByte_of_holdsAt img s.currentImageIndex 3 _ hold (by simp [Piece.bytes])
      (by omega)
    have h4 := flashByte_of_holdsAt img s.currentImageIndex 4 _ hold (by simp [Piece.bytes])
      (by omega)
    have h5 := flashByte_of_holdsAt img s.currentImageIndex 5 _ hold (by simp [Piece.bytes])
      (by omega)
    have h6 := flashByte_of_holdsAt img s.currentImageIndex 6 _ hold (by simp [Piece.bytes])
      (by omega)
    have h9 := flashByte_of_holdsAt img s.currentImageIndex 9 _ hold (by simp [Piece.bytes])
      (by omega)
    simp only [Piece.bytes, Nat.add_zero, List.getD_cons_zero, List.getD_cons_succ]
      at h0 h1 h2 h3 h4 h5 h6 h9
    have hlt : s.currentImageIndex < MAX_FLASH_MEMORY - 1 := by omega
    simp [exportLoop, exportDispatch, hlt, hend, h0, h1, h2, h3, h4, h5, h6, h9, ht,
      RawDataHeaderTimestamp, RawDataTerm1, Nat.add_assoc]
  | doubleByteCount msb lsb =>
    refine ⟨{ s with
      currentImageIndex := s.currentImageIndex + 3
      formatted := s.formatted ++
        [{ timestamp := s.currentTimestamp, count := theDoubleCount (msb % 256) (lsb % 256) }]
      written := s.written ++
        [{ timestamp := s.currentTimestamp, count := theDoubleCount (msb % 256) (lsb % 256) }] },
      rfl, hend, fun _ w hw => Or.inl hw, ?_⟩
    intro img fuel hold hfit
    simp only [Piece.bytes, List.length_cons, List.length_nil] at hfit
    have h0 := flashByte_of_holdsAt img s.currentImageIndex 0 _ hold (by simp [Piece.bytes])
      (by omega)
    have h1 := flashByte_of_holdsAt img s.currentImageIndex 1 _ hold (by simp [Piece.bytes])
      (by omega)
    have h2 := flashByte_of_holdsAt img s.currentImageIndex 2 _ hold (by simp [Piece.bytes])
      (by omega)
    simp only [Piece.bytes, Nat.add_zero, List.getD_cons_zero, List.getD_cons_succ] at h0 h1 h2
    have hlt : s.currentImageIndex < MAX_FLASH_MEMORY - 1 := by omega
    simp [exportLoop, exportDispatch, hlt, hend, h0, h1, h2, RawDataHeaderTimestamp,
      RawDataHeaderCPSIsDoubleByte, RawDataTerm1, Nat.add_assoc]
  | location text =>
    refine ⟨{ s with
      currentImageIndex := s.currentImageIndex + (2 + text.length)
      labelStores := s.labelStores ++ labelStoresOf 0 text ++ [(text.length, 0)]
      foundLocationString := true },
      by simp [Piece.bytes]; omega, hend, ?_, ?_⟩
    · intro hfits w hw
      have hlen : text.length < labelStringSize := hfits
      simp only [List.mem_append, List.mem_singleton] at hw
      rcases hw with (hw | hw) | hw
      · exact Or.inl hw
      · have := labelStoresOf_index text 0 w hw
        right
        omega
      · right
        rw [hw]
        exact hlen
    intro img fuel hold hfit
    have hL : text.length ≤ 255 := hwf
    simp only [Piece.bytes, List.length_cons] at hfit
    have h0 := flashByte_of_holdsAt img s.currentImageIndex 0 _ hold (by simp [Piece.bytes])
      (by omega)
    have h1 := flashByte_of_holdsAt img s.currentImageIndex 1 _ hold (by simp [Piece.bytes])
      (by omega)
    simp only [Piece.bytes, Nat.add_zero, List.getD_cons_zero, List.getD_cons_succ] at h0 h1
    have hmod : text.length % 256 = text.length := Nat.mod_eq_of_lt (by omega)
    have hlt : s.currentImageIndex < MAX_FLASH_MEMORY - 1 := by omega
    have htext : holdsAt img (s.currentImageIndex + 2) text :=
      ((holdsAt_append img s.currentImageIndex
        [RawDataHeaderCPSLocationData, text.length] text).1 hold).2
    have hloop := exportLabelLoop_eq img text 0
      { s with currentImageIndex := s.currentImageIndex + 2, endOfValidData := false } htext
      (by simp only []; omega)
    dsimp only at hloop
    have e2 : RawDataHeaderCPSLocationData % 256 = 2 := rfl
    rw [e2] at h0
    rw [hmod] at h1
    rw [exportLoop]
    simp only [hlt, hend, and_self, if_true, h0, exportDispatch, RawDataTerm1,
      RawDataHeaderTimestamp, RawDataHeaderCPSIsDoubleByte, RawDataHeaderCPSLocationData, h1]
    simp only [Nat.reduceEqDiff, if_false, if_true, hloop]
    simp [ExportState.storeLabel, Nat.add_assoc]

theorem exportLoop_pieces (ps : List Piece) :
    ∀ (s : ExportState), s.endOfValidData = false → (∀ p ∈ ps, p.wellFormed) →
      (∀ p ∈ ps, p.monthInTable) →
      ∃ s', s'.currentImageIndex = s.currentImageIndex + (piecesBytes ps).length ∧
        s'.endOfValidData = false ∧
        ((∀ p ∈ ps, p.labelFits) →
          ∀ w ∈ s'.labelStores, w ∈ s.labelStores ∨ w.1 < labelStringSize) ∧
        ∀ (img : Image) (fuel : Nat), holdsAt img s.currentImageIndex (piecesBytes ps) →
          s.currentImageIndex + (piecesBytes ps).length ≤ MAX_FLASH_MEMORY - 1 →
          exportLoop img (fuel + ps.length) s = exportLoop img fuel s' := by
  induction ps with
  | nil =>
    intro s hend _ _
    exact ⟨s, rfl, hend, fun _ w hw => Or.inl hw, fun img fuel _ _ => rfl⟩
  | cons p ps ih =>
    intro s hend hwf hmonth
    obtain ⟨s1, hi1, hend1, hst1, hstep1⟩ :=
      exportLoop_piece p s hend (hwf p (List.mem_cons_self p ps))
        (hmonth p (List.mem_cons_self p ps))
    obtain ⟨s2, hi2, hend2, hst2, hstep2⟩ :=
      ih s1 hend1 (fun q hq => hwf q (List.mem_cons_of_mem p hq))
        (fun q hq => hmonth q (List.mem_cons_of_mem p hq))
    refine ⟨s2, ?_, hend2, ?_, ?_⟩
    · rw [hi2, hi1]
      simp only [piecesBytes, List.length_append]
      omega
    · intro hfits w hw
      rcases hst2 (fun q hq => hfits q (List.mem_cons_of_mem p hq)) w hw with h | h
      · exact hst1 (hfits p (List.mem_cons_self p ps)) w h
      · exact Or.inr h
    · intro img fuel hold hfit
      simp only [piecesBytes, List.length_append] at hfit
      obtain ⟨holdp, holdps⟩ := (holdsAt_append img _ _ _).1 hold
      rw [List.length_cons, ← Nat.add_assoc, hstep1 img _ holdp (by omega)]
      exact hstep2 img fuel (by rw [hi1]; exact holdps) (by rw [hi1]; omega)

theorem exportLoop_endOfData (img : Image) (s : ExportState) (fuel : Nat)
    (hend : s.endOfValidData = false) (hlt : s.currentImageIndex < MAX_FLASH_MEMORY - 1)
    (hold : holdsAt img s.currentImageIndex [RawDataHeaderEndOfData]) :
    exportLoop img (fuel + 2) s =
      .ok { s with currentImageIndex := s.currentImageIndex + 1, endOfValidData := true } := by
  have h0 := flashByte_of_holdsAt img s.currentImageIndex 0 _ hold (by simp) (by omega)
  simp only [Nat.add_zero, List.getD_cons_zero] at h0
  simp [exportLoop, exportDispatch, hlt, hend, h0, RawDataHeaderEndOfData,
    RawDataHeaderTimestamp, RawDataHeaderCPSIsDoubleByte, RawDataHeaderCPSLocationData,
    RawDataTerm1]

theorem piecesBytes_append (a b : List Piece) :
    piecesBytes (a ++ b) = piecesBytes a ++ piecesBytes b := by
  induction a with
  | nil => rfl
  | cons p a ih => simp [piecesBytes, ih]

theorem repeatPieces_bytes_length (block : List Piece) (n : Nat) :
    (piecesBytes (repeatPieces block n)).length = n * (piecesBytes block).length := by
  induction n with
  | zero => simp [repeatPieces, piecesBytes]
  | succ n ih =>
    simp only [repeatPieces, piecesBytes_append, List.length_append, ih]
    rw [Nat.succ_mul]
    omega

theorem repeatPieces_length (block : List Piece) (n : Nat) :
    (repeatPieces block n).length = n * block.length := by
  induction n with
  | zero => simp [repeatPieces]
  | succ n ih =>
    simp only [repeatPieces, List.length_append, ih]
    rw [Nat.succ_mul]
    omega

theorem repeatPieces_mem (block : List Piece) (n : Nat) (p : Piece)
    (h : p ∈ repeatPieces block n) : p ∈ block := by
  induction n with
  | zero => simp [repeatPieces] at h
  | succ n ih =>
    simp only [repeatPieces, List.mem_append] at h
    rcases h with h | h
    · exact h
    · exact ih h

theorem repeatPieces_succ_right (block : List Piece) (n : Nat) :
    repeatPieces block (n + 1) = repeatPieces block n ++ block := by
  induction n with
  | zero => simp [repeatPieces]
  | succ n ih =>
    show block ++ repeatPieces block (n + 1) = (block ++ repeatPieces block n) ++ block
    rw [ih, List.append_assoc]

/-- The shape of `lastCellImage`, with the repeated pieces kept as a list `ps`. -/
theorem lastCellImage_shape :
    ∃ ps ps' : List Piece,
      lastCellImage = [RawDataTerm1, RawDataTerm2] ++ piecesBytes ps ++ [RawDataHeaderEndOfData] ∧
      piecesBytes ps = piecesBytes ps' ++
        [RawDataHeaderTimestamp, 21, 3, 11, 23, 30, 11, 0x55, 0xAA, 2, RawDataTerm1,
          RawDataTerm2] ∧
      (piecesBytes ps').length = 65520 ∧ ps.length = 10922 ∧
      (∀ p ∈ ps, p.wellFormed) ∧ (∀ p ∈ ps, p.monthInTable) := by
  have hblock : ∀ p ∈ [Piece.timestamp 21 3 11 23 30 11 0x55 0xAA 2, Piece.marker],
      p.wellFormed ∧ p.monthInTable := by
    intro p hp
    simp only [List.mem_cons, List.mem_singleton, List.not_mem_nil, or_false] at hp
    rcases hp with hp | hp <;> subst hp <;> simp [Piece.wellFormed, Piece.monthInTable]
  have hbl : (piecesBytes [Piece.timestamp 21 3 11 23 30 11 0x55 0xAA 2, Piece.marker]).length
      = 12 := by
    simp [piecesBytes, Piece.bytes]
  have hbb : piecesBytes [Piece.timestamp 21 3 11 23 30 11 0x55 0xAA 2, Piece.marker] =
      [RawDataHeaderTimestamp, 21, 3, 11, 23, 30, 11, 0x55, 0xAA, 2, RawDataTerm1,
        RawDataTerm2] := by
    simp [piecesBytes, Piece.bytes]
  refine ⟨repeatPieces [Piece.timestamp 21 3 11 23 30 11 0x55 0xAA 2, Piece.marker] 5461,
    repeatPieces [Piece.timestamp 21 3 11 23 30 11 0x55 0xAA 2, Piece.marker] 5460,
    rfl, ?_, ?_, ?_, ?_, ?_⟩
  · rw [repeatPieces_succ_right _ 5460, piecesBytes_append, hbb]
  · rw [repeatPieces_bytes_length, hbl]
  · rw [repeatPieces_length]; rfl
  · exact fun p hp => (hblock p (repeatPieces_mem _ _ p hp)).1
  · exact fun p hp => (hblock p (repeatPieces_mem _ _ p hp)).2

/-- The shape of `truncatedFrameImage`, with its pieces kept as a list `ps`. -/
theorem truncatedFrameImage_shape :
    ∃ ps : List Piece,
      truncatedFrameImage =
        [RawDataTerm1, RawDataTerm2] ++ piecesBytes ps ++ [RawDataHeaderCPSIsDoubleByte, 0x01] ∧
      (piecesBytes ps).length = 65531 ∧ ps.length = 10921 ∧
      (∀ p ∈ ps, p.wellFormed) ∧ (∀ p ∈ ps, p.monthInTable) := by
  have hblock : ∀ p ∈ [Piece.timestamp 21 3 11 23 30 11 0x55 0xAA 2, Piece.marker],
      p.wellFormed ∧ p.monthInTable := by
    intro p hp
    simp only [List.mem_cons, List.mem_singleton, List.not_mem_nil, or_false] at hp
    rcases hp with hp | hp <;> subst hp <;> simp [Piece.wellFormed, Piece.monthInTable]
  have hbl : (piecesBytes [Piece.timestamp 21 3 11 23 30 11 0x55 0xAA 2, Piece.marker]).length
      = 12 := by
    simp [piecesBytes, Piece.bytes]
  have hloc : (piecesBytes [Piece.location [72, 111, 109, 101, 32, 76, 97, 98, 49]]).length
      = 11 := by
    simp [piecesBytes, Piece.bytes]
  refine ⟨repeatPieces [Piece.timestamp 21 3 11 23 30 11 0x55 0xAA 2, Piece.marker] 5460 ++
    [Piece.location [72, 111, 109, 101, 32, 76, 97, 98, 49]], rfl, ?_, ?_, ?_, ?_⟩
  · rw [piecesBytes_append, List.length_append, repeatPieces_bytes_length, hbl, hloc]
  · rw [List.length_append, repeatPieces_length]; rfl
  · intro p hp
    rcases List.mem_append.1 hp with hp | hp
    · exact (hblock p (repeatPieces_mem _ _ p hp)).1
    · rw [List.mem_singleton] at hp
      subst hp
      show (9 : Nat) ≤ 255
      decide
  · intro p hp
    rcases List.mem_append.1 hp with hp | hp
    · exact (hblock p (repeatPieces_mem _ _ p hp)).2
    · rw [List.mem_singleton] at hp
      subst hp
      trivial

/-! ## One sample of a bare run -/

theorem ExportState.tick_fields (s : ExportState) :
    s.tick.theMonth = s.theMonth ∧ s.tick.theYear = s.theYear ∧
    s.tick.theSecond = s.theSecond ∧ s.tick.theRecordRate = s.theRecordRate ∧
    s.tick.currentImageIndex = s.currentImageIndex ∧
    s.tick.endOfValidData = s.endOfValidData ∧
    s.tick.foundLocationString = s.foundLocationString ∧
    s.tick.labelStores = s.labelStores ∧ s.tick.formatted = s.formatted ∧
    s.tick.written = s.written ∧ s.tick.currentTimestamp = s.currentTimestamp := by
  unfold ExportState.tick
  simp only []
  split
  · split <;> simp
  · simp

theorem ExportState.tick_clock (s : ExportState) (formatted written : List OutputRecord) :
    ({ s with formatted := formatted, written := written }).tick =
      { s.tick with formatted := formatted, written := written } := by
  unfold ExportState.tick
  simp only []
  split
  · split <;> rfl
  · rfl

theorem exportBareRun_sample (img : Image) (fuel : Nat) (s : ExportState)
    (testbyte1 testbyte2 : Nat)
    (hlt : s.currentImageIndex < MAX_FLASH_MEMORY - 1)
    (h1 : flashByte img s.currentImageIndex = .ok testbyte1)
    (h2 : flashByte img (s.currentImageIndex + 1) = .ok testbyte2)
    (hmarker : ¬ (testbyte1 = RawDataTerm1 ∧ testbyte2 = RawDataTerm2))
    (hend : ¬ (testbyte1 = RawDataHeaderEndOfData ∧ testbyte2 = RawDataHeaderEndOfData))
    (hmonth : s.theMonth < 12) :
    ∃ t, formatTimestamp s.tick.theDay s.theMonth s.theYear s.tick.theHour s.tick.theMinute
        s.theSecond = .ok t ∧
      exportBareRun img (fuel + 1) s =
        exportBareRun img fuel
          { s.tick with
            currentTimestamp := t
            currentImageIndex := s.currentImageIndex + 1
            formatted := s.formatted ++ [{ timestamp := s.currentTimestamp, count := testbyte1 }]
            written :=
              if testbyte1 > 0 then
                s.written ++ [{ timestamp := s.currentTimestamp, count := testbyte1 }]
              else s.written } := by
  obtain ⟨t, ht⟩ := formatTimestamp_ok s.tick.theDay s.theMonth s.theYear s.tick.theHour
    s.tick.theMinute s.theSecond hmonth
  refine ⟨t, ht, ?_⟩
  obtain ⟨hm, hy, hsec, _, hidx, _, _, _, _, _, _⟩ := s.tick_fields
  rw [exportBareRun]
  simp only [hlt, if_true, h1, h2, hmarker, hend, if_false, ExportState.tick_clock, hm, hy,
    hsec, ht, hidx]

theorem extractBareRun_sample (img : Image) (fuel : Nat) (s : ExtractState)
    (testbyte1 testbyte2 : Nat)
    (hlt : s.currentImageIndex < MAX_FLASH_MEMORY - 1)
    (h1 : flashByte img s.currentImageIndex = .ok testbyte1)
    (h2 : flashByte img (s.currentImageIndex + 1) = .ok testbyte2)
    (hmarker : ¬ (testbyte1 = RawDataTerm1 ∧ testbyte2 = RawDataTerm2))
    (hend : ¬ (testbyte1 = RawDataHeaderEndOfData ∧ testbyte2 = RawDataHeaderEndOfData)) :
    extractBareRun img (fuel + 1) s =
      extractBareRun img fuel
        ({ s with currentImageIndex := s.currentImageIndex + 1 }.record
          (toUshort (charToInt testbyte1))) := by
  rw [extractBareRun]
  simp only [hlt, if_true, h1, h2, hmarker, hend, if_false]

/-! ## The lowest and highest outputs -/

theorem ExtractState.extremes_record (s : ExtractState) (c : Nat) (hc : c < 65536)
    (h : s.extremes) : (s.record c).extremes := by
  obtain ⟨hnil, hne, hall⟩ := h
  unfold ExtractState.extremes ExtractState.record
  simp only []
  refine ⟨?_, ?_, ?_⟩
  · intro h
    simp at h
  · intro _
    by_cases hl : s.listCPMData = []
    · obtain ⟨hlo, hhi⟩ := hnil hl
      rw [hl, hlo, hhi]
      simp only [List.nil_append, List.mem_singleton]
      constructor
      · split <;> omega
      · split <;> omega
    · obtain ⟨hlo, hhi⟩ := hne hl
      constructor
      · split
        · simp
        · exact List.mem_append_left _ hlo
      · split
        · simp
        · exact List.mem_append_left _ hhi
  · intro d hd
    rcases List.mem_append.1 hd with hd | hd
    · obtain ⟨h1, h2, h3⟩ := hall d hd
      refine ⟨?_, ?_, h3⟩
      · split <;> omega
      · split <;> omega
    · rw [List.mem_singleton] at hd
      subst hd
      refine ⟨?_, ?_, hc⟩
      · split <;> omega
      · split <;> omega

theorem extractBareRun_extremes (img : Image) :
    ∀ (fuel : Nat) (s t : ExtractState), s.extremes → extractBareRun img fuel s = .ok t →
      t.extremes := by
  intro fuel
  induction fuel with
  | zero => intro s t _ h; simp [extractBareRun] at h
  | succ n ih =>
    intro s t hs h
    simp only [extractBareRun] at h
    split at h
    · split at h
      · split at h
        · injection h with h
          subst h
          exact hs
        · split at h
          · injection h with h
            subst h
            exact hs
          · refine ih _ t ?_ h
            exact ExtractState.extremes_record
              { s with currentImageIndex := s.currentImageIndex + 1 } _ (toUshort_lt _) hs
      · simp at h
      · simp at h
    · injection h with h
      subst h
      exact hs

theorem extractDispatch_extremes (img : Image) (headerRecord : Nat) (s t : ExtractState)
    (hs : s.extremes) (h : extractDispatch img headerRecord s = .ok t) : t.extremes := by
  unfold extractDispatch at h
  split at h
  · injection h with h
    subst h
    exact hs
  split at h
  · split at h
    · injection h with h
      subst h
      exact ExtractState.extremes_record
        { s with currentImageIndex := s.currentImageIndex + 2 } _ (toUshort_lt _) hs
    · simp at h
    · simp at h
  split at h
  · split at h
    · injection h with h
      subst h
      exact hs
    · simp at h
  split at h
  · split at h
    · split at h <;> injection h with h <;> subst h
      · exact hs
      · exact hs
    · simp at h
  split at h
  · injection h with h
    subst h
    exact hs
  · exact extractBareRun_extremes img _ s t hs h

theorem extractLoop_extremes (img : Image) :
    ∀ (fuel : Nat) (s t : ExtractState), s.extremes → extractLoop img fuel s = .ok t →
      t.extremes := by
  intro fuel
  induction fuel with
  | zero => intro s t _ h; simp [extractLoop] at h
  | succ n ih =>
    intro s t hs h
    simp only [extractLoop] at h
    split at h
    · split at h
      · split at h
        · rename_i s1 hd
          exact ih s1 t (extractDispatch_extremes img _
            { s with currentImageIndex := s.currentImageIndex + 1 } s1 hs hd) h
        · simp at h
      · simp at h
    · injection h with h
      subst h
      exact hs

/-! ## The label and the header record -/

theorem imageBytes_length (img : Image) : ∀ (n i : Nat), (imageBytes img i n).length = n := by
  intro n
  induction n with
  | zero => intro i; rfl
  | succ n ih => intro i; simp [imageBytes, ih]

theorem imageBytes_getD (img : Image) :
    ∀ (n i j : Nat), j < n → (imageBytes img i n).getD j 0 = img.getD (i + j) 0 % 256 := by
  intro n
  induction n with
  | zero => intro i j hj; omega
  | succ n ih =>
    intro i j hj
    cases j with
    | zero => simp [imageBytes]
    | succ j =>
      simp only [imageBytes, List.getD_cons_succ]
      rw [ih (i + 1) j (by omega)]
      congr 2
      omega

theorem imageBytes_lt (img : Image) :
    ∀ (n i : Nat), ∀ b ∈ imageBytes img i n, b < 256 := by
  intro n
  induction n with
  | zero => intro i b hb; simp [imageBytes] at hb
  | succ n ih =>
    intro i b hb
    simp only [imageBytes, List.mem_cons] at hb
    rcases hb with hb | hb
    · rw [hb]
      exact Nat.mod_lt _ (by decide)
    · exact ih (i + 1) b hb

theorem holdsAt_imageBytes (img : Image) (i n : Nat) : holdsAt img i (imageBytes img i n) := by
  intro j hj
  rw [imageBytes_length] at hj
  rw [imageBytes_getD img n i j hj, Nat.mod_mod]

theorem exportLabelLoop_fit (img : Image) :
    ∀ (n k : Nat) (s t : ExportState), exportLabelLoop img n k s = .ok t →
      s.currentImageIndex + n ≤ MAX_FLASH_MEMORY ∨ n = 0 := by
  intro n
  induction n with
  | zero => intro k s t _; exact Or.inr rfl
  | succ n ih =>
    intro k s t h
    left
    simp only [exportLabelLoop] at h
    split at h
    · rename_i b hb
      have hlt : s.currentImageIndex < MAX_FLASH_MEMORY := by
        unfold flashByte at hb
        by_contra hge
        rw [if_neg hge] at hb
        cases hb
      rcases ih _ _ _ h with h1 | h1
      · split at h1 <;> simp only [ExportState.storeLabel] at h1 <;> omega
      · omega
    · cases h

theorem exportLabelLoop_stores (img : Image) (n k : Nat) (s t : ExportState)
    (h : exportLabelLoop img n k s = .ok t) :
    t.labelStores = s.labelStores ++ labelStoresOf k (imageBytes img s.currentImageIndex n) ∧
    t.foundLocationString = s.foundLocationString := by
  have hfit : s.currentImageIndex + (imageBytes img s.currentImageIndex n).length ≤
      MAX_FLASH_MEMORY ∨ n = 0 := by
    rw [imageBytes_length]
    exact exportLabelLoop_fit img n k s t h
  rcases hfit with hfit | hn
  · have heq := exportLabelLoop_eq img (imageBytes img s.currentImageIndex n) k s
      (holdsAt_imageBytes img _ _) hfit
    rw [imageBytes_length] at heq
    rw [heq] at h
    injection h with h
    subst h
    exact ⟨rfl, rfl⟩
  · subst hn
    simp only [exportLabelLoop] at h
    injection h with h
    subst h
    simp [imageBytes, labelStoresOf]

theorem exportBareRun_label (img : Image) :
    ∀ (fuel : Nat) (s t : ExportState), exportBareRun img fuel s = .ok t →
      t.foundLocationString = s.foundLocationString ∧ t.labelStores = s.labelStores := by
  intro fuel
  induction fuel with
  | zero => intro s t h; simp [exportBareRun] at h
  | succ n ih =>
    intro s t h
    simp only [exportBareRun] at h
    split at h
    · split at h
      · split at h
        · injection h with h
          subst h
          exact ⟨rfl, rfl⟩
        · split at h
          · injection h with h
            subst h
            exact ⟨rfl, rfl⟩
          · split at h
            · obtain ⟨h1, h2⟩ := ih _ t h
              simp only [ExportState.tick_clock] at h1 h2
              obtain ⟨_, _, _, _, _, _, hf, hl, _, _, _⟩ := s.tick_fields
              exact ⟨h1.trans hf, h2.trans hl⟩
            · cases h
      · cases h
      · cases h
    · injection h with h
      subst h
      exact ⟨rfl, rfl⟩

theorem flashByte_ok (img : Image) (i b : Nat) (h : flashByte img i = .ok b) :
    b = img.getD i 0 % 256 := by
  unfold flashByte at h
  split at h
  · injection h with h
    exact h.symm
  · cases h

/-- What a dispatch does to the label: a Location frame stores its text and the terminator
after whatever the log held, every other header leaves the label and the flag alone. -/
theorem exportDispatch_label (img : Image) (headerRecord : Nat) (s t : ExportState)
    (h : exportDispatch img headerRecord s = .ok t) :
    (headerRecord = RawDataHeaderCPSLocationData →
      t.foundLocationString = true ∧
      t.labelStores = s.labelStores ++
        labelStoresOf 0
          (imageBytes img (s.currentImageIndex + 1) (img.getD s.currentImageIndex 0 % 256)) ++
        [(img.getD s.currentImageIndex 0 % 256, 0)]) ∧
    (headerRecord ≠ RawDataHeaderCPSLocationData →
      t.foundLocationString = s.foundLocationString ∧ t.labelStores = s.labelStores) := by
  unfold exportDispatch at h
  simp only [] at h
  split at h
  · rename_i hh
    refine ⟨fun h2 => ?_, fun _ => ?_⟩
    · rw [hh] at h2; cases h2
    · split at h
      · split at h <;> injection h with h <;> subst h <;> exact ⟨rfl, rfl⟩
      · cases h
  split at h
  · rename_i hh
    refine ⟨fun h2 => ?_, fun _ => ?_⟩
    · rw [hh] at h2; cases h2
    · split at h
      · split at h
        · injection h with h
          subst h
          exact ⟨rfl, rfl⟩
        · cases h
      · cases h
  split at h
  · rename_i hh
    refine ⟨fun h2 => ?_, fun _ => ?_⟩
    · rw [hh] at h2; cases h2
    · split at h
      · injection h with h
        subst h
        exact ⟨rfl, rfl⟩
      · cases h
  split at h
  · refine ⟨fun _ => ?_, fun h2 => absurd ‹_› h2⟩
    split at h
    · rename_i stringLength hb
      have hL := flashByte_ok img _ _ hb
      split at h
      · rename_i s1 hloop
        injection h with h
        subst h
        obtain ⟨hst, _⟩ := exportLabelLoop_stores img _ _ _ _ hloop
        simp only [ExportState.storeLabel, hst, hL]
        exact ⟨trivial, trivial⟩
      · cases h
    · cases h
  split at h
  · rename_i hh
    refine ⟨fun h2 => ?_, fun _ => ?_⟩
    · rw [hh] at h2; cases h2
    · injection h with h
      subst h
      exact ⟨rfl, rfl⟩
  · rename_i hh
    exact ⟨fun h2 => absurd h2 (by assumption), fun _ => exportBareRun_label img _ s t h⟩

theorem labelStoresOf_length_ge (text : List Nat) :
    ∀ k : Nat, text.length ≤ (labelStoresOf k text).length := by
  induction text with
  | nil => intro k; simp
  | cons b bs ih =>
    intro k
    have := ih (k + 1)
    simp only [labelStoresOf, List.length_append, List.length_cons]
    split <;> simp <;> omega

theorem labelCString_eq (stores : List (Nat × Nat)) (chars : List Nat) :
    ∀ (fuel k : Nat), chars.length < fuel →
      (∀ j, j < chars.length → labelCell stores (k + j) = chars.getD j 0) →
      (∀ c ∈ chars, c ≠ 0) → labelCell stores (k + chars.length) = 0 →
      labelCString stores fuel k = .ok chars := by
  induction chars with
  | nil =>
    intro fuel k hfuel _ _ hz
    cases fuel with
    | zero => simp at hfuel
    | succ f =>
      simp only [List.length_nil, Nat.add_zero] at hz
      simp [labelCString, hz]
  | cons c cs ih =>
    intro fuel k hfuel hcells hne hz
    cases fuel with
    | zero => simp at hfuel
    | succ f =>
      have hk : labelCell stores k = c := by
        have := hcells 0 (by simp)
        simpa using this
      have hc : c ≠ 0 := hne c (List.mem_cons_self _ _)
      have htail := ih f (k + 1) (by simp only [List.length_cons] at hfuel; omega)
        (fun j hj => by
          have := hcells (j + 1) (by simp only [List.length_cons]; omega)
          rw [List.getD_cons_succ] at this
          rw [← this]
          congr 1
          omega)
        (fun d hd => hne d (List.mem_cons_of_mem _ hd))
        (by
          simp only [List.length_cons] at hz
          rw [← hz]
          congr 1
          omega)
      simp [labelCString, hk, hc, htail]

/-- The C string `labelString` holds after a Location frame with the text `text`, none of whose
bytes is 0, whatever the earlier stores `pre` were. -/
theorem labelCString_location (pre : List (Nat × Nat)) (text : List Nat)
    (hne : ∀ b ∈ text, b % 256 ≠ 0) :
    labelCString (pre ++ labelStoresOf 0 text ++ [(text.length, 0)])
        ((pre ++ labelStoresOf 0 text ++ [(text.length, 0)]).length + 1) 0 =
      .ok (text.map labelChar) := by
  apply labelCString_eq
  · have := labelStoresOf_length_ge text 0
    simp only [List.length_append, List.length_map, List.length_cons, List.length_nil]
    omega
  · intro j hj
    rw [List.length_map] at hj
    rw [Nat.zero_add, labelCell_snoc, if_neg (by omega), labelCell_labelStoresOf,
      if_pos (by omega)]
    simp [List.getD_eq_getElem?_getD, List.getElem?_map, List.getElem?_eq_getElem hj]
  · intro c hc
    obtain ⟨b, hb, rfl⟩ := List.mem_map.1 hc
    unfold labelChar
    split
    · decide
    · exact hne b hb
  · rw [List.length_map, Nat.zero_add, labelCell_snoc, if_pos rfl]

theorem lastLocationFrame_step (img : Image) (fuel : Nat) (s s1 : ExportState)
    (headerRecord : Nat)
    (hcond : s.currentImageIndex < MAX_FLASH_MEMORY - 1 ∧ s.endOfValidData = false)
    (hb : flashByte img s.currentImageIndex = .ok headerRecord)
    (hd : exportDispatch img headerRecord
      { s with currentImageIndex := s.currentImageIndex + 1 } = .ok s1) :
    lastLocationFrame img (fuel + 1) s =
      match lastLocationFrame img fuel s1 with
      | some p => some p
      | none =>
        if headerRecord = RawDataHeaderCPSLocationData then some s.currentImageIndex else none := by
  have hH := flashByte_ok img _ _ hb
  have hidx : exportHeaderIndices img (fuel + 1) s =
      s.currentImageIndex :: exportHeaderIndices img fuel s1 := by
    rw [exportHeaderIndices, if_pos hcond]
    simp only [hb, hd]
  unfold lastLocationFrame
  rw [hidx, List.filter_cons]
  by_cases h2 : headerRecord = RawDataHeaderCPSLocationData
  · have hP : img.getD s.currentImageIndex 0 % 256 = RawDataHeaderCPSLocationData := by
      rw [← hH]; exact h2
    simp only [hP, decide_True, if_true, List.getLast?_cons, h2]
    cases (List.filter (fun p => decide (img.getD p 0 % 256 = RawDataHeaderCPSLocationData))
      (exportHeaderIndices img fuel s1)).getLast? <;> rfl
  · have hP : ¬ img.getD s.currentImageIndex 0 % 256 = RawDataHeaderCPSLocationData := by
      rw [← hH]; exact h2
    simp only [hP, decide_False, Bool.false_eq_true, if_false, h2]
    cases (List.filter (fun p => decide (img.getD p 0 % 256 = RawDataHeaderCPSLocationData))
      (exportHeaderIndices img fuel s1)).getLast? <;> rfl

/-- The label the decode loop leaves: that of the last Location frame it dispatches, or the
one it started with. -/
theorem exportLoop_label (img : Image) :
    ∀ (fuel : Nat) (s t : ExportState), exportLoop img fuel s = .ok t →
      (lastLocationFrame img fuel s = none →
        t.foundLocationString = s.foundLocationString ∧ t.labelStores = s.labelStores) ∧
      (∀ p, lastLocationFrame img fuel s = some p →
        t.foundLocationString = true ∧
        ∃ pre, t.labelStores =
          pre ++ labelStoresOf 0 (locationText img p) ++
            [((locationText img p).length, 0)]) := by
  intro fuel
  induction fuel with
  | zero => intro s t h; simp [exportLoop] at h
  | succ n ih =>
    intro s t h
    simp only [exportLoop] at h
    split at h
    · rename_i hcond
      split at h
      · rename_i headerRecord hb
        split at h
        · rename_i s1 hd
          obtain ⟨ihnone, ihsome⟩ := ih s1 t h
          obtain ⟨hloc, hother⟩ := exportDispatch_label img headerRecord _ s1 hd
          rw [lastLocationFrame_step img n s s1 headerRecord hcond hb hd]
          cases hlast : lastLocationFrame img n s1 with
          | some q =>
            refine ⟨fun hnone => (by cases hnone), fun p hp => ?_⟩
            injection hp with hp
            subst hp
            exact ihsome q hlast
          | none =>
            obtain ⟨h1, h2⟩ := ihnone hlast
            by_cases hh : headerRecord = RawDataHeaderCPSLocationData
            · obtain ⟨hfound, hstores⟩ := hloc hh
              simp only [hh, if_true]
              refine ⟨fun hnone => (by cases hnone), fun p hp => ?_⟩
              injection hp with hp
              subst hp
              refine ⟨h1.trans hfound, s.labelStores, ?_⟩
              rw [h2, hstores]
              unfold locationText
              rw [imageBytes_length]
            · obtain ⟨hfound, hstores⟩ := hother hh
              simp only [hh, if_false]
              exact ⟨fun _ => ⟨h1.trans hfound, h2.trans hstores⟩, fun p hp => by cases hp⟩
        · cases h
      · cases h
    · rename_i hcond
      injection h with h
      subst h
      have hidx : exportHeaderIndices img (n + 1) s = [] := by
        rw [exportHeaderIndices, if_neg hcond]
      have hnone : lastLocationFrame img (n + 1) s = none := by
        unfold lastLocationFrame
        rw [hidx]
        rfl
      rw [hnone]
      exact ⟨fun _ => ⟨rfl, rfl⟩, fun p hp => by cases hp⟩

/-! ## The download loop -/

/-- A device that answers every request (and an output file that takes every block) is
enough for the download loop to run into the end of the array whenever its iterations reach
past it. -/
theorem acquireLoop_overrun (blocks : Nat → List Nat) :
    ∀ (n blockAddress : Nat) (entireFlashImage : Image),
      blockAddress ≤ entireFlashImageSize →
      entireFlashImageSize < blockAddress + n * MAX_DATA_READ_BLOCK_SIZE →
      acquireLoop (fun a => some (blocks a)) (fun _ => true) n blockAddress entireFlashImage =
        .error .outOfBounds := by
  intro n
  induction n with
  | zero =>
    intro blockAddress entireFlashImage h1 h2
    omega
  | succ n ih =>
    intro blockAddress entireFlashImage h1 h2
    by_cases hfit : blockAddress + MAX_DATA_READ_BLOCK_SIZE ≤ entireFlashImageSize
    · simp only [acquireLoop, storeBlock, hfit, if_true]
      apply ih _ _ hfit
      rw [Nat.succ_mul] at h2
      omega
    · simp only [acquireLoop, storeBlock, hfit, if_false]

/-! ## The list of super-high events -/

theorem scan_block_superHigh (U S : Nat) (b : List Nat) (s : ScanState) (hlen : b.length = 10)
    (hseg : s.thisTenMinuteSegment = 0) (hacc : s.accumulationValue = 0)
    (hbits : ∀ c ∈ b, c < 65536) :
    (b.foldl (scanStep U S) s).listSuperHighEventIndexValues =
      s.listSuperHighEventIndexValues ++
        (if b.sum / 10 ≥ U ∧ b.sum / 10 ≥ S then [toUlong ((b.getD 9 0 : Nat) - 10)]
          else []) := by
  have hsplit : b = b.take 9 ++ b.drop 9 := (List.take_append_drop 9 b).symm
  have hd : (b.drop 9).length = 1 := by rw [List.length_drop, hlen]
  obtain ⟨x, hx⟩ := List.length_eq_one.1 hd
  have htl : (b.take 9).length = 9 := by rw [List.length_take, hlen]; rfl
  have hb9 : ∀ c ∈ b.take 9, c < 65536 := fun c hc => hbits c (List.mem_of_mem_take hc)
  have hxb : x < 65536 := by
    apply hbits
    rw [hsplit, hx]
    simp
  have hx9 : b.getD 9 0 = x := by
    have h := List.getElem?_drop (L := b) (i := 9) (j := 0)
    rw [hx] at h
    simp only [List.getElem?_cons_zero, Nat.add_zero] at h
    rw [List.getD_eq_getElem?_getD, ← h]
    rfl
  obtain ⟨h1, h2, _, _, _, h6, _⟩ := scan_incomplete U S (b.take 9) s (by omega) (by omega) hb9
  have hsum : b.sum = (b.take 9).sum + x := by
    conv_lhs => rw [hsplit, hx]
    simp
  have hfold : b.foldl (scanStep U S) s =
      scanStep U S ((b.take 9).foldl (scanStep U S) s) x := by
    conv_lhs => rw [hsplit, hx]
    rw [List.foldl_append, List.foldl_cons, List.foldl_nil]
  have hsum9 : (b.take 9).sum ≤ 65535 * 9 := by
    have := sumCPMData_le (b.take 9)
    rw [sumCPMData_eq_sum _ hb9 (by omega), htl] at this
    exact this
  rw [hfold, hsum, hx9]
  generalize (b.take 9).foldl (scanStep U S) s = t at h1 h2 h6
  have e1 : (t.thisTenMinuteSegment + 1) % 256 = 10 := by rw [h1, hseg, htl]
  have e2 : (t.accumulationValue + x % 65536) % 2 ^ 32 = (b.take 9).sum + x := by
    rw [h2, hacc, Nat.mod_eq_of_lt hxb, Nat.mod_eq_of_lt (by omega)]; omega
  have e3 : x % 65536 = x := Nat.mod_eq_of_lt hxb
  simp only [scanStep, e1, e2, if_true]
  by_cases hU : ((b.take 9).sum + x) / 10 ≥ U
  · by_cases hS : ((b.take 9).sum + x) / 10 ≥ S
    · simp [hU, hS, h6, e3]
    · simp [hU, hS, h6]
  · simp [hU, h6]

theorem superHighEntries_shift (U S : Nat) (l : List Nat) :
    ∀ k : Nat, superHighEntries U S l (k + 1) =
      (if blockAverage l 0 ≥ U ∧ blockAverage l 0 ≥ S then [toUlong ((l.getD 9 0 : Nat) - 10)]
        else []) ++ superHighEntries U S (l.drop 10) k := by
  intro k
  induction k with
  | zero => simp [superHighEntries]
  | succ k ih =>
    have hg : l.getD (10 * (k + 1) + 9) 0 = (l.drop 10).getD (10 * k + 9) 0 := by
      rw [List.getD_eq_getElem?_getD, List.getD_eq_getElem?_getD, List.getElem?_drop]
      congr 2
      omega
    rw [superHighEntries, ih, superHighEntries, blockAverage_succ, hg, List.append_assoc]

/-- The list of super-high events after a scan started at a block boundary: one entry more for
each complete block whose average reaches both thresholds. -/
theorem scan_superHigh (U S : Nat) :
    ∀ (n : Nat) (l : List Nat) (s : ScanState), l.length = n →
      s.thisTenMinuteSegment = 0 → s.accumulationValue = 0 → (∀ c ∈ l, c < 65536) →
      (l.foldl (scanStep U S) s).listSuperHighEventIndexValues =
        s.listSuperHighEventIndexValues ++ superHighEntries U S l (n / 10) := by
  intro n
  induction n using Nat.strong_induction_on with
  | _ n ih =>
    intro l s hlen hseg hacc hbits
    by_cases hn : n < 10
    · obtain ⟨_, _, _, _, _, h6, _⟩ := scan_incomplete U S l s (by omega) (by omega) hbits
      have h0 : n / 10 = 0 := Nat.div_eq_of_lt hn
      rw [h6, h0]
      simp [superHighEntries]
    · have hsplit : l = l.take 10 ++ l.drop 10 := (List.take_append_drop 10 l).symm
      have htake : (l.take 10).length = 10 := by rw [List.length_take, hlen]; omega
      have hdrop : (l.drop 10).length = n - 10 := by rw [List.length_drop, hlen]
      have hbt : ∀ c ∈ l.take 10, c < 65536 := fun c hc => hbits c (List.mem_of_mem_take hc)
      obtain ⟨b1, b2, _, _, _⟩ := scan_block U S (l.take 10) s htake hseg hacc hbt
      have b6 := scan_block_superHigh U S (l.take 10) s htake hseg hacc hbt
      have hfold : l.foldl (scanStep U S) s =
          (l.drop 10).foldl (scanStep U S) ((l.take 10).foldl (scanStep U S) s) := by
        conv_lhs => rw [hsplit]
        rw [List.foldl_append]
      have c := ih (n - 10) (by omega) (l.drop 10) _ hdrop b1 b2
        (fun c hc => hbits c (List.mem_of_mem_drop hc))
      have hdiv : n / 10 = (n - 10) / 10 + 1 := by omega
      have hg : (l.take 10).getD 9 0 = l.getD 9 0 := by
        rw [List.getD_eq_getElem?_getD, List.getD_eq_getElem?_getD, List.getElem?_take]
        simp
      rw [hfold, c, b6, hdiv, superHighEntries_shift, blockAverage_zero, hg, List.append_assoc]

/-! ## The loop budget and the cursor -/

theorem extractBareRun_cursor (img : Image) :
    ∀ (fuel : Nat) (s t : ExtractState), extractBareRun img fuel s = .ok t →
      s.currentImageIndex ≤ t.currentImageIndex := by
  intro fuel
  induction fuel with
  | zero => intro s t h; simp [extractBareRun] at h
  | succ n ih =>
    intro s t h
    simp only [extractBareRun] at h
    split at h
    · split at h
      · split at h
        · injection h with h
          subst h
          exact Nat.le_add_right _ _
        · split at h
          · injection h with h
            subst h
            exact Nat.le_add_right _ _
          · have := ih _ t h
            simp only [ExtractState.record] at this
            omega
      · simp at h
      · simp at h
    · injection h with h
      subst h
      exact Nat.le_refl _

theorem extractBareRun_budget (img : Image) :
    ∀ (fuel : Nat) (s : ExtractState), MAX_FLASH_MEMORY - 1 - s.currentImageIndex < fuel →
      extractBareRun img fuel s ≠ .error .outOfFuel := by
  intro fuel
  induction fuel with
  | zero => intro s h; omega
  | succ n ih =>
    intro s hfuel h
    simp only [extractBareRun] at h
    split at h
    · rename_i hlt
      split at h
      · split at h
        · cases h
        · split at h
          · cases h
          · refine ih _ ?_ h
            simp only [ExtractState.record]
            omega
      · injection h with h
        subst h
        exact absurd (flashByte_error img _ _ (by assumption)) (by decide)
      · injection h with h
        subst h
        exact absurd (flashByte_error img _ _ (by assumption)) (by decide)
    · cases h

theorem extractDispatch_cursor (img : Image) (headerRecord : Nat) (s t : ExtractState)
    (h : extractDispatch img headerRecord s = .ok t) :
    s.currentImageIndex ≤ t.currentImageIndex := by
  unfold extractDispatch at h
  split at h
  · injection h with h
    subst h
    exact Nat.le_add_right _ _
  split at h
  · split at h
    · injection h with h
      subst h
      simp only [ExtractState.record]
      omega
    · simp at h
    · simp at h
  split at h
  · split at h
    · injection h with h
      subst h
      simp only []
      omega
    · simp at h
  split at h
  · split at h
    · split at h <;> injection h with h <;> subst h
      · exact Nat.le_add_right _ _
      · exact Nat.le_refl _
    · simp at h
  split at h
  · injection h with h
    subst h
    exact Nat.le_refl _
  · exact extractBareRun_cursor img _ s t h

theorem extractDispatch_budget (img : Image) (headerRecord : Nat) (s : ExtractState) :
    extractDispatch img headerRecord s ≠ .error .outOfFuel := by
  intro h
  unfold extractDispatch at h
  split at h
  · cases h
  split at h
  · split at h
    · cases h
    · injection h with h
      subst h
      exact absurd (flashByte_error img _ _ (by assumption)) (by decide)
    · injection h with h
      subst h
      exact absurd (flashByte_error img _ _ (by assumption)) (by decide)
  split at h
  · split at h
    · cases h
    · injection h with h
      subst h
      exact absurd (flashByte_error img _ _ (by assumption)) (by decide)
  split at h
  · split at h
    · split at h <;> cases h
    · injection h with h
      subst h
      exact absurd (flashByte_error img _ _ (by assumption)) (by decide)
  split at h
  · cases h
  · exact extractBareRun_budget img _ s
      (by unfold MAX_FLASH_MEMORY; omega) h

theorem extractLoop_budget (img : Image) :
    ∀ (fuel : Nat) (s : ExtractState), MAX_FLASH_MEMORY - 1 - s.currentImageIndex < fuel →
      extractLoop img fuel s ≠ .error .outOfFuel := by
  intro fuel
  induction fuel with
  | zero => intro s h; omega
  | succ n ih =>
    intro s hfuel h
    simp only [extractLoop] at h
    split at h
    · rename_i hcond
      split at h
      · split at h
        · rename_i s1 hd
          have hc := extractDispatch_cursor img _ _ s1 hd
          simp only [] at hc
          exact ih s1 (by omega) h
        · rename_i e hd
          injection h with h
          subst h
          exact extractDispatch_budget img _ _ hd
      · injection h with h
        subst h
        exact absurd (flashByte_error img _ _ (by assumption)) (by decide)
    · cases h

theorem extractLoop_final (img : Image) :
    ∀ (fuel : Nat) (s t : ExtractState), extractLoop img fuel s = .ok t →
      t.endOfValidData = true ∨ MAX_FLASH_MEMORY - 1 ≤ t.currentImageIndex := by
  intro fuel
  induction fuel with
  | zero => intro s t h; simp [extractLoop] at h
  | succ n ih =>
    intro s t h
    simp only [extractLoop] at h
    split at h
    · split at h
      · split at h
        · exact ih _ t h
        · cases h
      · cases h
    · rename_i hcond
      injection h with h
      subst h
      by_cases hend : s.endOfValidData = true
      · exact Or.inl hend
      · right
        have hf : s.endOfValidData = false := by
          cases hb : s.endOfValidData
          · rfl
          · exact absurd hb hend
        by_contra hlt
        exact hcond ⟨by omega, hf⟩

theorem extractHeaderIndices_bound (img : Image) :
    ∀ (fuel : Nat) (s : ExtractState),
      ∀ p ∈ extractHeaderIndices img fuel s,
        s.currentImageIndex ≤ p ∧ p < MAX_FLASH_MEMORY - 1 := by
  intro fuel
  induction fuel with
  | zero => intro s p hp; simp [extractHeaderIndices] at hp
  | succ n ih =>
    intro s p hp
    simp only [extractHeaderIndices] at hp
    split at hp
    · rename_i hcond
      split at hp
      · split at hp
        · rename_i s1 hd
          rcases List.mem_cons.1 hp with hp | hp
          · subst hp
            exact ⟨Nat.le_refl _, hcond.1⟩
          · have hc := extractDispatch_cursor img _ _ s1 hd
            simp only [] at hc
            obtain ⟨h1, h2⟩ := ih s1 p hp
            exact ⟨by omega, h2⟩
        · rw [List.mem_singleton] at hp
          subst hp
          exact ⟨Nat.le_refl _, hcond.1⟩
      · simp at hp
    · simp at hp

theorem extractHeaderIndices_increasing (img : Image) :
    ∀ (fuel : Nat) (s : ExtractState),
      (extractHeaderIndices img fuel s).Pairwise (fun p q => p < q) := by
  intro fuel
  induction fuel with
  | zero => intro s; simp [extractHeaderIndices]
  | succ n ih =>
    intro s
    simp only [extractHeaderIndices]
    split
    · split
      · split
        · rename_i s1 hd
          have hc := extractDispatch_cursor img _ _ s1 hd
          simp only [] at hc
          refine List.Pairwise.cons ?_ (ih s1)
          intro q hq
          have := (extractHeaderIndices_bound img n s1 q hq).1
          omega
        · exact List.pairwise_singleton _ _
      · exact List.Pairwise.nil
    · exact List.Pairwise.nil

theorem formatTimestamp_error (theDay theMonth theYear theHour theMinute theSecond : Nat)
    (e : Fault)
    (h : formatTimestamp theDay theMonth theYear theHour theMinute theSecond = .error e) :
    e = .outOfBounds := by
  unfold formatTimestamp at h
  split at h
  · cases h
  · injection h with h
    exact h.symm

theorem exportBareRun_cursor (img : Image) :
    ∀ (fuel : Nat) (s t : ExportState), exportBareRun img fuel s = .ok t →
      s.currentImageIndex ≤ t.currentImageIndex := by
  intro fuel
  induction fuel with
  | zero => intro s t h; simp [exportBareRun] at h
  | succ n ih =>
    intro s t h
    simp only [exportBareRun] at h
    split at h
    · split at h
      · split at h
        · injection h with h
          subst h
          exact Nat.le_add_right _ _
        · split at h
          · injection h with h
            subst h
            exact Nat.le_add_right _ _
          · split at h
            · have := ih _ t h
              simp only [ExportState.tick_clock] at this
              obtain ⟨_, _, _, _, hidx, _, _, _, _, _, _⟩ := s.tick_fields
              simp only [hidx] at this
              omega
            · cases h
      · cases h
      · cases h
    · injection h with h
      subst h
      exact Nat.le_refl _

theorem exportBareRun_budget (img : Image) :
    ∀ (fuel : Nat) (s : ExportState), MAX_FLASH_MEMORY - 1 - s.currentImageIndex < fuel →
      exportBareRun img fuel s ≠ .error .outOfFuel := by
  intro fuel
  induction fuel with
  | zero => intro s h; omega
  | succ n ih =>
    intro s hfuel h
    simp only [exportBareRun] at h
    split at h
    · rename_i hlt
      split at h
      · split at h
        · cases h
        · split at h
          · cases h
          · split at h
            · refine ih _ ?_ h
              simp only [ExportState.tick_clock]
              obtain ⟨_, _, _, _, hidx, _, _, _, _, _, _⟩ := s.tick_fields
              simp only [hidx]
              omega
            · injection h with h
              subst h
              exact absurd (formatTimestamp_error _ _ _ _ _ _ _ (by assumption)) (by decide)
      · injection h with h
        subst h
        exact absurd (flashByte_error img _ _ (by assumption)) (by decide)
      · injection h with h
        subst h
        exact absurd (flashByte_error img _ _ (by assumption)) (by decide)
    · cases h

theorem exportLabelLoop_cursor (img : Image) :
    ∀ (n k : Nat) (s t : ExportState), exportLabelLoop img n k s = .ok t →
      s.currentImageIndex ≤ t.currentImageIndex := by
  intro n
  induction n with
  | zero =>
    intro k s t h
    simp only [exportLabelLoop] at h
    injection h with h
    subst h
    exact Nat.le_refl _
  | succ n ih =>
    intro k s t h
    simp only [exportLabelLoop] at h
    split at h
    · have := ih _ _ _ h
      split at this <;> simp only [ExportState.storeLabel] at this <;> omega
    · cases h

theorem exportLabelLoop_error (img : Image) :
    ∀ (n k : Nat) (s : ExportState) (e : Fault), exportLabelLoop img n k s = .error e →
      e = .outOfBounds := by
  intro n
  induction n with
  | zero =>
    intro k s e h
    simp only [exportLabelLoop] at h
    cases h
  | succ n ih =>
    intro k s e h
    simp only [exportLabelLoop] at h
    split at h
    · exact ih _ _ _ h
    · injection h with h
      subst h
      exact flashByte_error img _ _ (by assumption)

theorem exportDispatch_cursor (img : Image) (headerRecord : Nat) (s t : ExportState)
    (h : exportDispatch img headerRecord s = .ok t) :
    s.currentImageIndex ≤ t.currentImageIndex := by
  unfold exportDispatch at h
  simp only [] at h
  split at h
  · split at h
    · split at h <;> injection h with h <;> subst h
      · exact Nat.le_add_right _ _
      · exact Nat.le_refl _
    · cases h
  split at h
  · split at h
    · split at h
      · injection h with h
        subst h
        exact Nat.le_add_right _ _
      · cases h
    · cases h
  split at h
  · split at h
    · injection h with h
      subst h
      exact Nat.le_add_right _ _
    · cases h
  split at h
  · split at h
    · split at h
      · rename_i s1 hloop
        injection h with h
        subst h
        have := exportLabelLoop_cursor img _ _ _ _ hloop
        simp only [ExportState.storeLabel] at this ⊢
        omega
      · cases h
    · cases h
  split at h
  · injection h with h
    subst h
    exact Nat.le_refl _
  · exact exportBareRun_cursor img _ s t h

theorem exportDispatch_budget (img : Image) (headerRecord : Nat) (s : ExportState) :
    exportDispatch img headerRecord s ≠ .error .outOfFuel := by
  intro h
  unfold exportDispatch at h
  simp only [] at h
  split at h
  · split at h
    · split at h <;> cases h
    · injection h with h
      subst h
      exact absurd (flashByte_error img _ _ (by assumption)) (by decide)
  split at h
  · split at h
    · split at h
      · cases h
      · injection h with h
        subst h
        exact absurd (formatTimestamp_error _ _ _ _ _ _ _ (by assumption)) (by decide)
    · cases h
  split at h
  · split at h
    · cases h
    · cases h
  split at h
  · split at h
    · split at h
      · cases h
      · injection h with h
        subst h
        exact absurd (exportLabelLoop_error img _ _ _ _ (by assumption)) (by decide)
    · injection h with h
      subst h
      exact absurd (flashByte_error img _ _ (by assumption)) (by decide)
  split at h
  · cases h
  · exact exportBareRun_budget img _ s (by unfold MAX_FLASH_MEMORY; omega) h

theorem exportLoop_budget (img : Image) :
    ∀ (fuel : Nat) (s : ExportState), MAX_FLASH_MEMORY - 1 - s.currentImageIndex < fuel →
      exportLoop img fuel s ≠ .error .outOfFuel := by
  intro fuel
  induction fuel with
  | zero => intro s h; omega
  | succ n ih =>
    intro s hfuel h
    simp only [exportLoop] at h
    split at h
    · rename_i hcond
      split at h
      · split at h
        · rename_i s1 hd
          have hc := exportDispatch_cursor img _ _ s1 hd
          simp only [] at hc
          exact ih s1 (by omega) h
        · rename_i e hd
          injection h with h
          subst h
          exact exportDispatch_budget img _ _ hd
      · injection h with h
        subst h
        exact absurd (flashByte_error img _ _ (by assumption)) (by decide)
    · cases h

theorem exportLoop_final (img : Image) :
    ∀ (fuel : Nat) (s t : ExportState), exportLoop img fuel s = .ok t →
      t.endOfValidData = true ∨ MAX_FLASH_MEMORY - 1 ≤ t.currentImageIndex := by
  intro fuel
  induction fuel with
  | zero => intro s t h; simp [exportLoop] at h
  | succ n ih =>
    intro s t h
    simp only [exportLoop] at h
    split at h
    · split at h
      · split at h
        · exact ih _ t h
        · cases h
      · cases h
    · rename_i hcond
      injection h with h
      subst h
      by_cases hend : s.endOfValidData = true
      · exact Or.inl hend
      · right
        have hf : s.endOfValidData = false := by
          cases hb : s.endOfValidData
          · rfl
          · exact absurd hb hend
        by_contra hlt
        exact hcond ⟨by omega, hf⟩

theorem exportHeaderIndices_bound (img : Image) :
    ∀ (fuel : Nat) (s : ExportState),
      ∀ p ∈ exportHeaderIndices img fuel s,
        s.currentImageIndex ≤ p ∧ p < MAX_FLASH_MEMORY - 1 := by
  intro fuel
  induction fuel with
  | zero => intro s p hp; simp [exportHeaderIndices] at hp
  | succ n ih =>
    intro s p hp
    simp only [exportHeaderIndices] at hp
    split at hp
    · rename_i hcond
      split at hp
      · split at hp
        · rename_i s1 hd
          rcases List.mem_cons.1 hp with hp | hp
          · subst hp
            exact ⟨Nat.le_refl _, hcond.1⟩
          · have hc := exportDispatch_cursor img _ _ s1 hd
            simp only [] at hc
            obtain ⟨h1, h2⟩ := ih s1 p hp
            exact ⟨by omega, h2⟩
        · rw [List.mem_singleton] at hp
          subst hp
          exact ⟨Nat.le_refl _, hcond.1⟩
      · simp at hp
    · simp at hp

theorem exportHeaderIndices_increasing (img : Image) :
    ∀ (fuel : Nat) (s : ExportState),
      (exportHeaderIndices img fuel s).Pairwise (fun p q => p < q) := by
  intro fuel
  induction fuel with
  | zero => intro s; simp [exportHeaderIndices]
  | succ n ih =>
    intro s
    simp only [exportHeaderIndices]
    split
    · split
      · split
        · rename_i s1 hd
          have hc := exportDispatch_cursor img _ _ s1 hd
          simp only [] at hc
          refine List.Pairwise.cons ?_ (ih s1)
          intro q hq
          have := (exportHeaderIndices_bound img n s1 q hq).1
          omega
        · exact List.pairwise_singleton _ _
      · exact List.Pairwise.nil
    · exact List.Pairwise.nil

/-! ## Lemmas on `stristr` -/

theorem cstrByte_ok (str : List Nat) (p : Nat) (h : p ≤ str.length) :
    cstrByte str p = .ok (str.getD p 0) := by
  unfold cstrByte
  by_cases hlt : p < str.length
  · rw [if_pos hlt]
  · have hp : p = str.length := by omega
    rw [if_neg hlt, if_pos hp, List.getD_eq_default _ _ (by omega)]

theorem cstr_getD_eq_zero (str : List Nat) (hstr : ∀ c ∈ str, 0 < c) (p : Nat) :
    str.getD p 0 = 0 ↔ str.length ≤ p := by
  constructor
  · intro h
    by_contra hlt
    have hp : p < str.length := by omega
    rw [List.getD_eq_getElem _ _ hp] at h
    have := hstr _ (List.getElem_mem hp)
    omega
  · intro h
    exact List.getD_eq_default _ _ h

theorem tolower_eq_zero (c : Nat) : tolower c = 0 ↔ c = 0 := by
  unfold tolower
  split <;> omega

theorem stristr_measure (n st st' X y : Nat) (h1 : st < st') (h2 : st < n) (hy : y < X) :
    (n - st') * X + y + 1 ≤ (n - st) * X := by
  have e : n - st = (n - st - 1) + 1 := by omega
  have h3 : n - st' ≤ n - st - 1 := by omega
  have h4 : (n - st') * X ≤ (n - st - 1) * X := Nat.mul_le_mul_right X h3
  have h5 : (n - st) * X = (n - st - 1) * X + X := by
    conv_lhs => rw [e]
    rw [Nat.add_mul, Nat.one_mul]
  omega

theorem stristr_exit (str1 str2 : List Nat) (p1 p2 : Nat) (r : Option Nat)
    (hm : 1 ≤ str2.length) (hinv : stristrInv str1 str2 p1 p2 r)
    (hexit : p1 = str1.length ∨ p2 = str2.length) : stristrPost str1 str2 p2 r := by
  obtain ⟨hp1, hp2, hno, hr⟩ := hinv
  by_cases hfull : p2 = str2.length
  · left
    refine ⟨hfull, ?_⟩
    cases r with
    | none =>
      simp only [] at hr
      omega
    | some q =>
      obtain ⟨hq, _, hmatch⟩ := hr
      refine ⟨q, rfl, ⟨by omega, fun j hj => hmatch j (by omega)⟩, ?_⟩
      intro k hk
      exact hno k hk
  · right
    have hp1n : p1 = str1.length := by
      rcases hexit with h | h
      · exact h
      · exact absurd h hfull
    refine ⟨by omega, ?_⟩
    intro k hocc
    have hlen := hocc.1
    cases r with
    | none =>
      simp only [] at hr
      by_cases hk : k < p1
      · exact hno k hk hocc
      · omega
    | some q =>
      obtain ⟨hq, _, _⟩ := hr
      by_cases hk : k < q
      · exact hno k hk hocc
      · omega

theorem stristrInv_match (str1 str2 : List Nat) (p1 p2 : Nat) (r : Option Nat)
    (hinv : stristrInv str1 str2 p1 p2 r) (h1 : p1 < str1.length) (h2 : p2 < str2.length)
    (hmatch : tolower (str1.getD p1 0) = tolower (str2.getD p2 0)) :
    stristrInv str1 str2 (p1 + 1) (p2 + 1) (if r = none then some p1 else r) ∧
    (if r = none then some p1 else r).getD (p1 + 1) = r.getD p1 := by
  obtain ⟨hp1, hp2, hno, hr⟩ := hinv
  cases r with
  | none =>
    simp only [] at hr
    subst hr
    refine ⟨⟨by omega, by omega, ?_, ?_⟩, rfl⟩
    · exact hno
    · refine ⟨rfl, by omega, ?_⟩
      intro j hj
      have : j = 0 := by omega
      subst this
      exact hmatch
  | some q =>
    obtain ⟨hq, hpos, hm⟩ := hr
    refine ⟨⟨by omega, by omega, ?_, ?_⟩, rfl⟩
    · exact hno
    · refine ⟨by omega, by omega, ?_⟩
      intro j hj
      by_cases hj2 : j < p2
      · exact hm j hj2
      · have : j = p2 := by omega
        subst this
        rw [hq]
        exact hmatch

theorem stristrInv_mismatch_none (str1 str2 : List Nat) (p1 p2 : Nat)
    (hm : 1 ≤ str2.length) (hinv : stristrInv str1 str2 p1 p2 none) (h1 : p1 < str1.length)
    (hmis : ¬ tolower (str1.getD p1 0) = tolower (str2.getD p2 0)) :
    p2 = 0 ∧ stristrInv str1 str2 (p1 + 1) 0 none := by
  obtain ⟨hp1, hp2, hno, hr⟩ := hinv
  simp only [] at hr
  subst hr
  refine ⟨rfl, by omega, by omega, ?_, rfl⟩
  intro k hk hocc
  by_cases hk2 : k < p1
  · exact hno k hk2 hocc
  · have hkp : k = p1 := by
      have : k < p1 + 1 := hk
      omega
    subst hkp
    exact hmis (hocc.2 0 (by omega))

theorem stristrInv_mismatch_some (str1 str2 : List Nat) (p1 p2 q : Nat)
    (hm : 1 ≤ str2.length) (hinv : stristrInv str1 str2 p1 p2 (some q))
    (h1 : p1 < str1.length) (h2 : p2 < str2.length)
    (hmis : ¬ tolower (str1.getD p1 0) = tolower (str2.getD p2 0)) :
    q + 1 < str1.length + 1 ∧ q < str1.length ∧
    (tolower (str1.getD (q + 1) 0) = tolower (str2.getD 0 0) →
      q + 1 < str1.length ∧ stristrInv str1 str2 (q + 1 + 1) (0 + 1) (some (q + 1))) ∧
    (¬ tolower (str1.getD (q + 1) 0) = tolower (str2.getD 0 0) →
      stristrInv str1 str2 (q + 1 + 1) 0 none) := by
  obtain ⟨hp1, hp2, hno, hq, hpos, hmatch⟩ := hinv
  have hnoq : ∀ k, k < q + 1 → ¬ occursAt str1 str2 k := by
    intro k hk hocc
    by_cases hk2 : k < q
    · exact hno k hk2 hocc
    · have hkq : k = q := by omega
      subst hkq
      have := hocc.2 p2 h2
      rw [hq] at this
      exact hmis this
  refine ⟨by omega, by omega, ?_, ?_⟩
  · intro hd
    refine ⟨by omega, by omega, by omega, hnoq, rfl, by omega, ?_⟩
    intro j hj
    have : j = 0 := by omega
    subst this
    exact hd
  · intro hd
    refine ⟨by omega, by omega, ?_, rfl⟩
    intro k hk hocc
    by_cases hk2 : k < q + 1
    · exact hnoq k hk2 hocc
    · have hkq : k = q + 1 := by
        have : k < q + 1 + 1 := hk
        omega
      subst hkq
      exact hd (hocc.2 0 (by omega))

/-- The loop of `stristr` run from a state that satisfies the invariant stays within its
budget and is left in a state that satisfies the postcondition. -/
theorem stristrLoop_spec (str1 str2 : List Nat) (hstr1 : ∀ c ∈ str1, 0 < c)
    (hstr2 : ∀ c ∈ str2, 0 < c) (hm : 1 ≤ str2.length) :
    ∀ (fuel p1 p2 : Nat) (r : Option Nat), stristrInv str1 str2 p1 p2 r →
      (str1.length - r.getD p1) * (str2.length + 1) + (str2.length - p2) < fuel →
      ∃ p2' r', stristrLoop str1 str2 fuel p1 p2 r = .ok (p2', r') ∧ p2' ≤ str2.length ∧
        stristrPost str1 str2 p2' r' := by
  intro fuel
  induction fuel with
  | zero => intro p1 p2 r _ h; omega
  | succ fuel ih =>
    intro p1 p2 r hinv hfuel
    have hp1 := hinv.1
    have hp2 := hinv.2.1
    have hc1 := cstrByte_ok str1 p1 hp1
    have hc2 := cstrByte_ok str2 p2 hp2
    simp only [stristrLoop, hc1, hc2]
    by_cases h1z : str1.getD p1 0 = 0
    · rw [if_pos h1z]
      have hlen := (cstr_getD_eq_zero str1 hstr1 p1).1 h1z
      exact ⟨p2, r, rfl, hp2, stristr_exit str1 str2 p1 p2 r hm hinv (Or.inl (by omega))⟩
    · rw [if_neg h1z]
      have hp1lt : p1 < str1.length := by
        by_contra hge
        exact h1z ((cstr_getD_eq_zero str1 hstr1 p1).2 (by omega))
      by_cases h2z : str2.getD p2 0 = 0
      · rw [if_pos h2z]
        have hlen := (cstr_getD_eq_zero str2 hstr2 p2).1 h2z
        exact ⟨p2, r, rfl, hp2, stristr_exit str1 str2 p1 p2 r hm hinv (Or.inr (by omega))⟩
      · rw [if_neg h2z]
        have hp2lt : p2 < str2.length := by
          by_contra hge
          exact h2z ((cstr_getD_eq_zero str2 hstr2 p2).2 (by omega))
        by_cases hmatch : tolower (str1.getD p1 0) = tolower (str2.getD p2 0)
        · rw [if_pos hmatch]
          obtain ⟨hinv', hst⟩ := stristrInv_match str1 str2 p1 p2 r hinv hp1lt hp2lt hmatch
          apply ih _ _ _ hinv'
          rw [hst]
          omega
        · rw [if_neg hmatch]
          cases r with
          | none =>
            obtain ⟨hp20, hinv'⟩ := stristrInv_mismatch_none str1 str2 p1 p2 hm hinv hp1lt
              hmatch
            subst hp20
            have hd1 := cstrByte_ok str1 p1 hp1
            simp only [hd1, hc2, hmatch, if_false]
            apply ih _ _ _ hinv'
            have hμ := stristr_measure str1.length p1 (p1 + 1) (str2.length + 1) str2.length
              (by omega) hp1lt (by omega)
            simp only [Option.getD_none] at hfuel ⊢
            omega
          | some q =>
            obtain ⟨_, hqlt, hyes, hno⟩ := stristrInv_mismatch_some str1 str2 p1 p2 q hm hinv
              hp1lt hp2lt hmatch
            have hd1 := cstrByte_ok str1 (q + 1) (by omega)
            have hd2 := cstrByte_ok str2 0 (by omega)
            simp only [hd1, hd2]
            by_cases hd : tolower (str1.getD (q + 1) 0) = tolower (str2.getD 0 0)
            · rw [if_pos hd]
              obtain ⟨_, hinv'⟩ := hyes hd
              apply ih _ _ _ hinv'
              have hμ := stristr_measure str1.length q (q + 1) (str2.length + 1)
                (str2.length - 1) (by omega) hqlt (by omega)
              simp only [Option.getD_some] at hfuel ⊢
              omega
            · rw [if_neg hd]
              have hinv' := hno hd
              apply ih _ _ _ hinv'
              have hμ := stristr_measure str1.length q (q + 1 + 1) (str2.length + 1)
                str2.length (by omega) hqlt (by omega)
              simp only [Option.getD_some, Option.getD_none] at hfuel ⊢
              omega

/-- The result of `stristr`: it stays within its budget and reads no cell outside the two
strings; it returns the leftmost occurrence, or NULL when there is none. -/
theorem stristr_spec (str1 str2 : List Nat) (hstr1 : ∀ c ∈ str1, 0 < c)
    (hstr2 : ∀ c ∈ str2, 0 < c) :
    (∃ q, stristr str1 str2 = .ok (some q) ∧ occursAt str1 str2 q ∧
      ∀ k, k < q → ¬ occursAt str1 str2 k) ∨
    (stristr str1 str2 = .ok none ∧ ∀ k, ¬ occursAt str1 str2 k) := by
  by_cases hm : 1 ≤ str2.length
  · have hb0 : str2.getD 0 0 ≠ 0 := fun h =>
      absurd ((cstr_getD_eq_zero str2 hstr2 0).1 h) (by omega)
    have hstart : stristrInv str1 str2 0 0 none :=
      ⟨Nat.zero_le _, Nat.zero_le _, fun k hk => by simp at hk, rfl⟩
    obtain ⟨p2, r, hloop, hp2, hpost⟩ := stristrLoop_spec str1 str2 hstr1 hstr2 hm
      ((str1.length + 1) * (str2.length + 1)) 0 0 none hstart
      (by
        simp only [Option.getD_none, Nat.sub_zero]
        rw [Nat.add_mul, Nat.one_mul]
        omega)
    have hres : stristr str1 str2 = .ok (if str2.getD p2 0 = 0 then r else none) := by
      unfold stristr
      simp only [cstrByte_ok str2 0 (Nat.zero_le _), hb0, if_false, hloop,
        cstrByte_ok str2 p2 hp2]
    rcases hpost with ⟨hfull, q, hq, hocc, hleft⟩ | ⟨hlt, hnone⟩
    · left
      have hz : str2.getD p2 0 = 0 := (cstr_getD_eq_zero str2 hstr2 p2).2 (by omega)
      rw [hres, if_pos hz, hq]
      exact ⟨q, rfl, hocc, hleft⟩
    · right
      have hz : ¬ str2.getD p2 0 = 0 := fun h =>
        absurd ((cstr_getD_eq_zero str2 hstr2 p2).1 h) (by omega)
      rw [hres, if_neg hz]
      exact ⟨rfl, hnone⟩
  · left
    have hnil : str2 = [] := List.length_eq_zero.1 (by omega)
    subst hnil
    refine ⟨0, ?_, ⟨by simp, fun j hj => by simp at hj⟩, fun k hk => by omega⟩
    have hfuel : (str1.length + 1) * (([] : List Nat).length + 1) = str1.length + 1 := by simp
    unfold stristr
    rw [hfuel]
    have hc0 : cstrByte ([] : List Nat) 0 = .ok 0 := rfl
    have hc1 := cstrByte_ok str1 0 (Nat.zero_le _)
    simp only [hc0, if_true, stristrLoop, hc1, ite_self]

/-! ## Lemmas on whole bare runs -/

theorem flashByte_inside (img : Image) (i : Nat) (h : i < MAX_FLASH_MEMORY) :
    flashByte img i = .ok (img.getD i 0 % 256) := by
  unfold flashByte
  rw [if_pos h]

theorem bareRunAt_succ (img : Image) (i n : Nat) (h : bareRunAt img i (n + 1)) :
    bareRunAt img (i + 1) n := by
  obtain ⟨h1, h2, h3⟩ := h
  refine ⟨by omega, fun j hj => ?_, fun hlt => ?_⟩
  · have := h2 (j + 1) (by omega)
    have e : i + (j + 1) = i + 1 + j := by omega
    rwa [e] at this
  · have e : i + (n + 1) = i + 1 + n := by omega
    rw [e] at h3
    exact h3 hlt

theorem bareRunEnd_succ (i n : Nat) : bareRunEnd (i + 1) n = bareRunEnd i (n + 1) := by
  unfold bareRunEnd
  have e : i + 1 + n = i + (n + 1) := by omega
  rw [e]

theorem ExportState.sameClock_tick (a b : ExportState) (h : a.sameClock b) :
    a.tick.sameClock b.tick := by
  obtain ⟨h1, h2, h3, h4, h5, h6⟩ := h
  unfold ExportState.sameClock ExportState.tick
  simp only [h1, h2, h3, h4, h5, h6]
  split
  · split <;> simp
  · simp

theorem ExportState.sameClock_iterate (n : Nat) :
    ∀ (a b : ExportState), a.sameClock b →
      (Nat.iterate ExportState.tick n a).sameClock (Nat.iterate ExportState.tick n b) := by
  induction n with
  | zero => intro a b h; exact h
  | succ n ih =>
    intro a b h
    rw [Function.iterate_succ_apply, Function.iterate_succ_apply]
    exact ih _ _ (ExportState.sameClock_tick a b h)

theorem ExportState.sameClock_text (a b : ExportState) (h : a.sameClock b) :
    a.timestampText = b.timestampText := by
  obtain ⟨h1, h2, h3, h4, h5, h6⟩ := h
  unfold ExportState.timestampText
  rw [h1, h2, h3, h4, h5, h6]

theorem ExportState.tick_iterate_fields (n : Nat) :
    ∀ s : ExportState,
      (Nat.iterate ExportState.tick n s).theYear = s.theYear ∧
      (Nat.iterate ExportState.tick n s).theMonth = s.theMonth ∧
      (Nat.iterate ExportState.tick n s).theSecond = s.theSecond ∧
      (Nat.iterate ExportState.tick n s).theRecordRate = s.theRecordRate := by
  induction n with
  | zero => intro s; exact ⟨rfl, rfl, rfl, rfl⟩
  | succ n ih =>
    intro s
    rw [Function.iterate_succ_apply]
    obtain ⟨a, b, c, d⟩ := ih s.tick
    obtain ⟨hm, hy, hsec, hrate, _⟩ := s.tick_fields
    exact ⟨a.trans hy, b.trans hm, c.trans hsec, d.trans hrate⟩

/-- A bare-run loop of `ExportCSVFile` standing where the run ends returns at once. -/
theorem exportBareRun_stop (img : Image) (fuel : Nat) (s : ExportState)
    (h : bareRunAt img s.currentImageIndex 0) :
    exportBareRun img (fuel + 1) s =
      .ok { s with currentImageIndex := bareRunEnd s.currentImageIndex 0 } := by
  obtain ⟨_, _, h3⟩ := h
  simp only [Nat.add_zero] at h3
  rw [exportBareRun]
  simp only [bareRunEnd, Nat.add_zero]
  by_cases hlt : s.currentImageIndex < MAX_FLASH_MEMORY - 1
  · have h1 := flashByte_inside img s.currentImageIndex
      (by unfold MAX_FLASH_MEMORY at hlt ⊢; omega)
    have h2 := flashByte_inside img (s.currentImageIndex + 1)
      (by unfold MAX_FLASH_MEMORY at hlt ⊢; omega)
    rw [if_pos hlt, if_pos hlt]
    simp only [h1, h2]
    rcases h3 hlt with hm | he
    · rw [if_pos hm]
    · by_cases hm : img.getD s.currentImageIndex 0 % 256 = RawDataTerm1 ∧
          img.getD (s.currentImageIndex + 1) 0 % 256 = RawDataTerm2
      · rw [if_pos hm]
      · rw [if_neg hm, if_pos he]
  · rw [if_neg hlt, if_neg hlt]

/-- The result of the bare-run loop of `ExportCSVFile` on a run of `n` samples, field by
field: one formatted record per sample, the ones with a count above 0 written, the clock
ticked `n` times. -/
theorem exportBareRun_run (img : Image) :
    ∀ (n : Nat) (s : ExportState) (fuel : Nat), n < fuel →
      bareRunAt img s.currentImageIndex n → (n = 0 ∨ s.theMonth < 12) →
      ∃ (f : ExportState) (recs : List OutputRecord), exportBareRun img fuel s = .ok f ∧
        f.currentImageIndex = bareRunEnd s.currentImageIndex n ∧
        f.sameClock (Nat.iterate ExportState.tick n s) ∧
        f.theRecordRate = s.theRecordRate ∧
        f.currentTimestamp =
          (if n = 0 then s.currentTimestamp
            else (Nat.iterate ExportState.tick n s).timestampText) ∧
        f.endOfValidData = s.endOfValidData ∧
        f.foundLocationString = s.foundLocationString ∧
        f.labelStores = s.labelStores ∧
        f.formatted = s.formatted ++ recs ∧
        f.written = s.written ++ recs.filter (fun r => decide (r.count > 0)) ∧
        recs.map (fun r => r.count) = imageBytes img s.currentImageIndex n ∧
        recs.map (fun r => r.timestamp) =
          (List.range n).map (fun j =>
            if j = 0 then s.currentTimestamp
            else (Nat.iterate ExportState.tick j s).timestampText) := by
  intro n
  induction n with
  | zero =>
    intro s fuel hfuel hrun _
    obtain ⟨f, rfl⟩ : ∃ f, fuel = f + 1 := ⟨fuel - 1, by omega⟩
    refine ⟨_, [], exportBareRun_stop img f s hrun, rfl, ⟨rfl, rfl, rfl, rfl, rfl, rfl⟩, rfl,
      rfl, rfl, rfl, rfl, ?_, ?_, rfl, rfl⟩
    · simp
    · simp
  | succ n ih =>
    intro s fuel hfuel hrun hmonth
    obtain ⟨f, rfl⟩ : ∃ f, fuel = f + 1 := ⟨fuel - 1, by omega⟩
    have hm : s.theMonth < 12 := by
      rcases hmonth with h | h
      · omega
      · exact h
    have hrun' := bareRunAt_succ img _ n hrun
    obtain ⟨hin, hsamples, _⟩ := hrun
    have hlt : s.currentImageIndex < MAX_FLASH_MEMORY - 1 := by omega
    have h1 := flashByte_inside img s.currentImageIndex
      (by unfold MAX_FLASH_MEMORY at hlt ⊢; omega)
    have h2 := flashByte_inside img (s.currentImageIndex + 1)
      (by unfold MAX_FLASH_MEMORY at hlt ⊢; omega)
    have h0 := hsamples 0 (by omega)
    simp only [Nat.add_zero] at h0
    obtain ⟨t, ht, hstep⟩ := exportBareRun_sample img f s _ _ hlt h1 h2
      (fun h => h0 (Or.inl h)) (fun h => h0 (Or.inr h)) hm
    obtain ⟨tm, ty, tsec, trate, _, tend, tfound, tlabel, _⟩ := s.tick_fields
    have htext : s.tick.timestampText = t := by
      unfold ExportState.timestampText
      rw [tm, ty, tsec, ht]
    obtain ⟨s1, hs1, hstep1⟩ : ∃ s1 : ExportState,
        s1 = { s.tick with
          currentTimestamp := t
          currentImageIndex := s.currentImageIndex + 1
          formatted := s.formatted ++
            [{ timestamp := s.currentTimestamp, count := img.getD s.currentImageIndex 0 % 256 }]
          written :=
            if img.getD s.currentImageIndex 0 % 256 > 0 then
              s.written ++
                [{ timestamp := s.currentTimestamp
                   count := img.getD s.currentImageIndex 0 % 256 }]
            else s.written } ∧
        exportBareRun img (f + 1) s = exportBareRun img f s1 := ⟨_, rfl, hstep⟩
    have e1 : s1.currentImageIndex = s.currentImageIndex + 1 := by rw [hs1]
    have e2 : s1.sameClock s.tick := by rw [hs1]; exact ⟨rfl, rfl, rfl, rfl, rfl, rfl⟩
    have e3 : s1.theRecordRate = s.theRecordRate := by rw [hs1]; exact trate
    have e4 : s1.currentTimestamp = t := by rw [hs1]
    have e5 : s1.endOfValidData = s.endOfValidData := by rw [hs1]; exact tend
    have e6 : s1.foundLocationString = s.foundLocationString := by rw [hs1]; exact tfound
    have e7 : s1.labelStores = s.labelStores := by rw [hs1]; exact tlabel
    have e8 : s1.formatted = s.formatted ++
        [{ timestamp := s.currentTimestamp, count := img.getD s.currentImageIndex 0 % 256 }] := by
      rw [hs1]
    have e9 : s1.written =
        if img.getD s.currentImageIndex 0 % 256 > 0 then
          s.written ++
            [{ timestamp := s.currentTimestamp, count := img.getD s.currentImageIndex 0 % 256 }]
        else s.written := by
      rw [hs1]
    have hiter : ∀ j, (Nat.iterate ExportState.tick j s1).sameClock
        (Nat.iterate ExportState.tick (j + 1) s) := by
      intro j
      rw [Function.iterate_succ_apply]
      exact ExportState.sameClock_iterate j _ _ e2
    obtain ⟨g, recs, hg, gi, gclock, grate, gtext, gend, gfound, glabel, gfmt, gwr, gcount,
      gstamp⟩ := ih s1 f (by omega) (by rw [e1]; exact hrun')
        (Or.inr (by rw [e2.2.1, tm]; exact hm))
    refine ⟨g, { timestamp := s.currentTimestamp, count := img.getD s.currentImageIndex 0 % 256 }
      :: recs, hstep1.trans hg, ?_, ?_, ?_, ?_, ?_, ?_, ?_, ?_, ?_, ?_, ?_⟩
    · rw [gi, e1]
      exact bareRunEnd_succ _ _
    · obtain ⟨a1, a2, a3, a4, a5, a6⟩ := gclock
      obtain ⟨b1, b2, b3, b4, b5, b6⟩ := hiter n
      exact ⟨a1.trans b1, a2.trans b2, a3.trans b3, a4.trans b4, a5.trans b5, a6.trans b6⟩
    · rw [grate, e3]
    · rw [gtext, if_neg (Nat.succ_ne_zero n)]
      by_cases hn : n = 0
      · subst hn
        rw [if_pos rfl, e4]
        exact htext.symm
      · rw [if_neg hn]
        exact ExportState.sameClock_text _ _ (hiter n)
    · rw [gend, e5]
    · rw [gfound, e6]
    · rw [glabel, e7]
    · rw [gfmt, e8]
      simp
    · rw [gwr, e9]
      by_cases hc : img.getD s.currentImageIndex 0 % 256 > 0
      · rw [if_pos hc, List.filter_cons, if_pos (by simpa using hc), List.append_assoc]
        rfl
      · rw [if_neg hc, List.filter_cons, if_neg (by simpa using hc)]
    · simp only [List.map_cons, gcount, imageBytes, e1]
    · simp only [List.map_cons, gstamp, List.range_succ_eq_map, if_true]
      congr 1
      rw [List.map_map]
      apply List.map_congr_left
      intro j _
      simp only [Function.comp, Nat.succ_ne_zero, if_false]
      by_cases hj : j = 0
      · subst hj
        rw [if_pos rfl, e4]
        exact htext.symm
      · rw [if_neg hj]
        exact ExportState.sameClock_text _ _ (hiter j)

/-- A bare run of at least one sample with a month that is no index into `theMonths` ends at
the `sprintf_s` of its first sample, which reads past the table. -/
theorem exportBareRun_month (img : Image) (n : Nat) (s : ExportState) (fuel : Nat)
    (hrun : bareRunAt img s.currentImageIndex (n + 1)) (hm : 12 ≤ s.theMonth) :
    exportBareRun img (fuel + 1) s = .error .outOfBounds := by
  obtain ⟨hin, hsamples, _⟩ := hrun
  have hlt : s.currentImageIndex < MAX_FLASH_MEMORY - 1 := by omega
  have h1 := flashByte_inside img s.currentImageIndex
    (by unfold MAX_FLASH_MEMORY at hlt ⊢; omega)
  have h2 := flashByte_inside img (s.currentImageIndex + 1)
    (by unfold MAX_FLASH_MEMORY at hlt ⊢; omega)
  have h0 := hsamples 0 (by omega)
  simp only [Nat.add_zero] at h0
  obtain ⟨tm, ty, tsec, _⟩ := s.tick_fields
  have hf : formatTimestamp s.tick.theDay s.theMonth s.theYear s.tick.theHour s.tick.theMinute
      s.theSecond = .error .outOfBounds := by
    unfold formatTimestamp
    have : theMonths[s.theMonth]? = none := by
      apply List.getElem?_eq_none
      simpa [theMonths] using hm
    rw [this]
  have hmk : ¬ (img.getD s.currentImageIndex 0 % 256 = RawDataTerm1 ∧
      img.getD (s.currentImageIndex + 1) 0 % 256 = RawDataTerm2) := fun h => h0 (Or.inl h)
  have hek : ¬ (img.getD s.currentImageIndex 0 % 256 = RawDataHeaderEndOfData ∧
      img.getD (s.currentImageIndex + 1) 0 % 256 = RawDataHeaderEndOfData) :=
    fun h => h0 (Or.inr h)
  rw [exportBareRun]
  simp only [hlt, if_true, h1, h2, hmk, hek, if_false, ExportState.tick_clock, tm, ty, tsec, hf]

/-! ## Whole bare runs of the extraction -/

theorem tick_below_59 (t : ExportState) (h : t.theMinute < 59) :
    t.tick.theMinute = t.theMinute + 1 ∧ t.tick.theHour = t.theHour ∧
      t.tick.theDay = t.theDay := by
  unfold ExportState.tick
  have e : (t.theMinute + 1) % 256 = t.theMinute + 1 := Nat.mod_eq_of_lt (by omega)
  simp only [e]
  rw [if_neg (by omega)]
  exact ⟨rfl, rfl, rfl⟩

theorem tick_at_59 (t : ExportState) (h : t.theMinute = 59) (hh : t.theHour < 59) :
    t.tick.theMinute = 0 ∧ t.tick.theHour = t.theHour + 1 ∧ t.tick.theDay = t.theDay := by
  unfold ExportState.tick
  have e : (t.theMinute + 1) % 256 = 60 := by rw [h]
  have e2 : (t.theHour + 1) % 256 = t.theHour + 1 := Nat.mod_eq_of_lt (by omega)
  simp only [e, e2]
  rw [if_pos (by omega), if_neg (by omega)]
  exact ⟨rfl, rfl, rfl⟩

theorem tick_at_59_59 (t : ExportState) (h : t.theMinute = 59) (hh : t.theHour = 59)
    (hd : t.theDay < 255) :
    t.tick.theMinute = 0 ∧ t.tick.theHour = 0 ∧ t.tick.theDay = t.theDay + 1 := by
  unfold ExportState.tick
  have e : (t.theMinute + 1) % 256 = 60 := by rw [h]
  have e2 : (t.theHour + 1) % 256 = 60 := by rw [hh]
  have e3 : (t.theDay + 1) % 256 = t.theDay + 1 := Nat.mod_eq_of_lt (by omega)
  simp only [e, e2, e3]
  rw [if_pos (by omega), if_pos (by omega)]
  exact ⟨rfl, rfl, rfl⟩

/-- A bare run of `ExportCSVFile` that returns has a month that indexes the table, unless it
holds no sample. -/
theorem exportBareRun_ok_month (img : Image) (n : Nat) (s f : ExportState) (fuel : Nat)
    (hfuel : n < fuel) (hrun : bareRunAt img s.currentImageIndex n)
    (hok : exportBareRun img fuel s = .ok f) : n = 0 ∨ s.theMonth < 12 := by
  cases n with
  | zero => exact Or.inl rfl
  | succ n =>
    right
    by_contra hm
    obtain ⟨g, rfl⟩ : ∃ g, fuel = g + 1 := ⟨fuel - 1, by omega⟩
    rw [exportBareRun_month img n s g hrun (by omega)] at hok
    cases hok

theorem bareRunAt_cons (img : Image) (i n : Nat) (h : bareRunAt img (i + 1) n)
    (hs : ¬ endsBareRun (img.getD i 0 % 256) (img.getD (i + 1) 0 % 256)) :
    bareRunAt img i (n + 1) := by
  obtain ⟨h1, h2, h3⟩ := h
  refine ⟨by omega, fun j hj => ?_, fun hlt => ?_⟩
  · cases j with
    | zero => exact hs
    | succ j =>
      have := h2 j (by omega)
      have e : i + (j + 1) = i + 1 + j := by omega
      rwa [e]
  · have e : i + (n + 1) = i + 1 + n := by omega
    rw [e] at hlt ⊢
    exact h3 hlt

/-- Wherever a bare-run loop is entered, at or below the loop bound, the image holds a bare
run there, of some number of samples. -/
theorem bareRunAt_exists (img : Image) :
    ∀ (k i : Nat), i + k = MAX_FLASH_MEMORY - 1 → ∃ n, bareRunAt img i n := by
  intro k
  induction k with
  | zero =>
    intro i hi
    exact ⟨0, by omega, fun j hj => absurd hj (Nat.not_lt_zero j), fun h => by omega⟩
  | succ k ih =>
    intro i hi
    by_cases hs : endsBareRun (img.getD i 0 % 256) (img.getD (i + 1) 0 % 256)
    · exact ⟨0, by omega, fun j hj => absurd hj (Nat.not_lt_zero j), fun _ => hs⟩
    · obtain ⟨n, hn⟩ := ih (i + 1) (by omega)
      exact ⟨n + 1, bareRunAt_cons img i n hn hs⟩

/-- The shape of `markerAtEndImage`, with its pieces kept as a list `ps`. -/
theorem markerAtEndImage_shape :
    ∃ ps : List Piece,
      markerAtEndImage =
        [RawDataTerm1, RawDataTerm2] ++ piecesBytes ps ++ [RawDataTerm1, RawDataTerm2] ∧
      (piecesBytes ps).length = 65531 ∧ ps.length = 10921 ∧
      (∀ p ∈ ps, p.wellFormed) ∧ (∀ p ∈ ps, p.monthInTable) := by
  have hblock : ∀ p ∈ [Piece.timestamp 21 3 11 23 30 11 0x55 0xAA 2, Piece.marker],
      p.wellFormed ∧ p.monthInTable := by
    intro p hp
    simp only [List.mem_cons, List.mem_singleton, List.not_mem_nil, or_false] at hp
    rcases hp with hp | hp <;> subst hp <;> simp [Piece.wellFormed, Piece.monthInTable]
  have hbl : (piecesBytes [Piece.timestamp 21 3 11 23 30 11 0x55 0xAA 2, Piece.marker]).length
      = 12 := by
    simp [piecesBytes, Piece.bytes]
  have hloc : (piecesBytes [Piece.location [72, 111, 109, 101, 32, 76, 97, 98, 49]]).length
      = 11 := by
    simp [piecesBytes, Piece.bytes]
  refine ⟨repeatPieces [Piece.timestamp 21 3 11 23 30 11 0x55 0xAA 2, Piece.marker] 5460 ++
    [Piece.location [72, 111, 109, 101, 32, 76, 97, 98, 49]], rfl, ?_, ?_, ?_, ?_⟩
  · rw [piecesBytes_append, List.length_append, repeatPieces_bytes_length, hbl, hloc]
  · rw [List.length_append, repeatPieces_length]; rfl
  · intro p hp
    rcases List.mem_append.1 hp with hp | hp
    · exact (hblock p (repeatPieces_mem _ _ p hp)).1
    · rw [List.mem_singleton] at hp
      subst hp
      show (9 : Nat) ≤ 255
      decide
  · intro p hp
    rcases List.mem_append.1 hp with hp | hp
    · exact (hblock p (repeatPieces_mem _ _ p hp)).2
    · rw [List.mem_singleton] at hp
      subst hp
      trivial

/-- The iteration of the decode loop of `ExportCSVFile` that finds `0x55` at the last index
below the loop bound: the header byte is consumed, the byte after it is not, and the loop
stops. -/
theorem exportLoop_marker_at_bound (img : Image) (s : ExportState) (fuel : Nat)
    (hi : s.currentImageIndex = MAX_FLASH_MEMORY - 2) (hend : s.endOfValidData = false)
    (h0 : flashByte img (MAX_FLASH_MEMORY - 2) = .ok RawDataTerm1) :
    exportLoop img (fuel + 2) s = .ok { s with currentImageIndex := MAX_FLASH_MEMORY - 1 } ∧
    exportHeaderIndices img (fuel + 2) s = [MAX_FLASH_MEMORY - 2] := by
  have hlt : s.currentImageIndex < MAX_FLASH_MEMORY - 1 := by rw [hi]; decide
  have h1 : flashByte img (MAX_FLASH_MEMORY - 2 + 1) =
      .ok (img.getD (MAX_FLASH_MEMORY - 2 + 1) 0 % 256) := flashByte_inside img _ (by decide)
  have hd : exportDispatch img RawDataTerm1
      { s with currentImageIndex := s.currentImageIndex + 1 } =
      .ok { s with currentImageIndex := MAX_FLASH_MEMORY - 1 } := by
    unfold exportDispatch
    simp only [if_true, hi, h1]
    rw [if_neg (fun h => absurd h.2 (by decide))]
    rfl
  have hstop : ¬ ((MAX_FLASH_MEMORY - 1 < MAX_FLASH_MEMORY - 1) ∧ s.endOfValidData = false) :=
    fun h => absurd h.1 (by decide)
  constructor
  · rw [exportLoop, if_pos (And.intro hlt hend)]
    simp only [hi, h0]
    rw [hi] at hd
    rw [hd]
    simp only []
    rw [exportLoop, if_neg hstop]
  · rw [exportHeaderIndices, if_pos (And.intro hlt hend)]
    simp only [hi, h0]
    rw [hi] at hd
    rw [hd]
    simp only []
    rw [exportHeaderIndices, if_neg hstop]

theorem extractLoop_marker_at_bound (img : Image) (x : ExtractState) (fuel : Nat)
    (hi : x.currentImageIndex = MAX_FLASH_MEMORY - 2) (hend : x.endOfValidData = false)
    (h0 : flashByte img (MAX_FLASH_MEMORY - 2) = .ok RawDataTerm1) :
    extractLoop img (fuel + 2) x = .ok { x with currentImageIndex := MAX_FLASH_MEMORY - 1 } ∧
    extractHeaderIndices img (fuel + 2) x = [MAX_FLASH_MEMORY - 2] := by
  have hlt : x.currentImageIndex < MAX_FLASH_MEMORY - 1 := by rw [hi]; decide
  have h1 : flashByte img (MAX_FLASH_MEMORY - 2 + 1) =
      .ok (img.getD (MAX_FLASH_MEMORY - 2 + 1) 0 % 256) := flashByte_inside img _ (by decide)
  have hd : extractDispatch img RawDataTerm1
      { x with currentImageIndex := x.currentImageIndex + 1 } =
      .ok { x with currentImageIndex := MAX_FLASH_MEMORY - 1 } := by
    unfold extractDispatch
    simp only [RawDataTerm1, RawDataHeaderTimestamp, RawDataHeaderCPSIsDoubleByte,
      RawDataHeaderCPSLocationData, Nat.reduceEqDiff, if_false, if_true, hi, h1]
    rw [if_neg (fun h => absurd h.2 (by decide))]
    rfl
  have hstop : ¬ ((MAX_FLASH_MEMORY - 1 < MAX_FLASH_MEMORY - 1) ∧ x.endOfValidData = false) :=
    fun h => absurd h.1 (by decide)
  constructor
  · rw [extractLoop, if_pos (And.intro hlt hend)]
    simp only [hi, h0]
    rw [hi] at hd
    rw [hd]
    simp only []
    rw [extractLoop, if_neg hstop]
  · rw [extractHeaderIndices, if_pos (And.intro hlt hend)]
    simp only [hi, h0]
    rw [hi] at hd
    rw [hd]
    simp only []
    rw [extractHeaderIndices, if_neg hstop]

/-! # Theorems -/

/-! ### C1: the double-byte count -/

/-- C1 (failing input): a DoubleByteCount frame with payload bytes `0x01, 0x80` stands for the
count `256 * 1 + 128 = 384`; both decoders produce `128`, because the second byte is promoted
as a signed `char` before it is added.  The two payloads the specification lists, `{0x00,0x05}`
and `{0x01,0x00}`, do give 5 and 256. -/
theorem C1_double_byte_low_byte_sign_extended :
    (ExtractClicksPerMinuteFromRawData
        (flashImage [0x55, 0xAA, 0x01, 0x01, 0x80, 0x55, 0xAA, 0xFF]) []).map
        (fun s => s.listCPMData) = .ok [128] ∧
    (ExportCSVFile (flashImage [0x55, 0xAA, 0x01, 0x01, 0x80, 0x55, 0xAA, 0xFF])
        ⟨0, 0, 0, 0, 0, 0, 0⟩ []).map
        (fun s => s.formatted.map (fun r => r.count)) = .ok [128] ∧
    256 * 0x01 + 0x80 = 384 ∧
    theDoubleCount 0x00 0x05 = 5 ∧ theDoubleCount 0x01 0x00 = 256 := by
  refine ⟨by decide!, by decide!, by decide, by decide, by decide⟩

/-! ### C2: one timestamp frame followed by a bare run -/

/-- C2 (failing input): the image is the leading marker, the timestamp frame
`00 | 21 03 11 23 30 11 | 55 AA | 02`, the `N = 2` samples `5, 7` and two `0xFF` bytes, the
rest of the flash being erased.  `ExportCSVFile` formats one observation, not two: the sample `5` is consumed as a frame
header and only `7` is formatted (with minute field 30). -/
theorem C2_first_sample_of_run_is_dropped :
    (ExportCSVFile
        (flashImage [0x55, 0xAA, 0x00, 21, 3, 11, 23, 30, 11, 0x55, 0xAA, 2, 5, 7, 0xFF, 0xFF])
        ⟨0, 0, 0, 0, 0, 0, 0⟩ []).map (fun s => s.formatted) =
      .ok [{ timestamp := "11/Apr/21 23:30:11", count := 7 }] := by
  decide!

/-! ### C3: frames terminated by end of data -/

/-- C3 (counterexample): `lastCellImage` is the leading marker, 5461 marker-separated
timestamp frames, a marker and the EndOfData header `0xFF`, which sits in the last cell of the
array.  Both decode loops stop with the end-of-data flag still false and the cursor on that
header, index 65534: the loop condition `currentImageIndex < MAX_FLASH_MEMORY - 1` keeps the
last cell from being dispatched. -/
theorem C3_end_of_data_in_the_last_cell_is_not_seen :
    lastCellImage.length = MAX_FLASH_MEMORY ∧
    lastCellImage.drop 65532 = [RawDataTerm1, RawDataTerm2, RawDataHeaderEndOfData] ∧
    (ExtractClicksPerMinuteFromRawData lastCellImage []).map
        (fun s => (s.endOfValidData, s.currentImageIndex)) = .ok (false, 65534) ∧
    (ExportCSVFile lastCellImage ⟨0, 0, 0, 0, 0, 0, 0⟩ []).map
        (fun s => (s.endOfValidData, s.currentImageIndex)) = .ok (false, 65534) := by
  obtain ⟨ps, ps', himg, hsplit, hlen', hlen, hwf, hmonth⟩ := lastCellImage_shape
  have hbytes : (piecesBytes ps).length = 65532 := by
    rw [hsplit, List.length_append, hlen']; rfl
  have hfuel : MAX_FLASH_MEMORY = 54613 + ps.length := by rw [hlen]; rfl
  refine ⟨?_, ?_, ?_, ?_⟩
  · rw [himg]
    simp only [List.length_append, hbytes, List.length_cons, List.length_nil]
    rfl
  · rw [himg, hsplit]
    have e : [RawDataTerm1, RawDataTerm2] ++
        (piecesBytes ps' ++ [RawDataHeaderTimestamp, 21, 3, 11, 23, 30, 11, 0x55, 0xAA, 2,
          RawDataTerm1, RawDataTerm2]) ++ [RawDataHeaderEndOfData] =
        ([RawDataTerm1, RawDataTerm2] ++ piecesBytes ps' ++
          [RawDataHeaderTimestamp, 21, 3, 11, 23, 30, 11, 0x55, 0xAA, 2]) ++
        [RawDataTerm1, RawDataTerm2, RawDataHeaderEndOfData] := by
      simp only [List.append_assoc, List.cons_append, List.nil_append]
    rw [e]
    apply List.drop_left'
    simp only [List.length_append, hlen', List.length_cons, List.length_nil]
  · obtain ⟨s1, hi1, hend1, hstep1⟩ := extractLoop_pieces ps
      { currentImageIndex := 0 + 2, endOfValidData := false, listCPMData := [],
        ru16_Lowest := 0xFFFF, ru16_Highest := 0x0000 } rfl hwf
    have hrun := hstep1 lastCellImage 54613 (by rw [himg]; exact holdsAt_middle _ _ _)
      (by rw [hbytes]; decide)
    rw [hbytes] at hi1
    have hstop : extractLoop lastCellImage (54612 + 1) s1 = .ok s1 := by
      have hge : ¬ s1.currentImageIndex < MAX_FLASH_MEMORY - 1 := by
        rw [hi1]; decide
      have : ¬ (s1.currentImageIndex < MAX_FLASH_MEMORY - 1 ∧ s1.endOfValidData = false) :=
        fun h => hge h.1
      rw [extractLoop, if_neg this]
    have hall : ExtractClicksPerMinuteFromRawData lastCellImage [] = .ok s1 := by
      unfold ExtractClicksPerMinuteFromRawData
      rw [hfuel, hrun]
      exact hstop
    rw [hall]
    simp only [Except.map, hend1, hi1]
  · obtain ⟨s1, hi1, hend1, hst1, hstep1⟩ := exportLoop_pieces (Piece.marker :: ps)
      (exportStart ⟨0, 0, 0, 0, 0, 0, 0⟩ []) rfl
      (fun p hp => by
        rcases List.mem_cons.1 hp with hp | hp
        · subst hp; trivial
        · exact hwf p hp)
      (fun p hp => by
        rcases List.mem_cons.1 hp with hp | hp
        · subst hp; trivial
        · exact hmonth p hp)
    have hlen2 : (piecesBytes (Piece.marker :: ps)).length = 65534 := by
      simp only [piecesBytes, Piece.bytes, List.length_append, hbytes, List.length_cons,
        List.length_nil]
    have hold : holdsAt lastCellImage 0 (piecesBytes (Piece.marker :: ps)) := by
      rw [himg]
      exact holdsAt_middle [] _ [RawDataHeaderEndOfData]
    have hrun := hstep1 lastCellImage 54612 hold (by rw [hlen2]; decide)
    rw [hlen2] at hi1
    have hstop : exportLoop lastCellImage (54611 + 1) s1 = .ok s1 := by
      have hge : ¬ s1.currentImageIndex < MAX_FLASH_MEMORY - 1 := by
        rw [hi1]; decide
      have : ¬ (s1.currentImageIndex < MAX_FLASH_MEMORY - 1 ∧ s1.endOfValidData = false) :=
        fun h => hge h.1
      rw [exportLoop, if_neg this]
    have hfuel2 : MAX_FLASH_MEMORY = 54612 + (Piece.marker :: ps).length := by
      rw [List.length_cons, hlen]; rfl
    have hall : ExportCSVFile lastCellImage ⟨0, 0, 0, 0, 0, 0, 0⟩ [] = .ok s1 := by
      unfold ExportCSVFile
      rw [hfuel2, hrun]
      exact hstop
    rw [hall]
    simp only [Except.map, hend1, hi1]
    rfl

/-- C3 (amended): take any image that is the leading frame marker, a sequence `ps` of frame
markers and well-formed frames (Timestamp, DoubleByteCount, Location; in particular frames
each preceded by a marker, the last marker preceding the end of data), the EndOfData header
`0xFF` and any remaining bytes `rest`, and let the header lie at an index below
`MAX_FLASH_MEMORY - 1`.  `ExtractClicksPerMinuteFromRawData` stops with the end-of-data flag
set and the cursor one past the header, in a state that is the same for every `rest`: no
byte after the header is read.  The same holds of the decode loop of `ExportCSVFile` when the
month byte of every Timestamp frame is an index into `theMonths` (at most 11) and the text
of every Location frame is shorter than `labelString` (at most 254 characters, so that its
terminator has a cell); every store the run then makes into `labelString` lies inside the
array. -/
theorem C3_frames_then_end_of_data (ps : List Piece) (listCPMData : List Nat)
    (stale : StaleLocals) (labelStores : List (Nat × Nat))
    (hwf : ∀ p ∈ ps, p.wellFormed)
    (hfit : 2 + (piecesBytes ps).length < MAX_FLASH_MEMORY - 1) :
    (∃ s : ExtractState, s.endOfValidData = true ∧
      s.currentImageIndex = 2 + (piecesBytes ps).length + 1 ∧
      ∀ rest : List Nat,
        ExtractClicksPerMinuteFromRawData
          ([RawDataTerm1, RawDataTerm2] ++ piecesBytes ps ++ [RawDataHeaderEndOfData] ++ rest)
          listCPMData = .ok s) ∧
    ((∀ p ∈ ps, p.monthInTable) → (∀ p ∈ ps, p.labelFits) →
      ∃ s : ExportState, s.endOfValidData = true ∧
        s.currentImageIndex = 2 + (piecesBytes ps).length + 1 ∧
        (∀ w ∈ s.labelStores, w ∈ labelStores ∨ w.1 < labelStringSize) ∧
        ∀ rest : List Nat,
          ExportCSVFile
            ([RawDataTerm1, RawDataTerm2] ++ piecesBytes ps ++ [RawDataHeaderEndOfData] ++ rest)
            stale labelStores = .ok s) := by
  have hcount := piecesBytes_length_ge ps
  have hM : MAX_FLASH_MEMORY = 65535 := rfl
  constructor
  · obtain ⟨s1, hi1, hend1, hstep1⟩ := extractLoop_pieces ps
      { currentImageIndex := 0 + 2, endOfValidData := false, listCPMData := listCPMData,
        ru16_Lowest := 0xFFFF, ru16_Highest := 0x0000 } rfl hwf
    have hi1' : s1.currentImageIndex = 2 + (piecesBytes ps).length := hi1
    refine ⟨{ s1 with currentImageIndex := s1.currentImageIndex + 1, endOfValidData := true },
      rfl, by simp only [hi1'], ?_⟩
    intro rest
    have hold : holdsAt ([RawDataTerm1, RawDataTerm2] ++ piecesBytes ps ++
        [RawDataHeaderEndOfData] ++ rest) 2 (piecesBytes ps ++ [RawDataHeaderEndOfData]) := by
      have := holdsAt_middle [RawDataTerm1, RawDataTerm2]
        (piecesBytes ps ++ [RawDataHeaderEndOfData]) rest
      simpa only [List.append_assoc] using this
    obtain ⟨hold1, hold2⟩ := (holdsAt_append _ _ _ _).1 hold
    have hfuel : MAX_FLASH_MEMORY = (MAX_FLASH_MEMORY - ps.length - 2) + 2 + ps.length := by
      omega
    unfold ExtractClicksPerMinuteFromRawData
    rw [hfuel, hstep1 _ _ hold1 (by show 0 + 2 + _ ≤ _; omega)]
    exact extractLoop_endOfData _ s1 _ hend1 (by omega) (by rw [hi1']; exact hold2)
  · intro hmonth hfits
    obtain ⟨s1, hi1, hend1, hst1, hstep1⟩ := exportLoop_pieces (Piece.marker :: ps)
      (exportStart stale labelStores) rfl
      (fun p hp => by
        rcases List.mem_cons.1 hp with hp | hp
        · subst hp; trivial
        · exact hwf p hp)
      (fun p hp => by
        rcases List.mem_cons.1 hp with hp | hp
        · subst hp; trivial
        · exact hmonth p hp)
    have hst := hst1 (fun p hp => by
      rcases List.mem_cons.1 hp with hp | hp
      · subst hp; trivial
      · exact hfits p hp)
    have hlen2 : (piecesBytes (Piece.marker :: ps)).length = 2 + (piecesBytes ps).length := by
      simp only [piecesBytes, Piece.bytes, List.length_append, List.length_cons,
        List.length_nil]
    have hi1' : s1.currentImageIndex = 2 + (piecesBytes ps).length := by
      rw [hi1, hlen2]
      show 0 + _ = _
      omega
    refine ⟨{ s1 with currentImageIndex := s1.currentImageIndex + 1, endOfValidData := true },
      rfl, by simp only [hi1'], hst, ?_⟩
    intro rest
    have hold : holdsAt ([RawDataTerm1, RawDataTerm2] ++ piecesBytes ps ++
        [RawDataHeaderEndOfData] ++ rest) 0
        (piecesBytes (Piece.marker :: ps) ++ [RawDataHeaderEndOfData]) := by
      have := holdsAt_middle []
        (piecesBytes (Piece.marker :: ps) ++ [RawDataHeaderEndOfData]) rest
      simpa only [piecesBytes, Piece.bytes, List.append_assoc, List.nil_append,
        List.length_nil] using this
    obtain ⟨hold1, hold2⟩ := (holdsAt_append _ _ _ _).1 hold
    have hfuel : MAX_FLASH_MEMORY =
        (MAX_FLASH_MEMORY - ps.length - 3) + 2 + (Piece.marker :: ps).length := by
      rw [List.length_cons]
      omega
    unfold ExportCSVFile
    rw [hfuel, hstep1 _ _ hold1 (by rw [hlen2]; show 0 + _ ≤ _; omega)]
    refine exportLoop_endOfData _ s1 _ hend1 (by omega) ?_
    rw [hi1', ← hlen2]
    simpa using hold2

/-- C3 (witness): the amended statement at the image made of a timestamp frame, a double-byte
frame and a location frame, each followed by a marker, for both decoders. -/
theorem C3_frames_then_end_of_data_witness :
    (∃ s : ExtractState, s.endOfValidData = true ∧
      s.currentImageIndex =
        2 + (piecesBytes [Piece.timestamp 21 3 11 23 30 11 0x55 0xAA 2, Piece.marker,
          Piece.doubleByteCount 1 0, Piece.marker, Piece.location [65, 44, 66],
          Piece.marker]).length + 1 ∧
      ∀ rest : List Nat,
        ExtractClicksPerMinuteFromRawData
          ([RawDataTerm1, RawDataTerm2] ++
            piecesBytes [Piece.timestamp 21 3 11 23 30 11 0x55 0xAA 2, Piece.marker,
              Piece.doubleByteCount 1 0, Piece.marker, Piece.location [65, 44, 66],
              Piece.marker] ++ [RawDataHeaderEndOfData] ++ rest)
          [] = .ok s) ∧
    (∃ s : ExportState, s.endOfValidData = true ∧
      s.currentImageIndex =
        2 + (piecesBytes [Piece.timestamp 21 3 11 23 30 11 0x55 0xAA 2, Piece.marker,
          Piece.doubleByteCount 1 0, Piece.marker, Piece.location [65, 44, 66],
          Piece.marker]).length + 1 ∧
      (∀ w ∈ s.labelStores, w ∈ ([] : List (Nat × Nat)) ∨ w.1 < labelStringSize) ∧
      ∀ rest : List Nat,
        ExportCSVFile
          ([RawDataTerm1, RawDataTerm2] ++
            piecesBytes [Piece.timestamp 21 3 11 23 30 11 0x55 0xAA 2, Piece.marker,
              Piece.doubleByteCount 1 0, Piece.marker, Piece.location [65, 44, 66],
              Piece.marker] ++ [RawDataHeaderEndOfData] ++ rest)
          ⟨0, 0, 0, 0, 0, 0, 0⟩ [] = .ok s) :=
  have h := C3_frames_then_end_of_data
    [Piece.timestamp 21 3 11 23 30 11 0x55 0xAA 2, Piece.marker, Piece.doubleByteCount 1 0,
      Piece.marker, Piece.location [65, 44, 66], Piece.marker]
    [] ⟨0, 0, 0, 0, 0, 0, 0⟩ [] (by decide) (by decide)
  ⟨h.1, h.2 (by decide) (by decide)⟩

/-! ### C4: the location label -/

/-- C4: when the switch of `ExportCSVFile` takes the location case with the cursor on a length
byte `L` followed by payload bytes `b_0 .. b_(L-1)` (all inside the image), it leaves the
cursor `1 + L` bytes further and sets the flag `foundLocationString`.  The stores it makes
into `labelString` are those of the characters, which go to the cells `0 .. L-1`, followed by
the store of a NUL to index `L`.  When `L` is below the number of cells of `labelString`
(at most 254), every store lies inside the array, cell `i < L` holds a space when `b_i` is a
comma and `b_i` otherwise, and cell `L` holds the NUL.  When `L` is 255, the index of the last
store, that of the NUL, is the number of cells of the array: the store lies outside it. -/
theorem C4_location_label (img : Image) (s : ExportState) (text : List Nat)
    (hold : holdsAt img s.currentImageIndex (text.length :: text))
    (hL : text.length ≤ 255) (hbytes : ∀ b ∈ text, b < 256)
    (hfit : s.currentImageIndex + 1 + text.length ≤ MAX_FLASH_MEMORY) :
    ∃ s', exportDispatch img RawDataHeaderCPSLocationData s = .ok s' ∧
      s'.currentImageIndex = s.currentImageIndex + 1 + text.length ∧
      s'.foundLocationString = true ∧
      s'.labelStores = s.labelStores ++ labelStoresOf 0 text ++ [(text.length, 0)] ∧
      (∀ w ∈ labelStoresOf 0 text, w.1 < text.length) ∧
      (text.length < labelStringSize →
        (∀ w ∈ s'.labelStores, w ∈ s.labelStores ∨ w.1 < labelStringSize) ∧
        (∀ i, i < text.length →
          labelCell s'.labelStores i = if text.getD i 0 = 44 then 32 else text.getD i 0) ∧
        labelCell s'.labelStores text.length = 0) ∧
      (text.length = 255 → s'.labelStores.getLast? = some (labelStringSize, 0)) := by
  have h0 := flashByte_of_holdsAt img s.currentImageIndex 0 _ hold (by simp) (by omega)
  simp only [Nat.add_zero, List.getD_cons_zero, Nat.mod_eq_of_lt (show text.length < 256 by omega)]
    at h0
  have htext : holdsAt img (s.currentImageIndex + 1) text :=
    ((holdsAt_append img s.currentImageIndex [text.length] text).1 hold).2
  have hloop := exportLabelLoop_eq img text 0
    { s with currentImageIndex := s.currentImageIndex + 1 } htext (by simp only []; omega)
  dsimp only at hloop
  have hidx : ∀ w ∈ labelStoresOf 0 text, w.1 < text.length := by
    intro w hw
    have := labelStoresOf_index text 0 w hw
    omega
  refine ⟨{ s with
      currentImageIndex := s.currentImageIndex + 1 + text.length
      labelStores := s.labelStores ++ labelStoresOf 0 text ++ [(text.length, 0)]
      foundLocationString := true }, ?_, rfl, rfl, rfl, hidx, ?_, ?_⟩
  · unfold exportDispatch
    simp only [RawDataHeaderCPSLocationData, RawDataTerm1, RawDataHeaderTimestamp,
      RawDataHeaderCPSIsDoubleByte, Nat.reduceEqDiff, if_false, if_true, h0, hloop]
    rfl
  · intro hlen
    refine ⟨?_, ?_, ?_⟩
    · intro w hw
      have hw' : w ∈ s.labelStores ++ labelStoresOf 0 text ++ [(text.length, 0)] := hw
      simp only [List.mem_append, List.mem_singleton] at hw'
      rcases hw' with (hw' | hw') | hw'
      · exact Or.inl hw'
      · right
        have := hidx w hw'
        omega
      · right
        rw [hw']
        exact hlen
    · intro i hi
      show labelCell (s.labelStores ++ labelStoresOf 0 text ++ [(text.length, 0)]) i = _
      rw [labelCell_snoc, if_neg (by omega), labelCell_labelStoresOf, if_pos (by omega)]
      have hb : text.getD i 0 < 256 := by
        rw [List.getD_eq_getElem _ _ hi]
        exact hbytes _ (List.getElem_mem _)
      simp only [labelChar, Nat.sub_zero, Nat.mod_eq_of_lt hb]
    · show labelCell (s.labelStores ++ labelStoresOf 0 text ++ [(text.length, 0)]) _ = _
      rw [labelCell_snoc, if_pos rfl]
  · intro h255
    show (s.labelStores ++ labelStoresOf 0 text ++ [(text.length, 0)]).getLast? = _
    rw [List.getLast?_append, h255]
    rfl

/-- C4 (failing input): a Location frame `02 | FF` with a text of 255 letters `Z`, met at
index 2.  The switch consumes the frame, and the last store it makes into `labelString`, the
terminating NUL, goes to index 255, where the array of 255 cells has no cell. -/
theorem C4_location_label_witness :
    ∃ s', exportDispatch ([0x55, 0xAA, 0x02, 0xFF] ++ List.replicate 255 90 ++ [0x55, 0xAA, 0xFF])
        RawDataHeaderCPSLocationData
        { exportStart ⟨0, 0, 0, 0, 0, 0, 0⟩ [] with currentImageIndex := 3 } = .ok s' ∧
      s'.currentImageIndex = 3 + 1 + 255 ∧
      s'.labelStores.getLast? = some (255, 0) ∧ labelStringSize = 255 := by
  obtain ⟨s', h1, h2, _, _, _, _, h7⟩ := C4_location_label
    ([0x55, 0xAA, 0x02, 0xFF] ++ List.replicate 255 90 ++ [0x55, 0xAA, 0xFF])
    { exportStart ⟨0, 0, 0, 0, 0, 0, 0⟩ [] with currentImageIndex := 3 }
    (List.replicate 255 90)
    (by
      rw [List.length_replicate]
      exact holdsAt_middle [0x55, 0xAA, 0x02] (255 :: List.replicate 255 90) [0x55, 0xAA, 0xFF])
    (Nat.le_of_eq (List.length_replicate 255 90))
    (fun b hb => by rw [List.eq_of_mem_replicate hb]; decide)
    (by rw [List.length_replicate]; decide)
  rw [List.length_replicate] at h2
  exact ⟨s', h1, h2, h7 (List.length_replicate _ _), rfl⟩

/-! ### C5: running the extraction twice -/

/-- C5 (counterexample): on the image `55 AA | 01 00 05 | 55 AA FF` one run of
`ExtractClicksPerMinuteFromRawData` leaves the list `[5]`; a second run on the same image,
started from that list, leaves `[5, 5]`. -/
theorem C5_second_run_leaves_a_longer_list :
    (ExtractClicksPerMinuteFromRawData
        (flashImage [0x55, 0xAA, 0x01, 0x00, 0x05, 0x55, 0xAA, 0xFF]) []).map
        (fun s => s.listCPMData) = .ok [5] ∧
    (ExtractClicksPerMinuteFromRawData
        (flashImage [0x55, 0xAA, 0x01, 0x00, 0x05, 0x55, 0xAA, 0xFF]) [5]).map
        (fun s => s.listCPMData) = .ok [5, 5] := by
  refine ⟨by decide!, by decide!⟩

/-- C5 (amended): when a first run of `ExtractClicksPerMinuteFromRawData` on an image, started
from the empty list, ends in state `s1`, a second run on the same image ends with the same
lowest and highest outputs (and the same cursor and flag) and with the decoded sequence
appended a second time to `listCPMData`. -/
theorem C5_second_run_appends_the_sequence_again (img : Image) (s1 : ExtractState)
    (h : ExtractClicksPerMinuteFromRawData img [] = .ok s1) :
    ExtractClicksPerMinuteFromRawData img s1.listCPMData =
      .ok { s1 with listCPMData := s1.listCPMData ++ s1.listCPMData } := by
  rw [ExtractClicksPerMinuteFromRawData_prepend, h]
  rfl

/-- C5 (witness): the amended statement at the image `55 AA | 01 00 05 | 55 AA FF`. -/
theorem C5_second_run_appends_the_sequence_again_witness :
    ExtractClicksPerMinuteFromRawData
        (flashImage [0x55, 0xAA, 0x01, 0x00, 0x05, 0x55, 0xAA, 0xFF]) [5] =
      .ok { currentImageIndex := 8, endOfValidData := true, listCPMData := [5, 5],
            ru16_Lowest := 5, ru16_Highest := 5 } :=
  C5_second_run_appends_the_sequence_again
    (flashImage [0x55, 0xAA, 0x01, 0x00, 0x05, 0x55, 0xAA, 0xFF])
    { currentImageIndex := 8, endOfValidData := true, listCPMData := [5],
      ru16_Lowest := 5, ru16_Highest := 5 } (by decide!)

/-! ### C6: the average -/

/-- C6: for every non-empty observation list, that is the list `c_1..c_n` which a run of
`ExtractClicksPerMinuteFromRawData` builds from any image, `ComputeAverageAcrossAllCPMData`
returns `(c_1 + ... + c_n) / n` with truncating division (the 32-bit accumulator does not wrap
on such a list). -/
theorem C6_average_is_the_truncated_mean (img : Image) (s : ExtractState)
    (h : ExtractClicksPerMinuteFromRawData img [] = .ok s) (hne : s.listCPMData ≠ []) :
    ComputeAverageAcrossAllCPMData s.listCPMData =
      .ok (s.listCPMData.sum / s.listCPMData.length) := by
  obtain ⟨hlen, hbits⟩ := ExtractClicksPerMinuteFromRawData_bounded img s h
  have hlen2 : s.listCPMData.length ≤ 65535 := by
    simp only [MAX_FLASH_MEMORY] at hlen; omega
  have h0 : ¬ s.listCPMData.length = 0 := fun h0 => hne (List.length_eq_zero.1 h0)
  simp [ComputeAverageAcrossAllCPMData, h0, sumCPMData_eq_sum _ hbits hlen2]

/-- C6 (witness): the list `[7, 100, 9]` decoded from a bare run has the average 38. -/
theorem C6_average_is_the_truncated_mean_witness :
    ComputeAverageAcrossAllCPMData [7, 100, 9] = .ok ((7 + 100 + 9) / 3) :=
  C6_average_is_the_truncated_mean
    (flashImage [0x55, 0xAA, 0x03, 7, 100, 9, 0x55, 0xAA, 0xFF])
    { currentImageIndex := 9, endOfValidData := true, listCPMData := [7, 100, 9],
      ru16_Lowest := 7, ru16_Highest := 100 } (by decide!) (by decide)

/-! ### C7: the thresholds -/

/-- C7: when `ComputeAverageAcrossAllCPMData` returns the truncated mean `M` of a (non-empty)
observation list, `M` is at most 65535 and the thresholds `ScanRawDataForHighPeriods` passes
to `ScanTenMinuteIntervalsForExcessHigh` are `U = M + 3 * M / 10` and `S = 2 * U`; the
binary32 computation `0.30f * M + M`, truncated, gives exactly that integer. -/
theorem C7_thresholds_from_the_mean (l : List Nat) (M : Nat)
    (h : ComputeAverageAcrossAllCPMData l = .ok M) :
    M ≤ 65535 ∧ scanThresholds M = .ok (M + 3 * M / 10, 2 * (M + 3 * M / 10)) :=
  ⟨ComputeAverageAcrossAllCPMData_le l M h,
    scanThresholds_eq M (ComputeAverageAcrossAllCPMData_le l M h)⟩

/-- C7 (witness): ten samples of 10 have mean 10 and give `U = 13`, `S = 26`. -/
theorem C7_thresholds_from_the_mean_witness :
    (10 : Nat) ≤ 65535 ∧ scanThresholds 10 = .ok (13, 26) :=
  C7_thresholds_from_the_mean (List.replicate 10 10) 10 (by decide)

/-! ### C8: the ten-sample blocks -/

/-- C8: for every observation list `l` (16-bit counts) and thresholds `U`, `S`,
`ScanTenMinuteIntervalsForExcessHigh` returns true exactly when one of the `l.length / 10`
consecutive blocks of ten samples has a truncated average of at least `U`; it evaluates
`l.length / 10` blocks (the `ushort` block counter holds that number modulo 65536); and the
samples after the last complete block change neither the returned flag, nor what is printed,
nor the recorded super-high events. -/
theorem C8_blocks_of_ten (U S : Nat) (l superHigh : List Nat) (hbits : ∀ c ∈ l, c < 65536) :
    (ScanTenMinuteIntervalsForExcessHigh U S l superHigh = true ↔
      ∃ k, k < l.length / 10 ∧ blockAverage l k ≥ U) ∧
    (scanTenMinuteIntervals U S l superHigh).whichTenMinuteBlock % 65536 =
      (l.length / 10) % 65536 ∧
    ScanTenMinuteIntervalsForExcessHigh U S l superHigh =
      ScanTenMinuteIntervalsForExcessHigh U S (l.take (10 * (l.length / 10))) superHigh ∧
    (scanTenMinuteIntervals U S l superHigh).console =
      (scanTenMinuteIntervals U S (l.take (10 * (l.length / 10))) superHigh).console ∧
    (scanTenMinuteIntervals U S l superHigh).listSuperHighEventIndexValues =
      (scanTenMinuteIntervals U S (l.take (10 * (l.length / 10)))
        superHigh).listSuperHighEventIndexValues := by
  obtain ⟨h1, h2, _⟩ := scan_blocks U S l.length l (scanStart superHigh) rfl rfl rfl hbits
  obtain ⟨t1, t2, t3, _⟩ := scan_trailing U S l (scanStart superHigh) rfl rfl hbits
  refine ⟨?_, ?_, t1, t2, t3⟩
  · unfold ScanTenMinuteIntervalsForExcessHigh scanTenMinuteIntervals
    rw [h1]
    simp [scanStart]
  · unfold scanTenMinuteIntervals
    rw [h2]
    simp [scanStart]

/-- C8 (witness): a block averaging 10, a block averaging 30 and one trailing sample, scanned
against `U = 13`, `S = 26`. -/
theorem C8_blocks_of_ten_witness :
    (ScanTenMinuteIntervalsForExcessHigh 13 26
        [10, 10, 10, 10, 10, 10, 10, 10, 10, 10, 30, 30, 30, 30, 30, 30, 30, 30, 30, 30, 99] []
        = true ↔
      ∃ k, k < 21 / 10 ∧
        blockAverage
          [10, 10, 10, 10, 10, 10, 10, 10, 10, 10, 30, 30, 30, 30, 30, 30, 30, 30, 30, 30, 99]
          k ≥ 13) :=
  (C8_blocks_of_ten 13 26
    [10, 10, 10, 10, 10, 10, 10, 10, 10, 10, 30, 30, 30, 30, 30, 30, 30, 30, 30, 30, 99] []
    (by decide)).1

/-! ### C9: a constant run -/

/-- C9 (counterexample): the image `55 AA | 07 | 00 x 10 | FF FF` decodes to ten samples of
0; their mean is 0, both thresholds are 0, and the scan reports the block as a high interval
(average 0) and records a super-high event (`0 - 10` as a `ulong`). -/
theorem C9_ten_zero_samples_are_reported_high :
    (ScanRawDataForHighPeriods id
        { entireFlashImage :=
            flashImage [0x55, 0xAA, 0x07, 0, 0, 0, 0, 0, 0, 0, 0, 0, 0, 0xFF, 0xFF]
          hasRawData := true
          hasClicksPerMinute := false
          listCPMData := []
          listSuperHighEventIndexValues := [] }).map
        (fun out => (out.1.listCPMData, out.1.listSuperHighEventIndexValues, out.2)) =
      .ok ([0, 0, 0, 0, 0, 0, 0, 0, 0, 0], [4294967286],
        [ConsoleLine.extractingClicks, ConsoleLine.elementCount 10, ConsoleLine.average 0,
          ConsoleLine.lowestHighest 0 0, ConsoleLine.thresholds 0 0, ConsoleLine.searching,
          ConsoleLine.highInterval 9 0 0, ConsoleLine.superHighEvents 1,
          ConsoleLine.blankLines]) := by
  decide!

/-- C9 (amended): for every count `c` with `4 ≤ c ≤ 65535` and every `m ≥ 1` with
`10 * m ≤ 65535` (a list one decode can hold), when `listCPMData` is `10 * m` copies of `c`,
`ScanRawDataForHighPeriods` computes the mean `c`, prints no high interval but the line that
none was found, and leaves `listSuperHighEventIndexValues` as it was. -/
theorem C9_constant_run_is_not_reported (acquire : Globals → Globals) (img : Image)
    (superHigh : List Nat) (c m : Nat) (hc4 : 4 ≤ c) (hc : c ≤ 65535) (hm1 : 1 ≤ m)
    (hm : 10 * m ≤ 65535) :
    ScanRawDataForHighPeriods acquire
        { entireFlashImage := img
          hasRawData := true
          hasClicksPerMinute := true
          listCPMData := List.replicate (10 * m) c
          listSuperHighEventIndexValues := superHigh } =
      .ok ({ entireFlashImage := img
             hasRawData := true
             hasClicksPerMinute := true
             listCPMData := List.replicate (10 * m) c
             listSuperHighEventIndexValues := superHigh },
        [ConsoleLine.extractingClicks, ConsoleLine.elementCount (10 * m), ConsoleLine.average c,
          ConsoleLine.lowestHighest 0 0,
          ConsoleLine.thresholds (entireAveragePlus30Percent c) (2 * (c + 3 * c / 10)),
          ConsoleLine.searching, ConsoleLine.noHighIntervals,
          (if superHigh.length > 0 then ConsoleLine.superHighEvents superHigh.length
            else ConsoleLine.noSuperHighEvents),
          ConsoleLine.blankLines]) := by
  have hbits : ∀ x ∈ List.replicate (10 * m) c, x < 65536 := by
    intro x hx
    rw [List.eq_of_mem_replicate hx]; omega
  have hsum : sumCPMData (List.replicate (10 * m) c) = 10 * m * c := by
    rw [sumCPMData_eq_sum _ hbits (by simpa using hm)]
    simp
  have havg : ComputeAverageAcrossAllCPMData (List.replicate (10 * m) c) = .ok c := by
    have h0 : ¬ 10 * m = 0 := by omega
    simp only [ComputeAverageAcrossAllCPMData, List.length_replicate, h0, if_false, hsum]
    rw [Nat.mul_div_cancel_left c (by omega)]
  obtain ⟨s1, s2, s3⟩ := scan_replicate (c + 3 * c / 10) (2 * (c + 3 * c / 10)) c m superHigh
    (by omega) (by omega)
  have heval : ∀ console, evaluateCPMData
      { entireFlashImage := img, hasRawData := true, hasClicksPerMinute := true,
        listCPMData := List.replicate (10 * m) c, listSuperHighEventIndexValues := superHigh }
      0 0 console =
      .ok ({ entireFlashImage := img, hasRawData := true, hasClicksPerMinute := true,
             listCPMData := List.replicate (10 * m) c,
             listSuperHighEventIndexValues := superHigh },
        console ++ [ConsoleLine.average c, ConsoleLine.lowestHighest 0 0,
          ConsoleLine.thresholds (entireAveragePlus30Percent c) (2 * (c + 3 * c / 10)),
          ConsoleLine.searching, ConsoleLine.noHighIntervals,
          (if superHigh.length > 0 then ConsoleLine.superHighEvents superHigh.length
            else ConsoleLine.noSuperHighEvents),
          ConsoleLine.blankLines]) := by
    intro console
    unfold evaluateCPMData
    simp only [havg, scanThresholds_eq c hc, s1, s2, s3]
    by_cases hs : superHigh.length > 0 <;> simp [hs]
  have hm0 : 0 < m := by omega
  unfold ScanRawDataForHighPeriods scanAcquiredData extractIfNeeded
  simp [hm0, heval]

/-- C9 (witness): ten samples of 10 (mean 10, `U = 13`): no high interval, no super-high event. -/
theorem C9_constant_run_is_not_reported_witness :
    ScanRawDataForHighPeriods id
        { entireFlashImage := []
          hasRawData := true
          hasClicksPerMinute := true
          listCPMData := List.replicate (10 * 1) 10
          listSuperHighEventIndexValues := [] } =
      .ok ({ entireFlashImage := []
             hasRawData := true
             hasClicksPerMinute := true
             listCPMData := List.replicate (10 * 1) 10
             listSuperHighEventIndexValues := [] },
        [ConsoleLine.extractingClicks, ConsoleLine.elementCount (10 * 1), ConsoleLine.average 10,
          ConsoleLine.lowestHighest 0 0,
          ConsoleLine.thresholds (entireAveragePlus30Percent 10) (2 * (10 + 3 * 10 / 10)),
          ConsoleLine.searching, ConsoleLine.noHighIntervals,
          (if ([] : List Nat).length > 0 then ConsoleLine.superHighEvents ([] : List Nat).length
            else ConsoleLine.noSuperHighEvents),
          ConsoleLine.blankLines]) :=
  C9_constant_run_is_not_reported id [] [] 10 1 (by decide) (by decide) (by decide) (by decide)

/-! ### C10: the empty list -/

/-- C10 (counterexample): on the image `55 AA FF`, which decodes to no observation, the scan
does not fail: it returns normally, having printed only the two lines that precede the
`listCPMData.size() > 0` test. -/
theorem C10_empty_list_scan_returns_normally :
    (ScanRawDataForHighPeriods id
        { entireFlashImage := flashImage [0x55, 0xAA, 0xFF]
          hasRawData := true
          hasClicksPerMinute := false
          listCPMData := []
          listSuperHighEventIndexValues := [] }).map
        (fun out => (out.1.listCPMData, out.1.listSuperHighEventIndexValues, out.2)) =
      .ok ([], [], [ConsoleLine.extractingClicks, ConsoleLine.elementCount 0]) := by
  decide!

/-- C10 (amended): `ScanRawDataForHighPeriods` never divides by a list size of 0, and when it
returns with `listCPMData` empty it has raised no error and produced no report: it has printed
nothing but the retrieval line, the extraction line and the line giving the element count 0,
and `listSuperHighEventIndexValues` is as it was. -/
theorem C10_empty_list_is_skipped (acquire : Globals → Globals) (g : Globals) :
    ScanRawDataForHighPeriods acquire g ≠ .error .divideByZero ∧
    ∀ out, ScanRawDataForHighPeriods acquire g = .ok out → out.1.listCPMData = [] →
      (∀ line ∈ out.2, line = ConsoleLine.retrievingRawData ∨
        line = ConsoleLine.extractingClicks ∨ line = ConsoleLine.elementCount 0) ∧
      out.1.listSuperHighEventIndexValues =
        (if g.hasRawData = false then acquire g else g).listSuperHighEventIndexValues := by
  unfold ScanRawDataForHighPeriods
  split
  · obtain ⟨h1, h2⟩ := scanAcquiredData_empty (acquire g) [ConsoleLine.retrievingRawData]
    refine ⟨h1, fun out h hempty => ?_⟩
    obtain ⟨h3, h4⟩ := h2 out h hempty
    refine ⟨?_, h4⟩
    intro line hline
    rcases h3 with h3 | h3 <;> rw [h3] at hline <;> simp at hline
    all_goals tauto
  · obtain ⟨h1, h2⟩ := scanAcquiredData_empty g []
    refine ⟨h1, fun out h hempty => ?_⟩
    obtain ⟨h3, h4⟩ := h2 out h hempty
    refine ⟨?_, h4⟩
    intro line hline
    rcases h3 with h3 | h3 <;> rw [h3] at hline <;> simp at hline
    all_goals tauto

/-- C10 (witness): with an empty list the scan prints the extraction line and the count 0. -/
theorem C10_empty_list_is_skipped_witness :
    ∀ line ∈ [ConsoleLine.extractingClicks, ConsoleLine.elementCount 0],
      line = ConsoleLine.retrievingRawData ∨ line = ConsoleLine.extractingClicks ∨
        line = ConsoleLine.elementCount 0 :=
  ((C10_empty_list_is_skipped id
      { entireFlashImage := []
        hasRawData := true
        hasClicksPerMinute := true
        listCPMData := []
        listSuperHighEventIndexValues := [] }).2
    ({ entireFlashImage := []
       hasRawData := true
       hasClicksPerMinute := true
       listCPMData := []
       listSuperHighEventIndexValues := [] },
      [ConsoleLine.extractingClicks, ConsoleLine.elementCount 0]) (by decide) (by decide)).1

/-! ### C11: what a super-high event records -/

/-- C11 (failing input): `superHighSample` holds 100 counts, all 10 except block `k = 4`
(positions 40 to 49), which holds nine times 30 and then 35.  Its average is 12, so the scan
thresholds are 15 and 30; block 4 averages 30 and is recorded as a super-high event.  The entry
appended to `listSuperHighEventIndexValues` is 25, the count of the block's last sample minus
10, where the position of that sample minus 10 is `(10 * 4 + 9) - 10 = 39`.  The console line
printed for the same block does carry the position, 49. -/
theorem C11_super_high_entry_is_a_count_minus_ten :
    ComputeAverageAcrossAllCPMData superHighSample = .ok 12 ∧
    scanThresholds 12 = .ok (15, 30) ∧
    superHighSample.getD (10 * 4 + 9) 0 = 35 ∧
    (scanTenMinuteIntervals 15 30 superHighSample []).listSuperHighEventIndexValues = [25] ∧
    (scanTenMinuteIntervals 15 30 superHighSample []).console =
      [ConsoleLine.highInterval 49 40 30] ∧
    (10 * 4 + 9) - 10 = 39 := by
  refine ⟨by decide!, by decide!, by decide!, by decide!, by decide!, by decide⟩

/-! ### C12: frames cut off by the end of the image -/

/-- C12 (failing input): `truncatedFrameImage` has `MAX_FLASH_MEMORY` bytes, all of them
markers and whole frames except the last two: a DoubleByteCount header at index 65533 and the
one byte that is left, at index 65534.  Both decoders dispatch that header (65533 is below the
loop bound `MAX_FLASH_MEMORY - 1`) and read its two payload bytes at indices 65534 and 65535;
the second read is outside the array.  Neither decoder stops before the frame. -/
theorem C12_double_byte_frame_read_past_the_image :
    truncatedFrameImage.length = MAX_FLASH_MEMORY ∧
    truncatedFrameImage.drop 65533 = [RawDataHeaderCPSIsDoubleByte, 0x01] ∧
    flashByte truncatedFrameImage 65534 = .ok 1 ∧
    flashByte truncatedFrameImage 65535 = .error .outOfBounds ∧
    ExtractClicksPerMinuteFromRawData truncatedFrameImage [] = .error .outOfBounds ∧
    ExportCSVFile truncatedFrameImage ⟨0, 0, 0, 0, 0, 0, 0⟩ [] = .error .outOfBounds := by
  obtain ⟨ps, himg, hbytes, hlen, hwf, hmonth⟩ := truncatedFrameImage_shape
  have hprelen : ([RawDataTerm1, RawDataTerm2] ++ piecesBytes ps).length = 65533 := by
    simp only [List.length_append, hbytes, List.length_cons, List.length_nil]
  have htail : holdsAt truncatedFrameImage 65533 [RawDataHeaderCPSIsDoubleByte, 0x01] := by
    have h := holdsAt_middle ([RawDataTerm1, RawDataTerm2] ++ piecesBytes ps)
      [RawDataHeaderCPSIsDoubleByte, 0x01] []
    rw [List.append_nil, hprelen, ← himg] at h
    exact h
  have hb0 : flashByte truncatedFrameImage 65533 = .ok 1 :=
    flashByte_of_holdsAt truncatedFrameImage 65533 0 _ htail (by decide) (by decide)
  have hb1 : flashByte truncatedFrameImage 65534 = .ok 1 :=
    flashByte_of_holdsAt truncatedFrameImage 65533 1 _ htail (by decide) (by decide)
  have hb2 : flashByte truncatedFrameImage 65535 = .error .outOfBounds := by
    unfold flashByte
    rw [if_neg (by decide)]
  refine ⟨?_, ?_, hb1, hb2, ?_, ?_⟩
  · rw [himg, List.length_append, hprelen]
    rfl
  · rw [himg]
    exact List.drop_left' hprelen
  · obtain ⟨s1, hi1, hend1, hstep1⟩ := extractLoop_pieces ps
      { currentImageIndex := 0 + 2, endOfValidData := false, listCPMData := [],
        ru16_Lowest := 0xFFFF, ru16_Highest := 0x0000 } rfl hwf
    have hrun := hstep1 truncatedFrameImage 54614 (by rw [himg]; exact holdsAt_middle _ _ _)
      (by rw [hbytes]; decide)
    rw [hbytes] at hi1
    have hi1' : s1.currentImageIndex = 65533 := hi1
    have hfault : extractLoop truncatedFrameImage (54613 + 1) s1 = .error .outOfBounds := by
      have hlt : s1.currentImageIndex < MAX_FLASH_MEMORY - 1 := by rw [hi1']; decide
      rw [extractLoop, if_pos (And.intro hlt hend1)]
      simp only [hi1', hb0]
      simp [extractDispatch, RawDataHeaderTimestamp, RawDataHeaderCPSIsDoubleByte, hb1, hb2]
    have hfuel : MAX_FLASH_MEMORY = 54614 + ps.length := by rw [hlen]; rfl
    unfold ExtractClicksPerMinuteFromRawData
    rw [hfuel, hrun]
    exact hfault
  · obtain ⟨s1, hi1, hend1, hst1, hstep1⟩ := exportLoop_pieces (Piece.marker :: ps)
      (exportStart ⟨0, 0, 0, 0, 0, 0, 0⟩ []) rfl
      (fun p hp => by
        rcases List.mem_cons.1 hp with hp | hp
        · subst hp; trivial
        · exact hwf p hp)
      (fun p hp => by
        rcases List.mem_cons.1 hp with hp | hp
        · subst hp; trivial
        · exact hmonth p hp)
    have hlen2 : (piecesBytes (Piece.marker :: ps)).length = 65533 := by
      simp only [piecesBytes, Piece.bytes, List.length_append, hbytes, List.length_cons,
        List.length_nil]
    have hold : holdsAt truncatedFrameImage 0 (piecesBytes (Piece.marker :: ps)) := by
      rw [himg]
      exact holdsAt_middle [] _ [RawDataHeaderCPSIsDoubleByte, 0x01]
    have hrun := hstep1 truncatedFrameImage 54613 hold (by rw [hlen2]; decide)
    rw [hlen2] at hi1
    have hi1' : s1.currentImageIndex = 65533 := hi1
    have hfault : exportLoop truncatedFrameImage (54612 + 1) s1 = .error .outOfBounds := by
      have hlt : s1.currentImageIndex < MAX_FLASH_MEMORY - 1 := by rw [hi1']; decide
      rw [exportLoop, if_pos (And.intro hlt hend1)]
      simp only [hi1', hb0]
      simp [exportDispatch, RawDataHeaderTimestamp, RawDataHeaderCPSIsDoubleByte, RawDataTerm1,
        hb1, hb2]
    have hfuel2 : MAX_FLASH_MEMORY = 54613 + (Piece.marker :: ps).length := by
      rw [List.length_cons, hlen]; rfl
    unfold ExportCSVFile
    rw [hfuel2, hrun]
    exact hfault

/-! ### C13: zero counts -/

/-- C14 (counterexample): a Timestamp frame 23:30:11 whose record-rate byte is 1 (every
second), followed by the bytes `07 09 08` and two `0xFF`.  The two samples of the bare run are
stamped `23:30:11` and `23:31:11`: the timestamp advances by one minute, not by one second.
With the rate byte 3 (every hour) and 0 (off) the result is the same. -/
theorem C14_rate_byte_does_not_change_the_tick :
    (ExportCSVFile
        (flashImage [0x55, 0xAA, 0x00, 21, 3, 11, 23, 30, 11, 0x55, 0xAA, 1, 7, 9, 8, 0xFF, 0xFF])
        ⟨0, 0, 0, 0, 0, 0, 0⟩ []).map (fun s => s.formatted) =
      .ok [{ timestamp := "11/Apr/21 23:30:11", count := 9 },
        { timestamp := "11/Apr/21 23:31:11", count := 8 }] ∧
    (ExportCSVFile
        (flashImage [0x55, 0xAA, 0x00, 21, 3, 11, 23, 30, 11, 0x55, 0xAA, 3, 7, 9, 8, 0xFF, 0xFF])
        ⟨0, 0, 0, 0, 0, 0, 0⟩ []).map (fun s => s.formatted) =
      .ok [{ timestamp := "11/Apr/21 23:30:11", count := 9 },
        { timestamp := "11/Apr/21 23:31:11", count := 8 }] ∧
    (ExportCSVFile
        (flashImage [0x55, 0xAA, 0x00, 21, 3, 11, 23, 30, 11, 0x55, 0xAA, 0, 7, 9, 8, 0xFF, 0xFF])
        ⟨0, 0, 0, 0, 0, 0, 0⟩ []).map (fun s => s.formatted) =
      .ok [{ timestamp := "11/Apr/21 23:30:11", count := 9 },
        { timestamp := "11/Apr/21 23:31:11", count := 8 }] := by
  refine ⟨by decide!, by decide!, by decide!⟩

/-- C14 (amended): the clock update `tick` of the bare-run loop of `ExportCSVFile` does not
look at the record rate: for every state and every rate it leaves the rate as it is and gives
the date and time it gives at any other rate, which is one minute later: the minute goes up by
one when it is below 59, and from minute 59 the clock goes to minute 0 of the next hour (hour
below 59); the second stays.  The loop applies it once for every sample (every index up to
the loop bound begins a bare run of some number of samples): entered on a bare run of `n`
samples, it returns (whenever the month in use is an index into `theMonths`, or the run
is empty), and the state it returns holds the record rate it was entered with and the date and
time that `n` ticks make of those it was entered with; after a sample the timestamp text is
the one formatted from that date and time. -/
theorem C14_tick_is_one_minute_at_every_rate (img : Image) (fuel n : Nat) (s : ExportState)
    (hrun : bareRunAt img s.currentImageIndex n) (hfuel : n < fuel) :
    (∀ (t : ExportState) (rate : Nat),
      ({ t with theRecordRate := rate }).tick.theRecordRate = rate ∧
      ({ t with theRecordRate := rate }).tick.sameClock t.tick ∧
      t.tick.theSecond = t.theSecond ∧
      (t.theMinute < 59 →
        t.tick.theMinute = t.theMinute + 1 ∧ t.tick.theHour = t.theHour ∧
          t.tick.theDay = t.theDay) ∧
      (t.theMinute = 59 → t.theHour < 59 →
        t.tick.theMinute = 0 ∧ t.tick.theHour = t.theHour + 1 ∧ t.tick.theDay = t.theDay)) ∧
    (∀ j, j ≤ MAX_FLASH_MEMORY - 1 → ∃ m, bareRunAt img j m) ∧
    (n = 0 ∨ s.theMonth < 12 → ∃ f, exportBareRun img fuel s = .ok f) ∧
    (∀ f, exportBareRun img fuel s = .ok f →
      f.theRecordRate = s.theRecordRate ∧
      f.sameClock (Nat.iterate ExportState.tick n s) ∧
      (0 < n →
        formatTimestamp f.theDay f.theMonth f.theYear f.theHour f.theMinute f.theSecond =
          .ok f.currentTimestamp)) := by
  refine ⟨fun t rate => ?_,
    fun j hj => bareRunAt_exists img (MAX_FLASH_MEMORY - 1 - j) j (by omega),
    fun hm => ?_, fun f hf => ?_⟩
  · obtain ⟨_, _, hsec, _⟩ := t.tick_fields
    obtain ⟨_, _, _, hrate, _⟩ := ({ t with theRecordRate := rate }).tick_fields
    exact ⟨hrate, ExportState.sameClock_tick _ _ ⟨rfl, rfl, rfl, rfl, rfl, rfl⟩, hsec,
      tick_below_59 t, tick_at_59 t⟩
  · obtain ⟨f, _, hf, _⟩ := exportBareRun_run img n s fuel hfuel hrun hm
    exact ⟨f, hf⟩
  · have hmonth := exportBareRun_ok_month img n s f fuel hfuel hrun hf
    obtain ⟨g, _, hg, _, hclock, hrate, htext, _⟩ := exportBareRun_run img n s fuel hfuel hrun
      hmonth
    rw [hg] at hf
    injection hf with hf
    subst hf
    refine ⟨hrate, hclock, fun hn => ?_⟩
    have hm : s.theMonth < 12 := by
      rcases hmonth with h | h
      · omega
      · exact h
    rw [if_neg (by omega)] at htext
    obtain ⟨i1, i2, i3, _⟩ := ExportState.tick_iterate_fields n s
    obtain ⟨t, ht⟩ := formatTimestamp_ok (Nat.iterate ExportState.tick n s).theDay
      (Nat.iterate ExportState.tick n s).theMonth (Nat.iterate ExportState.tick n s).theYear
      (Nat.iterate ExportState.tick n s).theHour (Nat.iterate ExportState.tick n s).theMinute
      (Nat.iterate ExportState.tick n s).theSecond (by rw [i2]; exact hm)
    have e : (Nat.iterate ExportState.tick n s).timestampText = t := by
      unfold ExportState.timestampText
      rw [ht]
    obtain ⟨c1, c2, c3, c4, c5, c6⟩ := hclock
    rw [c1, c2, c3, c4, c5, c6, htext, e]
    exact ht

/-- C14 (witness): a bare run of two samples entered at 23:30:11 with the record rate 1 (every
second) is left at 23:32:11, the rate still being 1. -/
theorem C14_tick_is_one_minute_at_every_rate_witness :
    ∃ f, exportBareRun
        (flashImage [0x55, 0xAA, 0x00, 21, 3, 11, 23, 30, 11, 0x55, 0xAA, 1, 7, 9, 8, 0xFF, 0xFF])
        5
        { exportStart ⟨21, 3, 11, 23, 30, 11, 1⟩ [] with
          currentImageIndex := 13, currentTimestamp := "11/Apr/21 23:30:11" } = .ok f ∧
      f.theRecordRate = 1 ∧ f.theSecond = 11 ∧ f.theMinute = 32 ∧ f.theHour = 23 ∧
      f.theDay = 11 := by
  have h := C14_tick_is_one_minute_at_every_rate
    (flashImage [0x55, 0xAA, 0x00, 21, 3, 11, 23, 30, 11, 0x55, 0xAA, 1, 7, 9, 8, 0xFF, 0xFF])
    5 2
    { exportStart ⟨21, 3, 11, 23, 30, 11, 1⟩ [] with
      currentImageIndex := 13, currentTimestamp := "11/Apr/21 23:30:11" }
    (by decide!) (by decide)
  obtain ⟨f, hf⟩ := h.2.2.1 (Or.inr (by decide))
  obtain ⟨h1, ⟨_, _, c3, c4, c5, c6⟩, _⟩ := h.2.2.2 f hf
  exact ⟨f, hf, h1, c6, c5, c4, c3⟩

/-! ### C15: the month of the timestamp text -/

/-- C15 (failing input): a Timestamp frame with month byte 1 (year 21, day 11, 23:30:11),
followed by a DoubleByteCount frame that puts the timestamp text into a record.  The text is
`11/Feb/21 23:30:11`, not `11/Jan/21 23:30:11`: `theMonths`, whose first entry is `"Jan"`, is
indexed with the month byte itself.  Month byte 3 gives `Apr`, and month byte 12 reads past
the end of the table. -/
theorem C15_month_byte_indexes_the_table_from_zero :
    (ExportCSVFile
        (flashImage [0x55, 0xAA, 0x00, 21, 1, 11, 23, 30, 11, 0x55, 0xAA, 2, 0x01, 0x00, 0x05,
          0xFF])
        ⟨0, 0, 0, 0, 0, 0, 0⟩ []).map (fun s => s.formatted) =
      .ok [{ timestamp := "11/Feb/21 23:30:11", count := 5 }] ∧
    (ExportCSVFile
        (flashImage [0x55, 0xAA, 0x00, 21, 3, 11, 23, 30, 11, 0x55, 0xAA, 2, 0x01, 0x00, 0x05,
          0xFF])
        ⟨0, 0, 0, 0, 0, 0, 0⟩ []).map (fun s => s.formatted) =
      .ok [{ timestamp := "11/Apr/21 23:30:11", count := 5 }] ∧
    (ExportCSVFile
        (flashImage [0x55, 0xAA, 0x00, 21, 12, 11, 23, 30, 11, 0x55, 0xAA, 2, 0x01, 0x00, 0x05,
          0xFF])
        ⟨0, 0, 0, 0, 0, 0, 0⟩ []).map (fun s => s.formatted) = .error .outOfBounds ∧
    theMonths[0]? = some "Jan" ∧ theMonths[12]? = none := by
  refine ⟨by decide!, by decide!, by decide!, by decide, by decide⟩

/-! ### C16: the byte dispatched as a header -/

/-- C16 (failing input): the image `55 AA | 07 | 09 | FF FF`, the rest of the flash being
erased.  The byte `07` is dispatched as a frame header and is none of `00`, `01`, `02`, `55`,
`FF`; the bare run that begins there yields the single observation 9 in both decoders, the
header byte 7 itself is not emitted. -/
theorem C16_header_byte_of_a_bare_run_is_not_emitted :
    (ExtractClicksPerMinuteFromRawData (flashImage [0x55, 0xAA, 0x07, 0x09, 0xFF, 0xFF]) []).map
        (fun s => s.listCPMData) = .ok [9] ∧
    (ExportCSVFile (flashImage [0x55, 0xAA, 0x07, 0x09, 0xFF, 0xFF])
        ⟨0, 0, 0, 0, 0, 0, 0⟩ []).map
        (fun s => (s.formatted.map (fun r => r.count), s.written.map (fun r => r.count))) =
      .ok ([9], [9]) := by
  refine ⟨by decide!, by decide!⟩

/-! ### C17: a frame marker in header position -/

/-- C17 (counterexample): `markerAtEndImage` is the leading marker, whole frames and markers
up to index 65532, and a frame marker whose bytes `0x55` and `0xAA` are the last two cells of
the array, indices 65533 and 65534.  A decode loop that stands at 65533 reads the `0x55` in
header position (65533 is the only header index of the rest of the run), moves the cursor to
65534 and stops there: the guard `currentImageIndex < MAX_FLASH_MEMORY - 1` of the inner loop
keeps it from passing the `0xAA`, so one marker byte is consumed, not two, and no byte at
`i + 2` is dispatched.  Both decoders, run from the start of the image, end in this way, with
the cursor at 65534 and the end-of-data flag false. -/
theorem C17_marker_in_the_last_two_cells :
    markerAtEndImage.length = MAX_FLASH_MEMORY ∧
    markerAtEndImage.drop 65533 = [RawDataTerm1, RawDataTerm2] ∧
    (∀ (s : ExportState) (fuel : Nat), s.currentImageIndex = 65533 →
      s.endOfValidData = false →
      exportLoop markerAtEndImage (fuel + 2) s = .ok { s with currentImageIndex := 65534 } ∧
      exportHeaderIndices markerAtEndImage (fuel + 2) s = [65533]) ∧
    (∀ (x : ExtractState) (fuel : Nat), x.currentImageIndex = 65533 →
      x.endOfValidData = false →
      extractLoop markerAtEndImage (fuel + 2) x = .ok { x with currentImageIndex := 65534 } ∧
      extractHeaderIndices markerAtEndImage (fuel + 2) x = [65533]) ∧
    (ExtractClicksPerMinuteFromRawData markerAtEndImage []).map
        (fun s => (s.endOfValidData, s.currentImageIndex)) = .ok (false, 65534) ∧
    (ExportCSVFile markerAtEndImage ⟨0, 0, 0, 0, 0, 0, 0⟩ []).map
        (fun s => (s.endOfValidData, s.currentImageIndex)) = .ok (false, 65534) := by
  obtain ⟨ps, himg, hbytes, hlen, hwf, hmonth⟩ := markerAtEndImage_shape
  have hprelen : ([RawDataTerm1, RawDataTerm2] ++ piecesBytes ps).length = 65533 := by
    simp only [List.length_append, hbytes, List.length_cons, List.length_nil]
  have htail : holdsAt markerAtEndImage 65533 [RawDataTerm1, RawDataTerm2] := by
    have h := holdsAt_middle ([RawDataTerm1, RawDataTerm2] ++ piecesBytes ps)
      [RawDataTerm1, RawDataTerm2] []
    rw [List.append_nil, hprelen, ← himg] at h
    exact h
  have hb0 : flashByte markerAtEndImage (MAX_FLASH_MEMORY - 2) = .ok RawDataTerm1 :=
    flashByte_of_holdsAt markerAtEndImage 65533 0 _ htail (by decide) (by decide)
  have hE : ∀ (s : ExportState) (fuel : Nat), s.currentImageIndex = 65533 →
      s.endOfValidData = false →
      exportLoop markerAtEndImage (fuel + 2) s = .ok { s with currentImageIndex := 65534 } ∧
      exportHeaderIndices markerAtEndImage (fuel + 2) s = [65533] :=
    fun s fuel hi hend => exportLoop_marker_at_bound markerAtEndImage s fuel hi hend hb0
  have hX : ∀ (x : ExtractState) (fuel : Nat), x.currentImageIndex = 65533 →
      x.endOfValidData = false →
      extractLoop markerAtEndImage (fuel + 2) x = .ok { x with currentImageIndex := 65534 } ∧
      extractHeaderIndices markerAtEndImage (fuel + 2) x = [65533] :=
    fun x fuel hi hend => extractLoop_marker_at_bound markerAtEndImage x fuel hi hend hb0
  refine ⟨?_, ?_, hE, hX, ?_, ?_⟩
  · rw [himg, List.length_append, hprelen]
    rfl
  · rw [himg]
    exact List.drop_left' hprelen
  · obtain ⟨s1, hi1, hend1, hstep1⟩ := extractLoop_pieces ps
      { currentImageIndex := 0 + 2, endOfValidData := false, listCPMData := [],
        ru16_Lowest := 0xFFFF, ru16_Highest := 0x0000 } rfl hwf
    have hrun := hstep1 markerAtEndImage 54614 (by rw [himg]; exact holdsAt_middle _ _ _)
      (by rw [hbytes]; decide)
    rw [hbytes] at hi1
    have hi1' : s1.currentImageIndex = 65533 := hi1
    have hfuel : MAX_FLASH_MEMORY = 54614 + ps.length := by rw [hlen]; rfl
    unfold ExtractClicksPerMinuteFromRawData
    rw [hfuel, hrun, (hX s1 54612 hi1' hend1).1]
    simp only [Except.map, hend1]
  · obtain ⟨s1, hi1, hend1, _, hstep1⟩ := exportLoop_pieces (Piece.marker :: ps)
      (exportStart ⟨0, 0, 0, 0, 0, 0, 0⟩ []) rfl
      (fun p hp => by
        rcases List.mem_cons.1 hp with hp | hp
        · subst hp; trivial
        · exact hwf p hp)
      (fun p hp => by
        rcases List.mem_cons.1 hp with hp | hp
        · subst hp; trivial
        · exact hmonth p hp)
    have hlen2 : (piecesBytes (Piece.marker :: ps)).length = 65533 := by
      simp only [piecesBytes, Piece.bytes, List.length_append, hbytes, List.length_cons,
        List.length_nil]
    have hold : holdsAt markerAtEndImage 0 (piecesBytes (Piece.marker :: ps)) := by
      rw [himg]
      exact holdsAt_middle [] _ [RawDataTerm1, RawDataTerm2]
    have hrun := hstep1 markerAtEndImage 54613 hold (by rw [hlen2]; decide)
    rw [hlen2] at hi1
    have hi1' : s1.currentImageIndex = 65533 := hi1
    have hfuel2 : MAX_FLASH_MEMORY = 54613 + (Piece.marker :: ps).length := by
      rw [List.length_cons, hlen]; rfl
    unfold ExportCSVFile
    rw [hfuel2, hrun, (hE s1 54611 hi1' hend1).1]
    simp only [Except.map, hend1]

/-- C17 (amended): let the image hold `0x55` at an index `i` and `0xAA` at `i + 1`, with
`i + 1` below the loop bound `MAX_FLASH_MEMORY - 1`.  In both decoders the switch, entered
with the `0x55` as header byte, changes nothing but the cursor, which it moves from `i + 1` to
`i + 2`: nothing is emitted and exactly the two marker bytes are consumed.  A decode loop that
stands at `i` with the end-of-data flag false dispatches the byte at `i` and then, when
`i + 2` is below the loop bound, the byte at `i + 2`; when `i + 2` is the loop bound it stops
with the cursor there. -/
theorem C17_marker_in_header_position (img : Image) (fuel i : Nat) (s : ExportState)
    (x : ExtractState) (hs : s.currentImageIndex = i) (hx : x.currentImageIndex = i)
    (hsend : s.endOfValidData = false) (hxend : x.endOfValidData = false)
    (hfit : i + 1 < MAX_FLASH_MEMORY - 1)
    (h0 : flashByte img i = .ok RawDataTerm1) (h1 : flashByte img (i + 1) = .ok RawDataTerm2) :
    exportDispatch img RawDataTerm1 { s with currentImageIndex := i + 1 } =
      .ok { s with currentImageIndex := i + 2 } ∧
    extractDispatch img RawDataTerm1 { x with currentImageIndex := i + 1 } =
      .ok { x with currentImageIndex := i + 2 } ∧
    (exportHeaderIndices img (fuel + 2) s).take 2 =
      (if i + 2 < MAX_FLASH_MEMORY - 1 then [i, i + 2] else [i]) ∧
    (extractHeaderIndices img (fuel + 2) x).take 2 =
      (if i + 2 < MAX_FLASH_MEMORY - 1 then [i, i + 2] else [i]) ∧
    (¬ i + 2 < MAX_FLASH_MEMORY - 1 →
      exportLoop img (fuel + 2) s = .ok { s with currentImageIndex := i + 2 } ∧
      extractLoop img (fuel + 2) x = .ok { x with currentImageIndex := i + 2 }) := by
  subst hs
  have hlt : s.currentImageIndex < MAX_FLASH_MEMORY - 1 := by omega
  have hltx : x.currentImageIndex < MAX_FLASH_MEMORY - 1 := by rw [hx]; exact hlt
  have hdE : exportDispatch img RawDataTerm1
      { s with currentImageIndex := s.currentImageIndex + 1 } =
      .ok { s with currentImageIndex := s.currentImageIndex + 2 } := by
    unfold exportDispatch
    simp only [if_true, h1]
    rw [if_pos (And.intro (differsFromTerm2_always _) hfit)]
  have hdX : extractDispatch img RawDataTerm1
      { x with currentImageIndex := s.currentImageIndex + 1 } =
      .ok { x with currentImageIndex := s.currentImageIndex + 2 } := by
    unfold extractDispatch
    simp only [RawDataTerm1, RawDataHeaderTimestamp, RawDataHeaderCPSIsDoubleByte,
      RawDataHeaderCPSLocationData, Nat.reduceEqDiff, if_false, if_true]
    have h1' : flashByte img (s.currentImageIndex + 1) = .ok 170 := h1
    simp only [h1']
    rw [if_pos (And.intro (differsFromTerm2_always _) hfit)]
  have hdX' : extractDispatch img RawDataTerm1
      { x with currentImageIndex := x.currentImageIndex + 1 } =
      .ok { x with currentImageIndex := s.currentImageIndex + 2 } := by
    rw [hx]; exact hdX
  have h0x : flashByte img x.currentImageIndex = .ok RawDataTerm1 := by rw [hx]; exact h0
  refine ⟨hdE, hdX, ?_, ?_, ?_⟩
  · rw [exportHeaderIndices, if_pos (And.intro hlt hsend)]
    simp only [h0, hdE]
    by_cases hnext : s.currentImageIndex + 2 < MAX_FLASH_MEMORY - 1
    · rw [if_pos hnext, exportHeaderIndices, if_pos (And.intro hnext hsend)]
      simp only []
      rw [flashByte_inside img _ (by unfold MAX_FLASH_MEMORY at hnext ⊢; omega)]
      simp only []
      split <;> rfl
    · rw [if_neg hnext, exportHeaderIndices, if_neg (fun h => hnext h.1)]
      rfl
  · rw [extractHeaderIndices, if_pos (And.intro hltx hxend)]
    simp only [h0x, hdX']
    by_cases hnext : s.currentImageIndex + 2 < MAX_FLASH_MEMORY - 1
    · rw [if_pos hnext, extractHeaderIndices, if_pos (And.intro hnext hxend)]
      simp only []
      rw [flashByte_inside img _ (by unfold MAX_FLASH_MEMORY at hnext ⊢; omega)]
      simp only []
      rw [hx]
      split <;> rfl
    · rw [if_neg hnext, extractHeaderIndices, if_neg (fun h => hnext h.1)]
      rw [hx]
      rfl
  · intro hnext
    constructor
    · rw [exportLoop, if_pos (And.intro hlt hsend)]
      simp only [h0, hdE]
      rw [exportLoop, if_neg (fun h => hnext h.1)]
    · rw [extractLoop, if_pos (And.intro hltx hxend)]
      simp only [h0x, hdX']
      rw [extractLoop, if_neg (fun h => hnext h.1)]

/-- C17 (witness): the marker `55 AA` at index 2 of the image `55 AA 55 AA 01 00 05 FF`; the
switch moves the cursor from 3 to 4, and the loop dispatches the bytes at 2 and at 4. -/
theorem C17_marker_in_header_position_witness :
    exportDispatch (flashImage [0x55, 0xAA, 0x55, 0xAA, 0x01, 0x00, 0x05, 0xFF]) RawDataTerm1
        { exportStart ⟨0, 0, 0, 0, 0, 0, 0⟩ [] with currentImageIndex := 2 + 1 } =
      .ok { exportStart ⟨0, 0, 0, 0, 0, 0, 0⟩ [] with currentImageIndex := 2 + 2 } ∧
    extractDispatch (flashImage [0x55, 0xAA, 0x55, 0xAA, 0x01, 0x00, 0x05, 0xFF]) RawDataTerm1
        { currentImageIndex := 2 + 1, endOfValidData := false, listCPMData := [],
          ru16_Lowest := 0xFFFF, ru16_Highest := 0 } =
      .ok { currentImageIndex := 2 + 2, endOfValidData := false, listCPMData := [],
            ru16_Lowest := 0xFFFF, ru16_Highest := 0 } ∧
    (exportHeaderIndices (flashImage [0x55, 0xAA, 0x55, 0xAA, 0x01, 0x00, 0x05, 0xFF]) (5 + 2)
        { exportStart ⟨0, 0, 0, 0, 0, 0, 0⟩ [] with currentImageIndex := 2 }).take 2 =
      [2, 2 + 2] :=
  have h := C17_marker_in_header_position
    (flashImage [0x55, 0xAA, 0x55, 0xAA, 0x01, 0x00, 0x05, 0xFF]) 5 2
    { exportStart ⟨0, 0, 0, 0, 0, 0, 0⟩ [] with currentImageIndex := 2 }
    { currentImageIndex := 2, endOfValidData := false, listCPMData := [],
      ru16_Lowest := 0xFFFF, ru16_Highest := 0 } rfl rfl rfl rfl (by decide) (by decide!)
    (by decide!)
  ⟨h.1, h.2.1, h.2.2.1⟩

/-! ### C18: the bare run -/

/-- C18 (failing input): the image `55 AA | 07 | FF 09 80 | 55 AA | FF`, the rest of the flash
being erased.  The bare run starts at index `p = 3` and its terminator pair is at `q = 6`; the
cursor resumes at `q + 2 = 8` in both decoders and the EndOfData header there stops them (at
cursor 9).  `ExportCSVFile` emits the unsigned values 255, 9, 128 of the three bytes;
`ExtractClicksPerMinuteFromRawData` emits 65535, 9, 65408: it converts the plain (signed)
`char` to `ushort`, so a lone `0xFF` is not emitted as 255 and every byte from `0x80` on comes
out 65280 too high. -/
theorem C18_extract_sign_extends_bare_run_bytes :
    (ExportCSVFile (flashImage [0x55, 0xAA, 0x07, 0xFF, 0x09, 0x80, 0x55, 0xAA, 0xFF])
        ⟨0, 0, 0, 0, 0, 0, 0⟩ []).map
        (fun s => (s.formatted.map (fun r => r.count), s.currentImageIndex)) =
      .ok ([255, 9, 128], 9) ∧
    (ExtractClicksPerMinuteFromRawData
        (flashImage [0x55, 0xAA, 0x07, 0xFF, 0x09, 0x80, 0x55, 0xAA, 0xFF]) []).map
        (fun s => (s.listCPMData, s.currentImageIndex)) = .ok ([65535, 9, 65408], 9) := by
  refine ⟨by decide!, by decide!⟩

/-! ### C19: the lowest and the highest count -/

/-- C19: when `ExtractClicksPerMinuteFromRawData` has run on an image with `listCPMData` empty
at the start, and the list it leaves is not empty, the output `ru16_Lowest` is an entry of the
list that no entry is below and `ru16_Highest` an entry that no entry is above (the minimum and
the maximum of the list), so `ru16_Lowest ≤ ru16_Highest`; when the list is empty the outputs
are `0xFFFF` and 0. -/
theorem C19_lowest_and_highest_of_the_list (img : Image) (s : ExtractState)
    (h : ExtractClicksPerMinuteFromRawData img [] = .ok s) :
    (s.listCPMData ≠ [] →
      s.ru16_Lowest ∈ s.listCPMData ∧ (∀ c ∈ s.listCPMData, s.ru16_Lowest ≤ c) ∧
      s.ru16_Highest ∈ s.listCPMData ∧ (∀ c ∈ s.listCPMData, c ≤ s.ru16_Highest) ∧
      s.listCPMData.min? = some s.ru16_Lowest ∧ s.listCPMData.max? = some s.ru16_Highest ∧
      s.ru16_Lowest ≤ s.ru16_Highest) ∧
    (s.listCPMData = [] → s.ru16_Lowest = 0xFFFF ∧ s.ru16_Highest = 0) := by
  have hstart : ExtractState.extremes
      { currentImageIndex := 0 + 2
        endOfValidData := false
        listCPMData := []
        ru16_Lowest := 0xFFFF
        ru16_Highest := 0x0000 } :=
    ⟨fun _ => ⟨rfl, rfl⟩, fun hne => absurd rfl hne, fun c hc => by simp at hc⟩
  obtain ⟨hnil, hne, hall⟩ := extractLoop_extremes img _ _ s hstart h
  refine ⟨fun hl => ?_, hnil⟩
  obtain ⟨hlo, hhi⟩ := hne hl
  refine ⟨hlo, fun c hc => (hall c hc).1, hhi, fun c hc => (hall c hc).2.1, ?_, ?_,
    (hall _ hlo).2.1⟩
  · exact List.min?_eq_some_iff'.2 ⟨hlo, fun c hc => (hall c hc).1⟩
  · exact List.max?_eq_some_iff'.2 ⟨hhi, fun c hc => (hall c hc).2.1⟩

theorem C19_lowest_and_highest_of_the_list_witness :
    ExtractClicksPerMinuteFromRawData
        (flashImage [0x55, 0xAA, 0x01, 0x00, 0x07, 0x55, 0xAA, 0x01, 0x01, 0x2C, 0x55, 0xAA,
          0x01, 0x00, 0x09, 0xFF]) [] =
      .ok { currentImageIndex := 16, endOfValidData := true, listCPMData := [7, 300, 9],
            ru16_Lowest := 7, ru16_Highest := 300 } ∧
    ((([7, 300, 9] : List Nat) ≠ [] →
      7 ∈ [7, 300, 9] ∧ (∀ c ∈ [7, 300, 9], 7 ≤ c) ∧
      300 ∈ [7, 300, 9] ∧ (∀ c ∈ [7, 300, 9], c ≤ 300) ∧
      ([7, 300, 9] : List Nat).min? = some 7 ∧ ([7, 300, 9] : List Nat).max? = some 300 ∧
      7 ≤ 300) ∧
    (([7, 300, 9] : List Nat) = [] → 7 = 0xFFFF ∧ 300 = 0)) :=
  ⟨by decide!,
    C19_lowest_and_highest_of_the_list
      (flashImage [0x55, 0xAA, 0x01, 0x00, 0x07, 0x55, 0xAA, 0x01, 0x01, 0x2C, 0x55, 0xAA, 0x01,
        0x00, 0x09, 0xFF])
      { currentImageIndex := 16, endOfValidData := true, listCPMData := [7, 300, 9],
        ru16_Lowest := 7, ru16_Highest := 300 }
      (by decide!)⟩

/-! ### C20: the header record of the CSV file -/

/-- C20: let the decode loop of `ExportCSVFile` stop normally on the image `img` in state `t`,
whatever `labelString` held before.  When the loop has dispatched no Location frame, the CSV
file is `Date/Time,Counts` and a line feed followed by the records written.  When it has, and
`p` is the index of the header byte of the last Location frame dispatched, its text holding no
0 byte and every store made into `labelString` lying inside the array, the CSV file is that
text with every comma replaced by a space, then `,Counts` and a line feed, then the records
written: nothing of an earlier label is left in the header. -/
theorem C20_header_record_names_the_last_location (img : Image) (stale : StaleLocals)
    (labelStores : List (Nat × Nat)) (t : ExportState)
    (h : ExportCSVFile img stale labelStores = .ok t) :
    (lastLocationFrame img MAX_FLASH_MEMORY (exportStart stale labelStores) = none →
      exportedCSVFile t =
        .ok ("Date/Time" ++ ",Counts\n" ++ String.join (t.written.map OutputRecord.text))) ∧
    (∀ p, lastLocationFrame img MAX_FLASH_MEMORY (exportStart stale labelStores) = some p →
      (∀ b ∈ locationText img p, b ≠ 0) →
      (∀ w ∈ t.labelStores, w.1 < labelStringSize) →
      exportedCSVFile t =
        .ok (String.mk (((locationText img p).map labelChar).map Char.ofNat) ++ ",Counts\n" ++
          String.join (t.written.map OutputRecord.text))) := by
  obtain ⟨hnone, hsome⟩ := exportLoop_label img _ _ t h
  constructor
  · intro hl
    obtain ⟨hfound, _⟩ := hnone hl
    have hf : t.foundLocationString = false := hfound
    simp [exportedCSVFile, hf, WriteCSVHeaderRecord]
  · intro p hl hne _
    obtain ⟨hfound, pre, hstores⟩ := hsome p hl
    have hne' : ∀ b ∈ locationText img p, b % 256 ≠ 0 := by
      intro b hb
      have hlt : b < 256 := imageBytes_lt img _ _ b hb
      rw [Nat.mod_eq_of_lt hlt]
      exact hne b hb
    have hc := labelCString_location pre (locationText img p) hne'
    rw [← hstores] at hc
    simp only [exportedCSVFile, hfound, if_true, hc, WriteCSVHeaderRecord]

theorem C20_header_record_names_the_last_location_witness :
    lastLocationFrame
        (flashImage [0x55, 0xAA, 0x02, 0x03, 0x41, 0x2C, 0x42, 0x55, 0xAA, 0x02, 0x02, 0x48, 0x69,
          0x55, 0xAA, 0x01, 0x00, 0x05, 0xFF])
        MAX_FLASH_MEMORY (exportStart ⟨0, 0, 0, 0, 0, 0, 0⟩ [(0, 90), (1, 90), (2, 90), (3, 90)])
      = some 9 ∧
    locationText
        (flashImage [0x55, 0xAA, 0x02, 0x03, 0x41, 0x2C, 0x42, 0x55, 0xAA, 0x02, 0x02, 0x48, 0x69,
          0x55, 0xAA, 0x01, 0x00, 0x05, 0xFF]) 9 = [0x48, 0x69] ∧
    exportedCSVFile
        { currentImageIndex := 19, endOfValidData := true, foundLocationString := true,
          theYear := 0, theMonth := 0, theDay := 0, theHour := 0, theMinute := 0, theSecond := 0,
          theRecordRate := 0, currentTimestamp := "",
          labelStores := [(0, 90), (1, 90), (2, 90), (3, 90), (0, 65), (1, 44), (1, 32), (2, 66),
            (3, 0), (0, 72), (1, 105), (2, 0)],
          formatted := [{ timestamp := "", count := 5 }],
          written := [{ timestamp := "", count := 5 }] } = .ok "Hi,Counts\n,5\n" := by
  have h := (C20_header_record_names_the_last_location
    (flashImage [0x55, 0xAA, 0x02, 0x03, 0x41, 0x2C, 0x42, 0x55, 0xAA, 0x02, 0x02, 0x48, 0x69,
      0x55, 0xAA, 0x01, 0x00, 0x05, 0xFF])
    ⟨0, 0, 0, 0, 0, 0, 0⟩ [(0, 90), (1, 90), (2, 90), (3, 90)]
    { currentImageIndex := 19, endOfValidData := true, foundLocationString := true,
      theYear := 0, theMonth := 0, theDay := 0, theHour := 0, theMinute := 0, theSecond := 0,
      theRecordRate := 0, currentTimestamp := "",
      labelStores := [(0, 90), (1, 90), (2, 90), (3, 90), (0, 65), (1, 44), (1, 32), (2, 66),
        (3, 0), (0, 72), (1, 105), (2, 0)],
      formatted := [{ timestamp := "", count := 5 }],
      written := [{ timestamp := "", count := 5 }] }
    (by decide!)).2 9 (by decide!) (by decide!) (by decide!)
  exact ⟨by decide!, by decide!, h.trans (by decide!)⟩

/-! ### C21: the image buffer and the download -/

/-- C21 (failing input): the download loop of `AcquireAndStoreDeviceData` with any device that
delivers every block (`blocks a` for the address `a`) and an output file that takes every
write.  The array `entireFlashImage` has `MAX_FLASH_MEMORY = 65535` cells, indices 0 to 65534,
not 65536.  The loop makes 32 iterations; the blocks of its first 31 lie inside the array,
the block of the last one, at address `31 * 2048 = 63488`, ends at index 65535, one cell past
the array, so the copy of that block is a store outside the array. -/
theorem C21_last_block_overruns_the_image_buffer :
    entireFlashImageSize = 65535 ∧ downloadBlockCount = 32 ∧
    (∀ blockCount, blockCount < 31 →
      blockCount * MAX_DATA_READ_BLOCK_SIZE + MAX_DATA_READ_BLOCK_SIZE ≤ entireFlashImageSize) ∧
    31 * MAX_DATA_READ_BLOCK_SIZE + MAX_DATA_READ_BLOCK_SIZE = entireFlashImageSize + 1 ∧
    (∀ (entireFlashImage : Image) (receivedData : List Nat),
      storeBlock entireFlashImage (31 * MAX_DATA_READ_BLOCK_SIZE) receivedData =
        .error .outOfBounds) ∧
    (∀ (blocks : Nat → List Nat) (g : Globals),
      AcquireAndStoreDeviceData (fun a => some (blocks a)) (fun _ => true) g =
        .error .outOfBounds) := by
  refine ⟨rfl, rfl, ?_, rfl, ?_, ?_⟩
  · intro blockCount h
    unfold MAX_DATA_READ_BLOCK_SIZE entireFlashImageSize MAX_FLASH_MEMORY
    omega
  · intro entireFlashImage receivedData
    unfold storeBlock
    rw [if_neg (by decide)]
  · intro blocks g
    unfold AcquireAndStoreDeviceData
    rw [acquireLoop_overrun blocks downloadBlockCount 0 g.entireFlashImage (by decide)
      (by decide)]

/-! ### C22: the carry of the tick -/

/-- C22: the clock update `tick` of the bare-run loop of `ExportCSVFile` leaves the second,
the month and the year of every state as they are.  It adds one to a minute below 59.  From
minute 59 it sets the minute to 0 and adds one to the hour when the hour is below 59, so that
hour 23 becomes hour 24 and the day stays; only from hour 59 does it set the hour to 0 and add
one to the day.  The loop applies it once for every sample (every index up to the loop bound
begins a bare run of some number of samples): entered on a bare run of `n` samples, it
returns (whenever the month in use is an index into `theMonths`, or the run is
empty), and the state it returns holds the day, hour and minute that `n` ticks make of those
it was entered with, and the same second, month and year. -/
theorem C22_hour_is_carried_at_sixty (img : Image) (fuel n : Nat) (s : ExportState)
    (hrun : bareRunAt img s.currentImageIndex n) (hfuel : n < fuel) :
    (∀ t : ExportState,
      t.tick.theSecond = t.theSecond ∧ t.tick.theMonth = t.theMonth ∧
      t.tick.theYear = t.theYear ∧
      (t.theMinute < 59 →
        t.tick.theMinute = t.theMinute + 1 ∧ t.tick.theHour = t.theHour ∧
          t.tick.theDay = t.theDay) ∧
      (t.theMinute = 59 → t.theHour < 59 →
        t.tick.theMinute = 0 ∧ t.tick.theHour = t.theHour + 1 ∧ t.tick.theDay = t.theDay) ∧
      (t.theMinute = 59 → t.theHour = 23 → t.tick.theHour = 24 ∧ t.tick.theDay = t.theDay) ∧
      (t.theMinute = 59 → t.theHour = 59 → t.theDay < 255 →
        t.tick.theMinute = 0 ∧ t.tick.theHour = 0 ∧ t.tick.theDay = t.theDay + 1)) ∧
    (∀ j, j ≤ MAX_FLASH_MEMORY - 1 → ∃ m, bareRunAt img j m) ∧
    (n = 0 ∨ s.theMonth < 12 → ∃ f, exportBareRun img fuel s = .ok f) ∧
    (∀ f, exportBareRun img fuel s = .ok f →
      f.theDay = (Nat.iterate ExportState.tick n s).theDay ∧
      f.theHour = (Nat.iterate ExportState.tick n s).theHour ∧
      f.theMinute = (Nat.iterate ExportState.tick n s).theMinute ∧
      f.theSecond = s.theSecond ∧ f.theMonth = s.theMonth ∧ f.theYear = s.theYear) := by
  refine ⟨fun t => ?_, fun j hj => bareRunAt_exists img (MAX_FLASH_MEMORY - 1 - j) j (by omega),
    fun hm => ?_, fun f hf => ?_⟩
  · obtain ⟨hm, hy, hsec, _⟩ := t.tick_fields
    refine ⟨hsec, hm, hy, tick_below_59 t, tick_at_59 t, fun h1 h2 => ?_, tick_at_59_59 t⟩
    obtain ⟨_, c2, c3⟩ := tick_at_59 t h1 (by omega)
    exact ⟨by rw [c2, h2], c3⟩
  · obtain ⟨f, _, hf, _⟩ := exportBareRun_run img n s fuel hfuel hrun hm
    exact ⟨f, hf⟩
  · obtain ⟨g, _, hg, _, hclock, _⟩ := exportBareRun_run img n s fuel hfuel hrun
      (exportBareRun_ok_month img n s f fuel hfuel hrun hf)
    rw [hg] at hf
    injection hf with hf
    subst hf
    obtain ⟨c1, c2, c3, c4, c5, c6⟩ := hclock
    obtain ⟨i1, i2, i3, _⟩ := ExportState.tick_iterate_fields n s
    exact ⟨c3, c4, c5, c6.trans i3, c2.trans i2, c1.trans i1⟩

/-- C22 (witness): a bare run of one sample (the byte 9 at index 13, followed by two `0xFF`)
entered at 23:59:11 of day 11 is left at hour 24, minute 0 of the same day. -/
theorem C22_hour_is_carried_at_sixty_witness :
    ∃ f, exportBareRun
        (flashImage [0x55, 0xAA, 0x00, 21, 3, 11, 23, 59, 11, 0x55, 0xAA, 2, 7, 9, 0xFF, 0xFF])
        5
        { exportStart ⟨21, 3, 11, 23, 59, 11, 2⟩ [] with
          currentImageIndex := 13, currentTimestamp := "11/Apr/21 23:59:11" } = .ok f ∧
      f.theDay = 11 ∧ f.theHour = 24 ∧ f.theMinute = 0 ∧ f.theSecond = 11 := by
  have h := C22_hour_is_carried_at_sixty
    (flashImage [0x55, 0xAA, 0x00, 21, 3, 11, 23, 59, 11, 0x55, 0xAA, 2, 7, 9, 0xFF, 0xFF]) 5 1
    { exportStart ⟨21, 3, 11, 23, 59, 11, 2⟩ [] with
      currentImageIndex := 13, currentTimestamp := "11/Apr/21 23:59:11" }
    (by decide!) (by decide)
  obtain ⟨f, hf⟩ := h.2.2.1 (Or.inr (by decide))
  obtain ⟨h1, h2, h3, h4, _⟩ := h.2.2.2 f hf
  exact ⟨f, hf, h1, h2, h3, h4⟩

/-! ### C23: the timestamp frame -/

/-- C23: let a Timestamp header stand at index `i`, its nine payload bytes lying inside the
array.  The switch of `ExtractClicksPerMinuteFromRawData`, entered with the cursor past the
header, moves the cursor to `i + 10`, past the nine payload bytes, and changes nothing else.
The switch of `ExportCSVFile` formats the timestamp text from payload bytes 0 to 5, indexing
`theMonths` with the month byte; when the month byte is below 12 it stores the payload bytes
0 to 5 and 8 in `theYear`, `theMonth`, `theDay`, `theHour`, `theMinute`, `theSecond` and
`theRecordRate`, keeps the text, moves the cursor to `i + 10` and changes nothing else (no
record is formatted or written); when the month byte is 12 or more, the read of `theMonths`
is past the end of the table.  The payload bytes 6 and 7 have no influence: an image that
differs in them only gives the same result. -/
theorem C23_timestamp_frame (img : Image) (i : Nat) (s : ExportState) (x : ExtractState)
    (hs : s.currentImageIndex = i + 1) (hx : x.currentImageIndex = i + 1)
    (hin : i + 9 < MAX_FLASH_MEMORY) :
    extractDispatch img RawDataHeaderTimestamp x = .ok { x with currentImageIndex := i + 10 } ∧
    exportDispatch img RawDataHeaderTimestamp s =
      (formatTimestamp (img.getD (i + 3) 0 % 256) (img.getD (i + 2) 0 % 256)
          (img.getD (i + 1) 0 % 256) (img.getD (i + 4) 0 % 256) (img.getD (i + 5) 0 % 256)
          (img.getD (i + 6) 0 % 256)).map
        (fun t => { s with
          currentImageIndex := i + 10
          theYear := img.getD (i + 1) 0 % 256
          theMonth := img.getD (i + 2) 0 % 256
          theDay := img.getD (i + 3) 0 % 256
          theHour := img.getD (i + 4) 0 % 256
          theMinute := img.getD (i + 5) 0 % 256
          theSecond := img.getD (i + 6) 0 % 256
          theRecordRate := img.getD (i + 9) 0 % 256
          currentTimestamp := t }) ∧
    (img.getD (i + 2) 0 % 256 < 12 →
      ∃ t, formatTimestamp (img.getD (i + 3) 0 % 256) (img.getD (i + 2) 0 % 256)
          (img.getD (i + 1) 0 % 256) (img.getD (i + 4) 0 % 256) (img.getD (i + 5) 0 % 256)
          (img.getD (i + 6) 0 % 256) = .ok t) ∧
    (12 ≤ img.getD (i + 2) 0 % 256 →
      exportDispatch img RawDataHeaderTimestamp s = .error .outOfBounds) ∧
    (∀ img' : Image, (∀ k, k ≠ i + 7 → k ≠ i + 8 → img'.getD k 0 = img.getD k 0) →
      exportDispatch img' RawDataHeaderTimestamp s =
        exportDispatch img RawDataHeaderTimestamp s) := by
  have key : ∀ im : Image, exportDispatch im RawDataHeaderTimestamp s =
      (formatTimestamp (im.getD (i + 3) 0 % 256) (im.getD (i + 2) 0 % 256)
          (im.getD (i + 1) 0 % 256) (im.getD (i + 4) 0 % 256) (im.getD (i + 5) 0 % 256)
          (im.getD (i + 6) 0 % 256)).map
        (fun t => { s with
          currentImageIndex := i + 10
          theYear := im.getD (i + 1) 0 % 256
          theMonth := im.getD (i + 2) 0 % 256
          theDay := im.getD (i + 3) 0 % 256
          theHour := im.getD (i + 4) 0 % 256
          theMinute := im.getD (i + 5) 0 % 256
          theSecond := im.getD (i + 6) 0 % 256
          theRecordRate := im.getD (i + 9) 0 % 256
          currentTimestamp := t }) := by
    intro im
    have b0 := flashByte_inside im (i + 1) (by omega)
    have b1 := flashByte_inside im (i + 1 + 1) (by omega)
    have b2 := flashByte_inside im (i + 1 + 2) (by omega)
    have b3 := flashByte_inside im (i + 1 + 3) (by omega)
    have b4 := flashByte_inside im (i + 1 + 4) (by omega)
    have b5 := flashByte_inside im (i + 1 + 5) (by omega)
    have b8 := flashByte_inside im (i + 1 + 8) (by omega)
    unfold exportDispatch
    simp only [RawDataHeaderTimestamp, RawDataTerm1, Nat.reduceEqDiff, if_false, if_true, hs,
      b0, b1, b2, b3, b4, b5, b8]
    simp only [Nat.add_assoc, Nat.reduceAdd]
    cases formatTimestamp (im.getD (i + 3) 0 % 256) (im.getD (i + 2) 0 % 256)
      (im.getD (i + 1) 0 % 256) (im.getD (i + 4) 0 % 256) (im.getD (i + 5) 0 % 256)
      (im.getD (i + 6) 0 % 256) <;> rfl
  refine ⟨?_, key img, fun hm => formatTimestamp_ok _ _ _ _ _ _ hm, fun hm => ?_,
    fun img' hsame => ?_⟩
  · unfold extractDispatch
    simp only [RawDataHeaderTimestamp, if_true, hx]
  · rw [key img]
    have hnone : theMonths[img.getD (i + 2) 0 % 256]? = none := by
      apply List.getElem?_eq_none
      simpa [theMonths] using hm
    unfold formatTimestamp
    rw [hnone]
    rfl
  · rw [key img', key img]
    rw [hsame (i + 1) (by omega) (by omega), hsame (i + 2) (by omega) (by omega),
      hsame (i + 3) (by omega) (by omega), hsame (i + 4) (by omega) (by omega),
      hsame (i + 5) (by omega) (by omega), hsame (i + 6) (by omega) (by omega),
      hsame (i + 9) (by omega) (by omega)]

/-- C23 (failing input): the Timestamp frame `00 | 16 0C 19 08 0F 00 | 07 07 | 02` (25
December 2022, 08:15:00) at index 2.  `ExtractClicksPerMinuteFromRawData` moves the cursor
from 3 to 12; `ExportCSVFile` reads `theMonths[12]`, past the end of the table. -/
theorem C23_timestamp_frame_witness :
    extractDispatch (flashImage [0x55, 0xAA, 0x00, 22, 12, 25, 8, 15, 0, 0x07, 0x07, 2, 0xFF])
        RawDataHeaderTimestamp
        { currentImageIndex := 2 + 1, endOfValidData := false, listCPMData := [],
          ru16_Lowest := 0xFFFF, ru16_Highest := 0 } =
      .ok { currentImageIndex := 2 + 10, endOfValidData := false, listCPMData := [],
            ru16_Lowest := 0xFFFF, ru16_Highest := 0 } ∧
    exportDispatch (flashImage [0x55, 0xAA, 0x00, 22, 12, 25, 8, 15, 0, 0x07, 0x07, 2, 0xFF])
        RawDataHeaderTimestamp
        { exportStart ⟨0, 0, 0, 0, 0, 0, 0⟩ [] with currentImageIndex := 2 + 1 } =
      .error .outOfBounds :=
  have h := C23_timestamp_frame
    (flashImage [0x55, 0xAA, 0x00, 22, 12, 25, 8, 15, 0, 0x07, 0x07, 2, 0xFF]) 2
    { exportStart ⟨0, 0, 0, 0, 0, 0, 0⟩ [] with currentImageIndex := 2 + 1 }
    { currentImageIndex := 2 + 1, endOfValidData := false, listCPMData := [],
      ru16_Lowest := 0xFFFF, ru16_Highest := 0 } rfl rfl (by decide)
  ⟨h.1, h.2.2.2.1 (by decide!)⟩

/-! ### C24: the value of a super-high entry -/

/-- C24: for every list `l` of 16-bit counts, the scan leaves in
`listSuperHighEventIndexValues` what it held before followed by one entry for each complete
block whose truncated average is at least `U` and at least `S`, in order, that entry being
the count of the block's last sample minus 10 taken modulo `2^32`.  The entry a block gets is
the same wherever the block stands: after any number `m` of complete blocks `pre`, a block
`b` adds the entry computed from `b` alone, or nothing.  For a count `c` the entry is `c - 10`
when `c` is at least 10 and `c + 4294967286` (a wrap-around) when it is below. -/
theorem C24_super_high_entry_is_the_last_count_minus_ten (U S : Nat)
    (l superHigh : List Nat) (hbits : ∀ c ∈ l, c < 65536) :
    (scanTenMinuteIntervals U S l superHigh).listSuperHighEventIndexValues =
      superHigh ++ superHighEntries U S l (l.length / 10) ∧
    (∀ (m : Nat) (pre b : List Nat), l = pre ++ b → pre.length = 10 * m → b.length = 10 →
      (scanTenMinuteIntervals U S l superHigh).listSuperHighEventIndexValues =
        (scanTenMinuteIntervals U S pre superHigh).listSuperHighEventIndexValues ++
          (if b.sum / 10 ≥ U ∧ b.sum / 10 ≥ S then [toUlong ((b.getD 9 0 : Nat) - 10)]
            else [])) ∧
    (∀ c : Nat, c < 65536 →
      toUlong ((c : Nat) - 10) = if 10 ≤ c then c - 10 else c + 4294967286) := by
  refine ⟨?_, ?_, ?_⟩
  · exact scan_superHigh U S l.length l (scanStart superHigh) rfl rfl rfl hbits
  · intro m pre b hl hpre hb
    subst hl
    have hbp : ∀ c ∈ pre, c < 65536 := fun c hc => hbits c (List.mem_append_left _ hc)
    have hbb : ∀ c ∈ b, c < 65536 := fun c hc => hbits c (List.mem_append_right _ hc)
    obtain ⟨h1, h2⟩ := scan_blocks_boundary U S m pre (scanStart superHigh) hpre rfl rfl hbp
    unfold scanTenMinuteIntervals
    rw [List.foldl_append]
    exact scan_block_superHigh U S b _ hb h1 h2 hbb
  · intro c hc
    unfold toUlong
    split <;> omega

theorem C24_super_high_entry_is_the_last_count_minus_ten_witness :
    (scanTenMinuteIntervals 0 0 (List.replicate 10 5 ++ List.replicate 10 50)
        [7]).listSuperHighEventIndexValues =
      [7] ++ superHighEntries 0 0 (List.replicate 10 5 ++ List.replicate 10 50) (20 / 10) ∧
    superHighEntries 0 0 (List.replicate 10 5 ++ List.replicate 10 50) (20 / 10) =
      [4294967291, 40] :=
  ⟨(C24_super_high_entry_is_the_last_count_minus_ten 0 0
      (List.replicate 10 5 ++ List.replicate 10 50) [7] (by decide)).1, by decide⟩

/-! ### C25: scanning twice -/

/-- C25 (failing input): the downloaded image is the leading marker, the byte `07`, twenty
samples 1, ten samples 40 and two `0xFF` bytes, the rest of the flash being erased.  The first
call of `ScanRawDataForHighPeriods` reports 30 observations, the lowest count 1, the highest
40 and one super-high event.  A second call on the resulting variables reports 30
observations again, but the lowest and highest counts 0 and 0, and two super-high events. -/
theorem C25_second_scan_reports_other_extremes_and_events :
    (ScanRawDataForHighPeriods id
        { entireFlashImage :=
            flashImage ([0x55, 0xAA, 0x07] ++ List.replicate 20 1 ++ List.replicate 10 40 ++
              [0xFF, 0xFF])
          hasRawData := true
          hasClicksPerMinute := false
          listCPMData := []
          listSuperHighEventIndexValues := [] }).map (fun out => out.2) =
      .ok [ConsoleLine.extractingClicks, ConsoleLine.elementCount 30, ConsoleLine.average 14,
        ConsoleLine.lowestHighest 1 40, ConsoleLine.thresholds 610690688 36,
        ConsoleLine.searching, ConsoleLine.highInterval 29 20 40, ConsoleLine.superHighEvents 1,
        ConsoleLine.blankLines] ∧
    ((ScanRawDataForHighPeriods id
        { entireFlashImage :=
            flashImage ([0x55, 0xAA, 0x07] ++ List.replicate 20 1 ++ List.replicate 10 40 ++
              [0xFF, 0xFF])
          hasRawData := true
          hasClicksPerMinute := false
          listCPMData := []
          listSuperHighEventIndexValues := [] }).bind
        (fun out => ScanRawDataForHighPeriods id out.1)).map (fun out => out.2) =
      .ok [ConsoleLine.extractingClicks, ConsoleLine.elementCount 30, ConsoleLine.average 14,
        ConsoleLine.lowestHighest 0 0, ConsoleLine.thresholds 610690688 36,
        ConsoleLine.searching, ConsoleLine.highInterval 29 20 40, ConsoleLine.superHighEvents 2,
        ConsoleLine.blankLines] := by
  refine ⟨by decide!, by decide!⟩

/-! ### C26: the two decoders -/

/-- C26 (failing input): the image `55 AA | 07 | C8 | FF FF`, the rest of the flash being
erased, begins with the frame marker.  `ExportCSVFile` decodes the one count 200 (the byte
`C8` cast to `uchar`); `ExtractClicksPerMinuteFromRawData`, started from an empty list, builds
the list holding 65480 (the same byte converted to `ushort` as a signed `char`). -/
theorem C26_decoders_differ_on_bytes_from_0x80 :
    (ExportCSVFile (flashImage [0x55, 0xAA, 0x07, 0xC8, 0xFF, 0xFF])
        ⟨0, 0, 0, 0, 0, 0, 0⟩ []).map (fun s => s.formatted.map (fun r => r.count)) =
      .ok [200] ∧
    (ExtractClicksPerMinuteFromRawData (flashImage [0x55, 0xAA, 0x07, 0xC8, 0xFF, 0xFF]) []).map
        (fun s => s.listCPMData) = .ok [65480] := by
  refine ⟨by decide!, by decide!⟩

/-! ### C27: termination of the decode loops -/

/-- C27: for every image, whatever the variables hold at the start.  Neither decoder exhausts
its budget of `MAX_FLASH_MEMORY` iterations, for the outer loop or for any bare-run loop: each
run ends with a final state or at a read outside an array.  The indices at which a loop reads
a header byte increase strictly from one iteration to the next and are all below
`MAX_FLASH_MEMORY - 1`.  A loop that stops normally has the end-of-data flag set or its cursor
at `MAX_FLASH_MEMORY - 1` or beyond, and a loop entered in such a state stops at once.  An
iteration of a bare-run loop either stops the loop two bytes further (a terminator pair) or
goes on one byte further (in `ExportCSVFile`, unless the month in use is no index into
`theMonths`). -/
theorem C27_decode_loops_terminate (img : Image) (listCPMData : List Nat)
    (stale : StaleLocals) (labelStores : List (Nat × Nat)) :
    (ExtractClicksPerMinuteFromRawData img listCPMData ≠ .error .outOfFuel ∧
      ExportCSVFile img stale labelStores ≠ .error .outOfFuel) ∧
    ((extractHeaderIndices img MAX_FLASH_MEMORY
        { currentImageIndex := 0 + 2, endOfValidData := false, listCPMData := listCPMData,
          ru16_Lowest := 0xFFFF, ru16_Highest := 0x0000 }).Pairwise (fun p q => p < q) ∧
      (exportHeaderIndices img MAX_FLASH_MEMORY (exportStart stale labelStores)).Pairwise
        (fun p q => p < q)) ∧
    ((∀ p ∈ extractHeaderIndices img MAX_FLASH_MEMORY
        { currentImageIndex := 0 + 2, endOfValidData := false, listCPMData := listCPMData,
          ru16_Lowest := 0xFFFF, ru16_Highest := 0x0000 }, p < MAX_FLASH_MEMORY - 1) ∧
      (∀ p ∈ exportHeaderIndices img MAX_FLASH_MEMORY (exportStart stale labelStores),
        p < MAX_FLASH_MEMORY - 1)) ∧
    ((∀ t, ExtractClicksPerMinuteFromRawData img listCPMData = .ok t →
        t.endOfValidData = true ∨ MAX_FLASH_MEMORY - 1 ≤ t.currentImageIndex) ∧
      (∀ t, ExportCSVFile img stale labelStores = .ok t →
        t.endOfValidData = true ∨ MAX_FLASH_MEMORY - 1 ≤ t.currentImageIndex)) ∧
    ((∀ (fuel : Nat) (x : ExtractState),
        x.endOfValidData = true ∨ MAX_FLASH_MEMORY - 1 ≤ x.currentImageIndex →
        extractLoop img (fuel + 1) x = .ok x) ∧
      (∀ (fuel : Nat) (s : ExportState),
        s.endOfValidData = true ∨ MAX_FLASH_MEMORY - 1 ≤ s.currentImageIndex →
        exportLoop img (fuel + 1) s = .ok s)) ∧
    ((∀ (x : ExtractState), extractBareRun img MAX_FLASH_MEMORY x ≠ .error .outOfFuel) ∧
      (∀ (s : ExportState), exportBareRun img MAX_FLASH_MEMORY s ≠ .error .outOfFuel)) ∧
    ((∀ (fuel : Nat) (x : ExtractState) (testbyte1 testbyte2 : Nat),
        x.currentImageIndex < MAX_FLASH_MEMORY - 1 →
        flashByte img x.currentImageIndex = .ok testbyte1 →
        flashByte img (x.currentImageIndex + 1) = .ok testbyte2 →
        extractBareRun img (fuel + 1) x =
            .ok { x with currentImageIndex := x.currentImageIndex + 2 } ∨
          ∃ x', extractBareRun img (fuel + 1) x = extractBareRun img fuel x' ∧
            x'.currentImageIndex = x.currentImageIndex + 1) ∧
      (∀ (fuel : Nat) (s : ExportState) (testbyte1 testbyte2 : Nat),
        s.currentImageIndex < MAX_FLASH_MEMORY - 1 →
        flashByte img s.currentImageIndex = .ok testbyte1 →
        flashByte img (s.currentImageIndex + 1) = .ok testbyte2 →
        s.theMonth < 12 →
        exportBareRun img (fuel + 1) s =
            .ok { s with currentImageIndex := s.currentImageIndex + 2 } ∨
          ∃ s', exportBareRun img (fuel + 1) s = exportBareRun img fuel s' ∧
            s'.currentImageIndex = s.currentImageIndex + 1)) := by
  refine ⟨⟨?_, ?_⟩, ⟨?_, ?_⟩, ⟨?_, ?_⟩, ⟨?_, ?_⟩, ⟨?_, ?_⟩, ⟨?_, ?_⟩, ⟨?_, ?_⟩⟩
  · exact extractLoop_budget img _ _
      (by show MAX_FLASH_MEMORY - 1 - (0 + 2) < MAX_FLASH_MEMORY; decide)
  · exact exportLoop_budget img _ _
      (by show MAX_FLASH_MEMORY - 1 - 0 < MAX_FLASH_MEMORY; decide)
  · exact extractHeaderIndices_increasing img _ _
  · exact exportHeaderIndices_increasing img _ _
  · exact fun p hp => (extractHeaderIndices_bound img _ _ p hp).2
  · exact fun p hp => (exportHeaderIndices_bound img _ _ p hp).2
  · exact fun t h => extractLoop_final img _ _ t h
  · exact fun t h => exportLoop_final img _ _ t h
  · intro fuel x hx
    have hcond : ¬ (x.currentImageIndex < MAX_FLASH_MEMORY - 1 ∧ x.endOfValidData = false) := by
      rintro ⟨h1, h2⟩
      rcases hx with hx | hx
      · rw [h2] at hx
        cases hx
      · omega
    rw [extractLoop, if_neg hcond]
  · intro fuel s hs
    have hcond : ¬ (s.currentImageIndex < MAX_FLASH_MEMORY - 1 ∧ s.endOfValidData = false) := by
      rintro ⟨h1, h2⟩
      rcases hs with hs | hs
      · rw [h2] at hs
        cases hs
      · omega
    rw [exportLoop, if_neg hcond]
  · exact fun x => extractBareRun_budget img _ x (by unfold MAX_FLASH_MEMORY; omega)
  · exact fun s => exportBareRun_budget img _ s (by unfold MAX_FLASH_MEMORY; omega)
  · intro fuel x testbyte1 testbyte2 hlt h1 h2
    by_cases hmarker : testbyte1 = RawDataTerm1 ∧ testbyte2 = RawDataTerm2
    · left
      rw [extractBareRun]
      simp only [hlt, if_true, h1, h2, hmarker, and_self]
    · by_cases hend : testbyte1 = RawDataHeaderEndOfData ∧ testbyte2 = RawDataHeaderEndOfData
      · left
        rw [extractBareRun]
        simp only [hlt, if_true, h1, h2, hend]
        split <;> rfl
      · right
        exact ⟨_, extractBareRun_sample img fuel x testbyte1 testbyte2 hlt h1 h2 hmarker hend,
          rfl⟩
  · intro fuel s testbyte1 testbyte2 hlt h1 h2 hmonth
    by_cases hmarker : testbyte1 = RawDataTerm1 ∧ testbyte2 = RawDataTerm2
    · left
      rw [exportBareRun]
      simp only [hlt, if_true, h1, h2, hmarker, and_self]
    · by_cases hend : testbyte1 = RawDataHeaderEndOfData ∧ testbyte2 = RawDataHeaderEndOfData
      · left
        rw [exportBareRun]
        simp only [hlt, if_true, h1, h2, hend]
        split <;> rfl
      · right
        obtain ⟨t, _, hstep⟩ := exportBareRun_sample img fuel s testbyte1 testbyte2 hlt h1 h2
          hmarker hend hmonth
        exact ⟨_, hstep, rfl⟩

theorem C27_decode_loops_terminate_witness :
    ExtractClicksPerMinuteFromRawData (flashImage [0x55, 0xAA, 0x07, 0x09, 0x0A, 0xFF, 0xFF])
        [] ≠ .error .outOfFuel ∧
    ExportCSVFile (flashImage [0x55, 0xAA, 0x07, 0x09, 0x0A, 0xFF, 0xFF])
        ⟨0, 0, 0, 0, 0, 0, 0⟩ [] ≠ .error .outOfFuel ∧
    (extractBareRun (flashImage [0x55, 0xAA, 0x07, 0x09, 0x0A, 0xFF, 0xFF]) (5 + 1)
          { currentImageIndex := 3, endOfValidData := false, listCPMData := [],
            ru16_Lowest := 0xFFFF, ru16_Highest := 0 } =
        .ok { currentImageIndex := 3 + 2, endOfValidData := false, listCPMData := [],
              ru16_Lowest := 0xFFFF, ru16_Highest := 0 } ∨
      ∃ x', extractBareRun (flashImage [0x55, 0xAA, 0x07, 0x09, 0x0A, 0xFF, 0xFF]) (5 + 1)
          { currentImageIndex := 3, endOfValidData := false, listCPMData := [],
            ru16_Lowest := 0xFFFF, ru16_Highest := 0 } =
          extractBareRun (flashImage [0x55, 0xAA, 0x07, 0x09, 0x0A, 0xFF, 0xFF]) 5 x' ∧
        x'.currentImageIndex = 3 + 1) :=
  have h := C27_decode_loops_terminate
    (flashImage [0x55, 0xAA, 0x07, 0x09, 0x0A, 0xFF, 0xFF]) [] ⟨0, 0, 0, 0, 0, 0, 0⟩ []
  ⟨h.1.1, h.1.2,
    h.2.2.2.2.2.2.1 5
      { currentImageIndex := 3, endOfValidData := false, listCPMData := [],
        ru16_Lowest := 0xFFFF, ru16_Highest := 0 } 9 10 (by decide) (by decide!) (by decide!)⟩

/-! ### C28: `stristr` -/

/-- C28: for all NUL-terminated strings `str1` and `str2` (lists of characters 1 to 255),
`stristr(str1, str2)` ends within its loop budget without reading outside the strings.  It
returns the pointer `str1 + k` exactly when `k` is the leftmost offset at which `str2` occurs
in `str1`, ASCII case ignored, and NULL exactly when `str2` occurs at no offset; for an empty
`str2` it returns `str1` itself. -/
theorem C28_stristr_returns_the_leftmost_occurrence (str1 str2 : List Nat)
    (h1 : ∀ c ∈ str1, 0 < c ∧ c < 256) (h2 : ∀ c ∈ str2, 0 < c ∧ c < 256) :
    (∃ r, stristr str1 str2 = .ok r) ∧
    (∀ k, stristr str1 str2 = .ok (some k) ↔
      (occursAt str1 str2 k ∧ ∀ k', k' < k → ¬ occursAt str1 str2 k')) ∧
    (stristr str1 str2 = .ok none ↔ ∀ k, ¬ occursAt str1 str2 k) ∧
    (str2 = [] → stristr str1 str2 = .ok (some 0)) := by
  have hocc0 : str2 = [] → occursAt str1 str2 0 := by
    intro hnil
    subst hnil
    exact ⟨by simp, fun j hj => by simp at hj⟩
  rcases stristr_spec str1 str2 (fun c hc => (h1 c hc).1) (fun c hc => (h2 c hc).1) with
    ⟨q, hres, hocc, hleft⟩ | ⟨hres, hnone⟩
  · refine ⟨⟨_, hres⟩, ?_, ?_, ?_⟩
    · intro k
      constructor
      · intro hk
        rw [hres] at hk
        injection hk with hk
        injection hk with hk
        subst hk
        exact ⟨hocc, hleft⟩
      · rintro ⟨hk, hkleft⟩
        have hkq : k = q := by
          by_contra hne
          rcases Nat.lt_or_gt_of_ne hne with hlt | hgt
          · exact hleft k hlt hk
          · exact hkleft q hgt hocc
        rw [hkq]
        exact hres
    · constructor
      · intro hn
        rw [hres] at hn
        injection hn with hn
        cases hn
      · intro hn
        exact absurd hocc (hn q)
    · intro hnil
      have hq0 : q = 0 := by
        by_contra hne
        exact hleft 0 (Nat.pos_of_ne_zero hne) (hocc0 hnil)
      rw [← hq0]
      exact hres
  · refine ⟨⟨_, hres⟩, ?_, ?_, ?_⟩
    · intro k
      constructor
      · intro hk
        rw [hres] at hk
        injection hk with hk
        cases hk
      · rintro ⟨hk, _⟩
        exact absurd hk (hnone k)
    · exact ⟨fun _ => hnone, fun _ => hres⟩
    · intro hnil
      exact absurd (hocc0 hnil) (hnone 0)

theorem C28_stristr_returns_the_leftmost_occurrence_witness :
    stristr [92, 68, 101, 118, 105, 99, 101, 92, 83, 101, 114, 105, 97, 108, 48]
        [115, 101, 114, 105, 97, 108] = .ok (some 8) ∧
    (stristr [92, 68, 101, 118, 105, 99, 101, 92, 83, 101, 114, 105, 97, 108, 48]
        [115, 101, 114, 105, 97, 108] = .ok (some 8) ↔
      (occursAt [92, 68, 101, 118, 105, 99, 101, 92, 83, 101, 114, 105, 97, 108, 48]
          [115, 101, 114, 105, 97, 108] 8 ∧
        ∀ k', k' < 8 →
          ¬ occursAt [92, 68, 101, 118, 105, 99, 101, 92, 83, 101, 114, 105, 97, 108, 48]
            [115, 101, 114, 105, 97, 108] k')) :=
  ⟨by decide,
    (C28_stristr_returns_the_leftmost_occurrence
      [92, 68, 101, 118, 105, 99, 101, 92, 83, 101, 114, 105, 97, 108, 48]
      [115, 101, 114, 105, 97, 108] (by decide) (by decide)).2.1 8⟩

/-! ### C29: the stores into the label buffer -/

/-- C29 (failing input): a Location frame with the length byte `L = 255` and a text of 255
letters `A`.  The array `labelString` has 255 cells, indices 0 to 254.  Of the stores
`ExportCSVFile` makes into it, one lies outside: the terminating NUL, stored at index 255.
With the length byte 254 every store lies inside. -/
theorem C29_terminator_of_a_255_byte_label_is_stored_outside :
    labelStringSize = 255 ∧
    (ExportCSVFile
        (flashImage ([0x55, 0xAA, 0x02, 0xFF] ++ List.replicate 255 65 ++ [0x55, 0xAA, 0xFF]))
        ⟨0, 0, 0, 0, 0, 0, 0⟩ []).map
        (fun s => (s.labelStores.length,
          s.labelStores.filter (fun w => decide (labelStringSize ≤ w.1)))) =
      .ok (256, [(255, 0)]) ∧
    (ExportCSVFile
        (flashImage ([0x55, 0xAA, 0x02, 0xFE] ++ List.replicate 254 65 ++ [0x55, 0xAA, 0xFF]))
        ⟨0, 0, 0, 0, 0, 0, 0⟩ []).map
        (fun s => (s.labelStores.length,
          s.labelStores.filter (fun w => decide (labelStringSize ≤ w.1)))) =
      .ok (255, []) := by
  refine ⟨rfl, by decide!, by decide!⟩

/-! ### C30: the accumulator of the average -/

/-- C30: for every list of at most 65535 entries, each a 16-bit value, every running sum of
`ComputeAverageAcrossAllCPMData` (the sum of the first `n` entries, for every `n`) is below
`2^32` and is what the 32-bit accumulator holds after `n` additions, and the value returned
for a non-empty list is the truncated mean `sum / length`.  Every list one run of
`ExtractClicksPerMinuteFromRawData` builds from the empty list is such a list. -/
theorem C30_accumulator_does_not_wrap (l : List Nat) (hlen : l.length ≤ 65535)
    (hbits : ∀ c ∈ l, c < 65536) :
    (∀ n, (l.take n).sum < 2 ^ 32 ∧ sumCPMData (l.take n) = (l.take n).sum) ∧
    (l ≠ [] → ComputeAverageAcrossAllCPMData l = .ok (l.sum / l.length)) ∧
    (∀ (img : Image) (s : ExtractState), ExtractClicksPerMinuteFromRawData img [] = .ok s →
      s.listCPMData.length ≤ 65535 ∧ ∀ c ∈ s.listCPMData, c < 65536) := by
  refine ⟨?_, ?_, ?_⟩
  · intro n
    have hb : ∀ c ∈ l.take n, c < 65536 := fun c hc => hbits c (List.mem_of_mem_take hc)
    have hl : (l.take n).length ≤ 65535 := by
      rw [List.length_take]; omega
    have heq := sumCPMData_eq_sum (l.take n) hb hl
    have hle := sumCPMData_le (l.take n)
    rw [heq] at hle
    refine ⟨?_, heq⟩
    have : 65535 * (l.take n).length ≤ 65535 * 65535 := Nat.mul_le_mul_left _ hl
    have e : (2 : Nat) ^ 32 = 4294967296 := by norm_num
    omega
  · intro hne
    have hpos : l.length ≠ 0 := fun h0 => hne (List.length_eq_zero.1 h0)
    simp only [ComputeAverageAcrossAllCPMData, hpos, if_false]
    rw [sumCPMData_eq_sum l hbits hlen]
  · intro img s h
    obtain ⟨h1, h2⟩ := ExtractClicksPerMinuteFromRawData_bounded img s h
    refine ⟨?_, h2⟩
    unfold MAX_FLASH_MEMORY at h1
    omega

theorem C30_accumulator_does_not_wrap_witness :
    (∀ n, (([65535, 65535, 7] : List Nat).take n).sum < 2 ^ 32 ∧
      sumCPMData (([65535, 65535, 7] : List Nat).take n) =
        (([65535, 65535, 7] : List Nat).take n).sum) ∧
    ComputeAverageAcrossAllCPMData [65535, 65535, 7] = .ok ((65535 + 65535 + 7) / 3) :=
  have h := C30_accumulator_does_not_wrap [65535, 65535, 7] (by decide) (by decide)
  ⟨h.1, h.2.1 (by decide)⟩

end ReadGeiger
